import Mathlib

/-!
The program msxconverter: the compressed-image (CMP) decoder and the format detector.

A verification development over a shallow embedding of

* `decoders/cmp/cmp.go`  (`bitStreamReader`, `readLookupTable`, `readByte`, `DecodeCMP`),
* `decoders/images/utils.go` (`getPalette`, `ResolvePalette`, `parseScreenHeader`,
  `calculateHeight`), `decoders/images/screens.go` (`decodeScreenNibbles`, `decodeScreen`,
  `decodeYaeYjk` and the five `DecodeScreen` entry points),
* `format/format.go`, `format/headers.go`, `format/constants.go` (`DetectFormat`).

Conventions of the embedding:

* a Go `byte`/`uint8` is a `Nat`; arithmetic that can leave the 8-bit range is reduced
  `% 256` at the place where Go truncates; input buffers are lists of `Nat` and the
  predicate `IsBytes` says that every element is below 256;
* a Go `int` holding an offset, a length or a loop index is a `Nat`;
* a function returning `(value, error)` returns `Except` with one constructor of an
  error type per `fmt.Errorf` call site;
* a method with a pointer receiver takes the receiver state and returns the new state;
* a counting `for` loop is `forRange`, a loop with a compound condition is `forWhile`.
-/

namespace MsxConverter

/-! ## Loops -/

/-- The loop `for i := lo; i < lo + n; i++ { s, err = body(i, s); if err != nil { return err } }`:
`n` iterations, the index starting at `i`, leaving at the first error. -/
def forRange {σ ε : Type} (body : Nat → σ → Except ε σ) : Nat → Nat → σ → Except ε σ
  | 0, _, s => .ok s
  | n + 1, i, s =>
    match body i s with
    | .error e => .error e
    | .ok s' => forRange body n (i + 1) s'

/-- The loop `for i := i0; cond(i); i++ { s = body(i, s) }`. The first numeric argument
bounds the number of iterations; every use passes a bound that the condition itself
enforces (`cond i` implies `i <` bound). -/
def forWhile {σ : Type} (cond : Nat → Bool) (body : Nat → σ → σ) : Nat → Nat → σ → σ
  | 0, _, s => s
  | n + 1, i, s => if cond i then forWhile cond body n (i + 1) (body i s) else s

instance instDecidableEqExcept {ε α : Type} [DecidableEq ε] [DecidableEq α] :
    DecidableEq (Except ε α)
  | .ok a, .ok b =>
    if h : a = b then isTrue (by rw [h]) else isFalse (fun h' => by cases h'; exact h rfl)
  | .error a, .error b =>
    if h : a = b then isTrue (by rw [h]) else isFalse (fun h' => by cases h'; exact h rfl)
  | .ok _, .error _ => isFalse (fun h => by cases h)
  | .error _, .ok _ => isFalse (fun h => by cases h)

/-- Every element of the buffer is a byte. -/
def IsBytes (data : List Nat) : Prop := ∀ b ∈ data, b < 256

instance (data : List Nat) : Decidable (IsBytes data) := by
  unfold IsBytes; infer_instance

/-! ## The bit-stream reader (`cmp.go`) -/

/-- One constructor per error site of `cmp.go`; wrapped errors keep their cause. -/
inductive CmpError where
  /-- newBitStreamReader: "offset %d exceeds data length %d" -/
  | offsetExceeds
  /-- readLookupTable: "unexpected end of data while reading lookup table" -/
  | tableEnd
  /-- readLookupTable: "unexpected end of data while reading lookup table byte %d" -/
  | tableByteEnd (i : Nat)
  /-- readByte: "unexpected end of data while reading byte from stream" -/
  | streamEnd
  /-- readByte: "failed to read new lookup table: %w" -/
  | newTableFailed (cause : CmpError)
  /-- DecodeCMP: "invalid CMP file: file too small" -/
  | fileTooSmall
  /-- DecodeCMP: "invalid CMP file: invalid dimensions" -/
  | invalidDimensions
  /-- DecodeCMP: "invalid CMP file: invalid control byte" -/
  | invalidControl
  /-- DecodeCMP: "failed to initialize bit stream reader: %w" -/
  | readerInit (cause : CmpError)
  /-- DecodeCMP: "error reading byte at scanline %d, x %d: %w" -/
  | readAt (scanline x : Nat) (cause : CmpError)
  /-- Not an error value: the Go run time panics (slice bounds out of range in
  `getPalette`); no result and no error is returned. -/
  | slicePanic
  deriving DecidableEq, Repr

/-- The struct `bitStreamReader`. -/
structure bitStreamReader where
  data : List Nat
  offset : Nat
  bitBuffer : Nat
  bitCounter : Nat
  lookupTable : List Nat
  tableIndex : Nat
  deriving DecidableEq, Repr

/-- Body of the loop of `readLookupTable` for slot `i` under control byte `controlByte`. -/
def readLookupTable.slot (controlByte : Nat) (i : Nat) (r : bitStreamReader) :
    Except CmpError bitStreamReader :=
  if controlByte &&& (1 <<< (7 - i)) ≠ 0 then
    if r.offset ≥ r.data.length then
      .error (.tableByteEnd i)
    else
      .ok { r with lookupTable := r.lookupTable.set i (r.data.getD r.offset 0),
                   offset := r.offset + 1 }
  else
    .ok { r with lookupTable := r.lookupTable.set i 0 }

/-- The method `readLookupTable`. -/
def readLookupTable (r : bitStreamReader) : Except CmpError bitStreamReader :=
  if r.offset ≥ r.data.length then
    .error .tableEnd
  else
    let controlByte := r.data.getD r.offset 0
    let r1 := { r with offset := r.offset + 1 }
    match forRange (readLookupTable.slot controlByte) 8 0 r1 with
    | .error e => .error e
    | .ok r2 =>
      .ok { r2 with bitBuffer := r2.lookupTable.getD 0 0, bitCounter := 8, tableIndex := 1 }

/-- The function `newBitStreamReader`. -/
def newBitStreamReader (data : List Nat) (offset : Nat) : Except CmpError bitStreamReader :=
  if offset ≥ data.length then
    .error .offsetExceeds
  else
    readLookupTable
      { data := data, offset := offset, bitBuffer := 0, bitCounter := 0,
        lookupTable := List.replicate 8 0, tableIndex := 0 }

/-- Second half of `readByte` (from `r.bitCounter--` on): decrement the 8-bit counter and,
when it reaches 0, reload the bit buffer from the table, from a new table, or from the
end-of-file zero table. -/
def readByte.reload (r : bitStreamReader) : Except CmpError bitStreamReader :=
  let r := { r with bitCounter := (r.bitCounter + 255) % 256 }
  if r.bitCounter = 0 then
    if r.tableIndex ≥ r.lookupTable.length then
      if r.offset ≥ r.data.length then
        .ok { r with bitBuffer := 0, bitCounter := 8, tableIndex := 0,
                     lookupTable := List.replicate r.lookupTable.length 0 }
      else
        match readLookupTable r with
        | .error e => .error (.newTableFailed e)
        | .ok r' => .ok r'
    else
      .ok { r with bitBuffer := r.lookupTable.getD r.tableIndex 0,
                   tableIndex := r.tableIndex + 1, bitCounter := 8 }
  else
    .ok r

/-- The method `readByte`: the result byte and the new reader state. -/
def readByte (r : bitStreamReader) : Except CmpError (Nat × bitStreamReader) :=
  let carry := r.bitBuffer &&& 0x80 ≠ 0
  let r1 := { r with bitBuffer := (r.bitBuffer <<< 1) % 256 }
  if carry then
    if r1.offset ≥ r1.data.length then
      .error .streamEnd
    else
      match readByte.reload { r1 with offset := r1.offset + 1 } with
      | .error e => .error e
      | .ok r2 => .ok (r1.data.getD r1.offset 0, r2)
  else
    match readByte.reload r1 with
    | .error e => .error e
    | .ok r2 => .ok (0, r2)

/-- The results of `n` successive `readByte` calls (in call order) and the final state;
the first failing call ends the sequence with its error. -/
def readBytes : Nat → bitStreamReader → Except CmpError (List Nat × bitStreamReader)
  | 0, r => .ok ([], r)
  | n + 1, r =>
    match readByte r with
    | .error e => .error e
    | .ok (b, r') =>
      match readBytes n r' with
      | .error e => .error e
      | .ok (bs, r'') => .ok (b :: bs, r'')

/-- The state invariant of a reader built by `newBitStreamReader`. -/
def ReaderInv (r : bitStreamReader) : Prop :=
  1 ≤ r.bitCounter ∧ r.bitCounter ≤ 8 ∧ r.tableIndex ≤ 8 ∧ r.lookupTable.length = 8 ∧
  r.offset ≤ r.data.length

instance (r : bitStreamReader) : Decidable (ReaderInv r) := by
  unfold ReaderInv; infer_instance

/-! ## Palettes and paletted images (`decoders/images/utils.go`, Go package `image`) -/

/-- The Go type `color.RGBA`. -/
structure RGBA where
  R : Nat
  G : Nat
  B : Nat
  A : Nat
  deriving DecidableEq, Repr

/-- The table `color3bitsLookupTable`. -/
def color3bitsLookupTable : List Nat := [0x00, 0x24, 0x49, 0x6d, 0x92, 0xb6, 0xdb, 0xff]

/-- The blob `defaultPalette`. -/
def defaultPalette : List Nat :=
  [0x00, 0x00, 0x00, 0x00, 0x11, 0x06, 0x33, 0x07,
   0x17, 0x01, 0x27, 0x03, 0x51, 0x01, 0x27, 0x06,
   0x71, 0x01, 0x73, 0x03, 0x61, 0x06, 0x64, 0x06,
   0x11, 0x04, 0x65, 0x02, 0x55, 0x05, 0x77, 0x07]

/-- The function `getPalette`. The slice expression `data[paletteOffset : paletteOffset+32]`
panics when the range is not inside the buffer; that outcome is `none`. -/
def getPalette (data : List Nat) (paletteOffset : Int) : Option (List RGBA) :=
  if paletteOffset < 0 ∨ data.length < paletteOffset.toNat + 32 then
    none
  else
    let paletteData := (data.drop paletteOffset.toNat).take 32
    some ((List.range 16).map fun i =>
      let raw := (paletteData.getD (i * 2) 0 + 256 * paletteData.getD (i * 2 + 1) 0) % 65536
      { R := color3bitsLookupTable.getD ((raw >>> 4) &&& 0b111) 0,
        G := color3bitsLookupTable.getD ((raw >>> 8) &&& 0b111) 0,
        B := color3bitsLookupTable.getD (raw &&& 0b111) 0,
        A := 255 })

/-- The function `ResolvePalette`; a `nil` blob is `none`. The addresses are `uint16`,
the palette offset is an `int` that the comparison converts with `uint16(paletteOffset)`. -/
def ResolvePalette (pixels : List Nat) (beginAddress endAddress : Nat) (paletteOffset : Int)
    (extraData : Option (List Nat)) : Option (List RGBA) :=
  if paletteOffset > 0 then
    if endAddress ≥ (paletteOffset % 65536).toNat then
      getPalette pixels (paletteOffset - beginAddress)
    else
      match extraData with
      | some blob => getPalette blob 0
      | none => getPalette defaultPalette 0
  else
    match extraData with
    | some blob => getPalette blob 0
    | none => getPalette defaultPalette 0

/-- The struct `types.Config`. -/
structure Config where
  OutputFormat : String
  DoubleImageSize : Bool
  VerboseOutput : Bool
  ExtraData : Option (List Nat)
  deriving DecidableEq, Repr

/-- A configuration as `Converter.Convert` builds it: the palette blob is absent or is a
result of `ProcessPaletteFile`, which has 32 bytes. -/
def Config.Valid (config : Config) : Prop :=
  ∀ blob, config.ExtraData = some blob → 32 ≤ blob.length

/-- The Go type `image.Paletted` with bounds `image.Rect(0, 0, width, height)`. -/
structure Paletted where
  Pix : List Nat
  Stride : Nat
  width : Nat
  height : Nat
  Palette : List RGBA
  deriving DecidableEq, Repr

/-- The constructor `image.NewPaletted(image.Rect(0, 0, width, height), palette)`. -/
def NewPaletted (width height : Nat) (palette : List RGBA) : Paletted :=
  { Pix := List.replicate (width * height) 0, Stride := width, width := width,
    height := height, Palette := palette }

/-- The method `(*image.Paletted).SetColorIndex`: no effect outside the bounds. -/
def Paletted.SetColorIndex (p : Paletted) (x y index : Nat) : Paletted :=
  if x < p.width ∧ y < p.height then
    { p with Pix := p.Pix.set (y * p.Stride + x) index }
  else
    p

/-- The method `(*image.Paletted).ColorIndexAt`: 0 outside the bounds. -/
def Paletted.ColorIndexAt (p : Paletted) (x y : Nat) : Nat :=
  if x < p.width ∧ y < p.height then p.Pix.getD (y * p.Stride + x) 0 else 0

/-- The constant `images.ScreenWidth`. -/
def ScreenWidth : Nat := 256

/-! ## `DecodeCMP` (`cmp.go`) -/

/-- Loop state of the two decoding phases: the reader and the buffer `output`. -/
abbrev DecodeState := bitStreamReader × List Nat

/-- Body of the inner loop of Phase 1. -/
def DecodeCMP.directByte (width scanline x : Nat) (s : DecodeState) :
    Except CmpError DecodeState :=
  match readByte s.1 with
  | .error e => .error (.readAt scanline x e)
  | .ok (b, reader) => .ok (reader, s.2.set (scanline * width + x) b)

/-- Body of the inner loop of Phase 2, with `prevScanline := scanline - 1` a Go `int`. -/
def DecodeCMP.xorByte (width scanline x : Nat) (s : DecodeState) :
    Except CmpError DecodeState :=
  let prevScanline : Int := (scanline : Int) - 1
  match readByte s.1 with
  | .error e => .error (.readAt scanline x e)
  | .ok (b, reader) =>
    let b := if prevScanline ≥ 0 then b ^^^ s.2.getD (prevScanline.toNat * width + x) 0 else b
    .ok (reader, s.2.set (scanline * width + x) b)

/-- Phase 1: `for scanline := 0; scanline < control; scanline++ { for x := 0; x < width; x++ {..} }`. -/
def DecodeCMP.phase1 (width control : Nat) (s : DecodeState) : Except CmpError DecodeState :=
  forRange (fun scanline s => forRange (DecodeCMP.directByte width scanline) width 0 s) control 0 s

/-- Phase 2: `for scanline := control; scanline < height; scanline++ { for x := 0; x < width; x++ {..} }`. -/
def DecodeCMP.phase2 (width height control : Nat) (s : DecodeState) :
    Except CmpError DecodeState :=
  forRange (fun scanline s => forRange (DecodeCMP.xorByte width scanline) width 0 s)
    (height - control) control s

/-- Both phases on the fresh buffer `make([]byte, width*height)`: the final reader and the
decoded byte buffer. -/
def DecodeCMP.rows (width height control : Nat) (reader : bitStreamReader) :
    Except CmpError DecodeState :=
  match DecodeCMP.phase1 width control (reader, List.replicate (width * height) 0) with
  | .error e => .error e
  | .ok s => DecodeCMP.phase2 width height control s

/-- Body of the pixel loop: the two pixels of byte column `x` in row `y`. -/
def DecodeCMP.pixelPair (width outputWidth : Nat) (output : List Nat) (y x : Nat)
    (img : Paletted) : Paletted :=
  let byteVal := output.getD (y * width + x) 0
  let img := img.SetColorIndex (x * 2) y (byteVal >>> 4)
  if x * 2 + 1 < outputWidth then img.SetColorIndex (x * 2 + 1) y (byteVal &&& 0x0F) else img

/-- The pixel loops
`for y := 0; y < height; y++ { for x := 0; x < width && x*2 < outputWidth; x++ {..} }`. -/
def DecodeCMP.pixels (width height outputWidth : Nat) (output : List Nat) (img : Paletted) :
    Paletted :=
  forWhile (fun y => decide (y < height))
    (fun y img =>
      forWhile (fun x => decide (x < width) && decide (x * 2 < outputWidth))
        (DecodeCMP.pixelPair width outputWidth output y) width 0 img)
    height 0 img

/-- The arguments of the closing call
`images.FinalizeImage(img, outputWidth, height, config.DoubleImageSize)`. -/
structure FinalizeCall where
  img : Paletted
  width : Nat
  height : Nat
  double : Bool
  deriving DecidableEq, Repr

/-- The function `DecodeCMP` up to its closing call of `images.FinalizeImage` (optional
2x magnification and PNG container encoding, which are outside this definition): the
result is the decoded paletted image with the arguments of that call. -/
def DecodeCMP (data : List Nat) (config : Config) : Except CmpError FinalizeCall :=
  if data.length < 3 then
    .error .fileTooSmall
  else
    let width := data.getD 0 0
    let height := data.getD 1 0
    let control := data.getD 2 0
    if width ≤ 0 ∨ height ≤ 0 then
      .error .invalidDimensions
    else if control < 0 ∨ control > height then
      .error .invalidControl
    else
      match newBitStreamReader data 3 with
      | .error e => .error (.readerInit e)
      | .ok reader =>
        let outputWidth := if width * 2 > ScreenWidth then ScreenWidth else width * 2
        match DecodeCMP.rows width height control reader with
        | .error e => .error e
        | .ok (_, output) =>
          match ResolvePalette [] 0 0 0 config.ExtraData with
          | none => .error .slicePanic
          | some palette =>
            let img := NewPaletted outputWidth height palette
            .ok { img := DecodeCMP.pixels width height outputWidth output img,
                  width := outputWidth, height := height, double := config.DoubleImageSize }

/-! ## The format detector (`format/format.go`) -/

/-- The constant `MagicByteBAS`. -/
def MagicByteBAS : Nat := 0xFF
/-- The constant `MagicByteWB2`. -/
def MagicByteWB2 : Nat := 0xFD
/-- The constant `MagicByteBinary`. -/
def MagicByteBinary : Nat := 0xFE
/-- The variable `HeaderSC5`. -/
def HeaderSC5 : List Nat := [0xFE, 0x00, 0x00, 0x9F, 0x76, 0x00, 0x00]

/-- The function `matchesHeader`. -/
def matchesHeader (data header : List Nat) : Bool :=
  if data.length < header.length then
    false
  else
    (List.range header.length).all fun i => data.getD i 0 == header.getD i 0

/-- The two functions of the Go standard library whose result depends on Unicode tables
or on the operating system; `DetectFormat` takes them as a parameter. -/
structure GoStd where
  /-- The function `strings.ToUpper`. -/
  ToUpper : String → String
  /-- The function `os.IsPathSeparator`. -/
  IsPathSeparator : Char → Bool

/-- ASCII upper-casing and the path separator of Unix. -/
def GoStd.unix : GoStd :=
  { ToUpper := fun s => String.mk (s.data.map Char.toUpper),
    IsPathSeparator := fun c => c == '/' }

/-- Loop of `filepath.Ext`, from the last character backwards: `rev` holds the characters
not yet visited in reverse order, `suffix` the characters already visited. -/
def filepathExt.loop (std : GoStd) : List Char → List Char → List Char
  | [], _ => []
  | c :: rev, suffix =>
    if std.IsPathSeparator c then []
    else if c = '.' then c :: suffix
    else filepathExt.loop std rev (c :: suffix)

/-- The function `filepath.Ext`: the suffix beginning at the final dot of the final path
element, or the empty string. -/
def filepathExt (std : GoStd) (path : String) : String :=
  String.mk (filepathExt.loop std path.data.reverse [])

/-- The function `strings.TrimLeft(s, cutset)`. -/
def stringsTrimLeft (s cutset : String) : String :=
  String.mk (s.data.dropWhile fun c => cutset.data.contains c)

/-- The function `DetectFormat`. -/
def DetectFormat (std : GoStd) (data : List Nat) (inputFileName fileType : String) : String :=
  if fileType.length > 0 then
    fileType
  else if data.length = 0 then
    "unknown"
  else if data.getD 0 0 = MagicByteBAS then
    "BAS"
  else if data.getD 0 0 = MagicByteWB2 then
    "WB2"
  else if data.getD 0 0 = MagicByteBinary then
    if data.length ≥ 7 then
      let extension := std.ToUpper (stringsTrimLeft (filepathExt std inputFileName) ".")
      if extension = "GE5" ∨ extension = "SC5" ∨ extension = "SR5" then "SC5"
      else if extension = "SC7" ∨ extension = "SR7" then "SC7"
      else if extension = "SC8" ∨ extension = "PIC" ∨ extension = "SR8" then "SC8"
      else if extension = "S10" ∨ extension = "SCA" then "S10"
      else if extension = "S12" ∨ extension = "SCC" ∨ extension = "SRS" then "S12"
      else if extension = "CMP" then "CMP"
      else if data.length ≥ HeaderSC5.length ∧ matchesHeader data HeaderSC5 then "SC5"
      else "unknown"
    else
      "unknown"
  else
    let extension := std.ToUpper (stringsTrimLeft (filepathExt std inputFileName) ".")
    if extension ≠ "" then extension else "unknown"

/-! ## The memory-dump screen decoders (`decoders/images/utils.go`, `screens.go`) -/

/-- The constant `images.ScreenWidth7`. -/
def ScreenWidth7 : Nat := 512
/-- The constant `images.ScreenHeightMSX1`. -/
def ScreenHeightMSX1 : Nat := 192
/-- The constant `images.ScreenHeightMSX2`. -/
def ScreenHeightMSX2 : Nat := 212
/-- The constant `images.PaletteOffset5`. -/
def PaletteOffset5 : Nat := 0x7680
/-- The constant `images.PaletteOffset`. -/
def PaletteOffset : Nat := 0xFA80

/-- The table `color2bitsLookupTable`. -/
def color2bitsLookupTable : List Nat := [0x00, 0x55, 0xaa, 0xff]

/-- The table `color5bitsLookupTable`. -/
def color5bitsLookupTable : List Nat :=
  [0, 8, 16, 24, 33, 41, 49, 57,
   66, 74, 82, 90, 99, 107, 115, 123,
   132, 140, 148, 156, 165, 173, 181, 189,
   198, 206, 214, 222, 231, 239, 247, 255]

/-- The function `clamp` on Go `int`s. -/
def clamp (val min max : Int) : Int :=
  if val < min then min
  else if val > max then max
  else val

/-- The function `GetDefaultPalette`. -/
def GetDefaultPalette : Option (List RGBA) := getPalette defaultPalette 0

/-- One constructor per error site of the screen decoders, and the run-time panics of Go
that their unguarded accesses can raise (a panic returns neither a result nor an error). -/
inductive ImageError where
  /-- parseScreenHeader: "screen data too small: got %d bytes, need at least 7" -/
  | screenTooSmall
  /-- Run-time panic "index out of range" of an index expression `s[i]`. -/
  | indexOutOfRange
  /-- Run-time panic "slice bounds out of range" of the slice expression in `getPalette`. -/
  | sliceOutOfRange
  deriving DecidableEq, Repr

/-- The function `binary.LittleEndian.Uint16` on a slice of two bytes:
`uint16(b[0]) | uint16(b[1])<<8`. -/
def littleEndianUint16 (b : List Nat) : Nat :=
  (b.getD 0 0 ||| (b.getD 1 0 <<< 8)) % 65536

/-- The struct `screenHeader`; the two addresses are `uint16`. -/
structure screenHeader where
  beginAddress : Nat
  endAddress : Nat
  pixels : List Nat
  deriving DecidableEq, Repr

/-- The function `parseScreenHeader`. -/
def parseScreenHeader (data : List Nat) : Except ImageError screenHeader :=
  if data.length < 7 then
    .error .screenTooSmall
  else
    .ok { beginAddress := littleEndianUint16 ((data.drop 1).take 2),
          endAddress := littleEndianUint16 ((data.drop 3).take 2),
          pixels := data.drop 7 }

/-- The function `calculateHeight`; `uint16(width)` is `width % 65536`. Go panics on a zero
divisor, which no caller passes (the row widths are 128 and 256); here the quotient is 0. -/
def calculateHeight (endAddress width : Nat) : Nat :=
  let endLine := endAddress / (width % 65536)
  if endLine ≤ ScreenHeightMSX1 then ScreenHeightMSX1 else ScreenHeightMSX2

/-- The arguments of a closing call `FinalizeImage(img, width, height, double)` with an
`*image.RGBA`; a pixel is one `color.RGBA` value (four bytes of `Pix` in Go). -/
structure RGBAImage where
  Pix : List RGBA
  width : Nat
  height : Nat
  deriving DecidableEq, Repr

/-- The constructor `image.NewRGBA(image.Rect(0, 0, width, height))`: all bytes zero. -/
def NewRGBA (width height : Nat) : RGBAImage :=
  { Pix := List.replicate (width * height) ⟨0, 0, 0, 0⟩, width := width, height := height }

/-- The method `(*image.RGBA).Set` with a `color.RGBA` value: no effect outside the bounds. -/
def RGBAImage.Set (p : RGBAImage) (x y : Nat) (c : RGBA) : RGBAImage :=
  if x < p.width ∧ y < p.height then
    { p with Pix := p.Pix.set (y * p.width + x) c }
  else
    p

/-- The arguments of the closing call `FinalizeImage` of the direct-colour decoders. -/
structure FinalizeCallRGBA where
  img : RGBAImage
  width : Nat
  height : Nat
  double : Bool
  deriving DecidableEq, Repr

/-- Body of the address loop of `decodeScreenNibbles`; `addr` is a `uint16`, the index
expression `header.pixels[addr-header.beginAddress]` has no guard. -/
def decodeScreenNibbles.pixel (header : screenHeader) (width : Nat) (addr : Nat)
    (img : Paletted) : Except ImageError Paletted :=
  let y := addr / ((width / 2) % 65536)
  let x := addr % ((width / 2) % 65536)
  match header.pixels[addr - header.beginAddress]? with
  | none => .error .indexOutOfRange
  | some byteVal =>
    .ok ((img.SetColorIndex (x * 2) y (byteVal >>> 4)).SetColorIndex (x * 2 + 1) y
      (byteVal &&& 0x0F))

/-- The function `decodeScreenNibbles` up to its closing call of `FinalizeImage`. The loop
`for addr := header.beginAddress; addr < header.endAddress; addr++` runs
`endAddress - beginAddress` times (no time when the difference is not positive). -/
def decodeScreenNibbles (data : List Nat) (config : Config) (width : Nat)
    (paletteOffset : Nat) : Except ImageError FinalizeCall :=
  match parseScreenHeader data with
  | .error e => .error e
  | .ok header =>
    let height := calculateHeight header.endAddress (width / 2)
    match ResolvePalette header.pixels header.beginAddress header.endAddress paletteOffset
        config.ExtraData with
    | none => .error .sliceOutOfRange
    | some palette =>
      let img := NewPaletted width height palette
      let endAddress :=
        if (height * (width / 2)) % 65536 < header.endAddress
        then (height * (width / 2)) % 65536 else header.endAddress
      match forRange (decodeScreenNibbles.pixel header width)
          (endAddress - header.beginAddress) header.beginAddress img with
      | .error e => .error e
      | .ok img' =>
        .ok { img := img', width := width, height := height,
              double := config.DoubleImageSize }

/-- Body of the address loop of `decodeScreen`. -/
def decodeScreen.pixel (header : screenHeader) (width : Nat) (addr : Nat)
    (img : RGBAImage) : Except ImageError RGBAImage :=
  let y := addr / (width % 65536)
  let x := addr % (width % 65536)
  match header.pixels[addr - header.beginAddress]? with
  | none => .error .indexOutOfRange
  | some byteVal =>
    let r := color3bitsLookupTable.getD ((byteVal >>> 2) &&& 0b111) 0
    let g := color3bitsLookupTable.getD ((byteVal >>> 5) &&& 0b111) 0
    let b := color2bitsLookupTable.getD (byteVal &&& 0b11) 0
    .ok (img.Set x y { R := r, G := g, B := b, A := 255 })

/-- The function `decodeScreen` up to its closing call of `FinalizeImage`. -/
def decodeScreen (data : List Nat) (config : Config) (width : Nat) :
    Except ImageError FinalizeCallRGBA :=
  match parseScreenHeader data with
  | .error e => .error e
  | .ok header =>
    let height := calculateHeight header.endAddress width
    let img := NewRGBA width height
    let endAddress :=
      if (height * width) % 65536 < header.endAddress
      then (height * width) % 65536 else header.endAddress
    match forRange (decodeScreen.pixel header width)
        (endAddress - header.beginAddress) header.beginAddress img with
    | .error e => .error e
    | .ok img' =>
      .ok { img := img', width := width, height := height, double := config.DoubleImageSize }

/-- Body of the loop `for i := 0; i < 4; i++` of `decodeYaeYjk`: pixel `x + i` of row `y`. -/
def decodeYaeYjk.pixel (header : screenHeader) (palette : List RGBA) (isYae : Bool)
    (idx x y : Nat) (k j : Int) (i : Nat) (img : RGBAImage) : Except ImageError RGBAImage :=
  match header.pixels[idx + i]? with
  | none => .error .indexOutOfRange
  | some v =>
    let yVal : Nat := v >>> 3
    if isYae = true ∧ yVal &&& 1 = 1 then
      match palette[yVal >>> 1]? with
      | none => .error .indexOutOfRange
      | some c => .ok (img.Set (x + i) y c)
    else
      let r := clamp ((yVal : Int) + j) 0 31
      let g := clamp ((yVal : Int) + k) 0 31
      let b := clamp (Int.tdiv (5 * (yVal : Int)) 4 - Int.tdiv j 2 - Int.tdiv k 4) 0 31
      .ok (img.Set (x + i) y
        { R := color5bitsLookupTable.getD r.toNat 0, G := color5bitsLookupTable.getD g.toNat 0,
          B := color5bitsLookupTable.getD b.toNat 0, A := 255 })

/-- Body of the loop `for x := 0; x < width; x += 4` of `decodeYaeYjk`, for the group
number `q` (`x = 4 * q`): the four bytes are read in order, each read unguarded. -/
def decodeYaeYjk.group (header : screenHeader) (palette : List RGBA) (isYae : Bool)
    (width y q : Nat) (img : RGBAImage) : Except ImageError RGBAImage :=
  let x := q * 4
  let idx := y * width + x
  match header.pixels[idx + 0]? with
  | none => .error .indexOutOfRange
  | some b1 =>
    match header.pixels[idx + 1]? with
    | none => .error .indexOutOfRange
    | some b2 =>
      match header.pixels[idx + 2]? with
      | none => .error .indexOutOfRange
      | some b3 =>
        match header.pixels[idx + 3]? with
        | none => .error .indexOutOfRange
        | some b4 =>
          let k0 : Int := (((b1 &&& 7) + ((b2 &&& 7) <<< 3)) % 256 : Nat)
          let j0 : Int := (((b3 &&& 7) + ((b4 &&& 7) <<< 3)) % 256 : Nat)
          let k := if k0 > 31 then k0 - 64 else k0
          let j := if j0 > 31 then j0 - 64 else j0
          forRange (decodeYaeYjk.pixel header palette isYae idx x y k j) 4 0 img

/-- The function `decodeYaeYjk` up to its closing call of `FinalizeImage`. The loop
`for x := 0; x < width; x += 4` runs `(width + 3) / 4` times. A `nil` palette is `[]`. -/
def decodeYaeYjk (data : List Nat) (config : Config) (width : Nat) (paletteOffset : Nat)
    (isYae : Bool) : Except ImageError FinalizeCallRGBA :=
  match parseScreenHeader data with
  | .error e => .error e
  | .ok header =>
    let height := calculateHeight header.endAddress width
    let resolved : Option (List RGBA) :=
      if paletteOffset > 0 then
        ResolvePalette header.pixels header.beginAddress header.endAddress paletteOffset
          config.ExtraData
      else some []
    match resolved with
    | none => .error .sliceOutOfRange
    | some palette =>
      let img := NewRGBA width height
      match forRange
          (fun y img =>
            forRange (decodeYaeYjk.group header palette isYae width y) ((width + 3) / 4) 0 img)
          height 0 img with
      | .error e => .error e
      | .ok img' =>
        .ok { img := img', width := width, height := height,
              double := config.DoubleImageSize }

/-- The function `DecodeScreen5`. -/
def DecodeScreen5 (data : List Nat) (config : Config) : Except ImageError FinalizeCall :=
  decodeScreenNibbles data config ScreenWidth PaletteOffset5

/-- The function `DecodeScreen7`. -/
def DecodeScreen7 (data : List Nat) (config : Config) : Except ImageError FinalizeCall :=
  decodeScreenNibbles data config ScreenWidth7 PaletteOffset

/-- The function `DecodeScreen8`. -/
def DecodeScreen8 (data : List Nat) (config : Config) : Except ImageError FinalizeCallRGBA :=
  decodeScreen data config ScreenWidth

/-- The function `DecodeScreen10`. -/
def DecodeScreen10 (data : List Nat) (config : Config) : Except ImageError FinalizeCallRGBA :=
  decodeYaeYjk data config ScreenWidth PaletteOffset true

/-- The function `DecodeScreen12`. -/
def DecodeScreen12 (data : List Nat) (config : Config) : Except ImageError FinalizeCallRGBA :=
  decodeYaeYjk data config ScreenWidth 0 false

/-- The extension that `DetectFormat` compares: `strings.ToUpper` of the filename's
extension without its dot. -/
def upperExtension (std : GoStd) (inputFileName : String) : String :=
  std.ToUpper (stringsTrimLeft (filepathExt std inputFileName) ".")

/-- The method `(*image.RGBA).RGBAAt`, which `At` returns: the zero colour outside the
bounds. -/
def RGBAImage.RGBAAt (p : RGBAImage) (x y : Nat) : RGBA :=
  if x < p.width ∧ y < p.height then p.Pix.getD (y * p.width + x) ⟨0, 0, 0, 0⟩
  else ⟨0, 0, 0, 0⟩

/-! ## Image doubling and the stamp decoder (`utils.go`, `screens.go`, `stp.go`) -/

/-- The loop `for i := i0; i < i0 + n; i++ { s = body(i, s) }` with a body that cannot
fail: the first numeric argument is the number of iterations, the second is `i0`. -/
def forCount {σ : Type} (body : Nat → σ → σ) : Nat → Nat → σ → σ
  | 0, _, s => s
  | n + 1, i, s => forCount body n (i + 1) (body i s)

/-- Run-time panics of Go in the image code. -/
inductive Panic where
  /-- The panic "index out of range" of an index expression. -/
  | indexOutOfRange
  /-- The panic "nil pointer dereference": a method call on a `nil` `color.Color`. -/
  | nilDereference
  deriving DecidableEq, Repr

/-- One channel of the method `color.RGBA.RGBA`: `r = uint32(c.R); r |= r << 8`. -/
def RGBA.channel (c : Nat) : Nat := (c ||| (c <<< 8)) % 2 ^ 32

/-- The function `sqDiff` of the Go package `image/color`, on `uint32`:
`d := x - y; return (d * d) >> 2`. -/
def sqDiff (x y : Nat) : Nat :=
  let d := (x + 2 ^ 32 - y) % 2 ^ 32
  ((d * d) % 2 ^ 32) >>> 2

/-- The `uint32` value `sum` that `color.Palette.Index` computes for the entry `v`. -/
def PaletteIndex.sum (c v : RGBA) : Nat :=
  (sqDiff (RGBA.channel c.R) (RGBA.channel v.R) + sqDiff (RGBA.channel c.G) (RGBA.channel v.G) +
    sqDiff (RGBA.channel c.B) (RGBA.channel v.B) +
    sqDiff (RGBA.channel c.A) (RGBA.channel v.A)) % 2 ^ 32

/-- The loop `for i, v := range p` of `color.Palette.Index` from the entry number `i` on,
with the running values of `ret` and `bestSum`. -/
def PaletteIndex.loop (c : RGBA) : List RGBA → Nat → Nat → Nat → Nat
  | [], _, ret, _ => ret
  | v :: rest, i, ret, bestSum =>
    if PaletteIndex.sum c v < bestSum then
      if PaletteIndex.sum c v = 0 then i
      else PaletteIndex.loop c rest (i + 1) i (PaletteIndex.sum c v)
    else PaletteIndex.loop c rest (i + 1) ret bestSum

/-- The method `color.Palette.Index`: `ret, bestSum := 0, uint32(1<<32-1)`, then the loop. -/
def PaletteIndex (p : List RGBA) (c : RGBA) : Nat :=
  PaletteIndex.loop c p 0 0 (2 ^ 32 - 1)

/-- The method `(*image.Paletted).At`. The `color.Color` result is `none` for the `nil`
that an empty palette gives; outside the bounds the result is `p.Palette[0]`. -/
def Paletted.At (p : Paletted) (x y : Nat) : Except Panic (Option RGBA) :=
  if p.Palette.length = 0 then .ok none
  else if ¬ (x < p.width ∧ y < p.height) then
    match p.Palette[0]? with
    | none => .error .indexOutOfRange
    | some c => .ok (some c)
  else
    match p.Pix[y * p.Stride + x]? with
    | none => .error .indexOutOfRange
    | some i =>
      match p.Palette[i]? with
      | none => .error .indexOutOfRange
      | some c => .ok (some c)

/-- The method `(*image.Paletted).Set`: no effect outside the bounds, otherwise
`p.Pix[i] = uint8(p.Palette.Index(c))`. -/
def Paletted.Set (p : Paletted) (x y : Nat) (c : Option RGBA) : Except Panic Paletted :=
  if ¬ (x < p.width ∧ y < p.height) then .ok p
  else
    match c with
    | none => .error .nilDereference
    | some c =>
      .ok { p with Pix := p.Pix.set (y * p.Stride + x) (PaletteIndex p.Palette c % 256) }

/-- Body of the inner loop of `doubleSize`. The method `(*image.RGBA).At` is `RGBAAt`, and
`(*image.RGBA).Set` stores a `color.RGBA` value unchanged. -/
def doubleSize.pixel (img : RGBAImage) (y x : Nat) (doubleImg : RGBAImage) : RGBAImage :=
  let c := img.RGBAAt x y
  (((doubleImg.Set (x * 2) (y * 2) c).Set (x * 2 + 1) (y * 2) c).Set (x * 2) (y * 2 + 1) c).Set
    (x * 2 + 1) (y * 2 + 1) c

/-- The function `doubleSize`. -/
def doubleSize (width height : Nat) (img : RGBAImage) : RGBAImage :=
  forCount (fun y d => forCount (doubleSize.pixel img y) width 0 d) height 0
    (NewRGBA (width * 2) (height * 2))

/-- Body of the inner loop of `doubleSizePaletted`. -/
def doubleSizePaletted.pixel (img : Paletted) (y x : Nat) (doubleImg : Paletted) :
    Except Panic Paletted :=
  (img.At x y).bind fun c =>
  (doubleImg.Set (x * 2) (y * 2) c).bind fun d1 =>
  (d1.Set (x * 2 + 1) (y * 2) c).bind fun d2 =>
  (d2.Set (x * 2) (y * 2 + 1) c).bind fun d3 =>
  d3.Set (x * 2 + 1) (y * 2 + 1) c

/-- The function `doubleSizePaletted`. -/
def doubleSizePaletted (width height : Nat) (img : Paletted) : Except Panic Paletted :=
  forRange (fun y d => forRange (doubleSizePaletted.pixel img y) width 0 d) height 0
    (NewPaletted (width * 2) (height * 2) img.Palette)

/-- Body of the inner loop of `doubleHeightPaletted`. -/
def doubleHeightPaletted.pixel (img : Paletted) (y x : Nat) (doubleImg : Paletted) : Paletted :=
  let c := img.ColorIndexAt x y
  (doubleImg.SetColorIndex x (y * 2) c).SetColorIndex x (y * 2 + 1) c

/-- The function `doubleHeightPaletted`. -/
def doubleHeightPaletted (width height : Nat) (img : Paletted) : Paletted :=
  forCount (fun y d => forCount (doubleHeightPaletted.pixel img y) width 0 d) height 0
    (NewPaletted width (height * 2) img.Palette)

/-- The function `FinalizeImage` up to its closing call of `encodePNG`, in the case
`*image.Paletted` of its type switch. -/
def FinalizeImage (c : FinalizeCall) : Except Panic Paletted :=
  if c.double = true then doubleSizePaletted c.width c.height c.img else .ok c.img

/-- The function `FinalizeImage` up to its closing call of `encodePNG`, in the case
`*image.RGBA` of its type switch. -/
def FinalizeImage.rgba (c : FinalizeCallRGBA) : RGBAImage :=
  if c.double = true then doubleSize c.width c.height c.img else c.img

/-- One constructor per `fmt.Errorf` site of `DecodeSTP`, and the run-time panics. -/
inductive StpError where
  /-- The error "invalid STP file: file too small (got %d bytes, need at least 4)". -/
  | fileTooSmall (got : Nat)
  /-- The error "incomplete STP pixel data: got %d bytes, expected %d bytes for %dx%d
  image". -/
  | incompletePixelData (got expected width height : Nat)
  /-- A run-time panic. -/
  | panicked (p : Panic)
  deriving DecidableEq, Repr

/-- The palette literal of `DecodeSTP`: black, white. -/
def DecodeSTP.palette : List RGBA := [⟨0, 0, 0, 255⟩, ⟨255, 255, 255, 255⟩]

/-- Body of the inner loop of `DecodeSTP`; the state is the image and the counter `idx`.
The value `1-val` is a `uint8`. -/
def DecodeSTP.pixel (pixels : List Nat) (y x : Nat) (s : Paletted × Nat) :
    Except StpError (Paletted × Nat) :=
  let idx := s.2
  let byteIdx := idx / 4
  let shift := 6 - 2 * (idx % 4)
  match pixels[byteIdx]? with
  | none => .error (.panicked .indexOutOfRange)
  | some b =>
    let val := (b >>> shift) &&& 0x01
    .ok (s.1.SetColorIndex x y ((1 + 256 - val) % 256), idx + 1)

/-- The part of `DecodeSTP` from `image.NewPaletted` to the end of the pixel loops. -/
def DecodeSTP.unpack (width height : Nat) (pixels : List Nat) : Except StpError Paletted :=
  match forRange (fun y s => forRange (DecodeSTP.pixel pixels y) width 0 s) height 0
      (NewPaletted width height DecodeSTP.palette, 0) with
  | .error e => .error e
  | .ok s => .ok s.1

/-- The function `DecodeSTP` up to its closing call of `encodePNG`: the result is the
image `output`. -/
def DecodeSTP (data : List Nat) (config : Config) : Except StpError Paletted :=
  if data.length < 4 then .error (.fileTooSmall data.length)
  else
    let width := littleEndianUint16 ((data.drop 0).take 2)
    let height := littleEndianUint16 ((data.drop 2).take 2)
    let pixels := data.drop 4
    let expected := (width * height + 3) / 4
    if pixels.length < expected then
      .error (.incompletePixelData pixels.length expected width height)
    else
      match DecodeSTP.unpack width height pixels with
      | .error e => .error e
      | .ok img =>
        let doubledHeightImg := doubleHeightPaletted width height img
        if config.DoubleImageSize = true then
          match doubleSizePaletted width (height * 2) doubledHeightImg with
          | .error p => .error (.panicked p)
          | .ok output => .ok output
        else .ok doubledHeightImg

/-! ## External palette files (`converter/palette.go`) -/

/-- The constant `BinaryHeaderSize`. -/
def BinaryHeaderSize : Nat := 7
/-- The constant `PaletteSize`. -/
def PaletteSize : Nat := 32
/-- The constant `SC5PaletteOffset`. -/
def SC5PaletteOffset : Nat := 0x7680

/-- One constructor per `fmt.Errorf` site of `palette.go`. -/
inductive PaletteFileError where
  /-- The error "palette file is empty". -/
  | empty
  /-- The error "palette file with binary header is too small: got %d bytes, need at
  least %d". -/
  | headerTooSmall (got : Nat)
  /-- The error "palette file with binary header: expected 32 bytes after header or
  SCREEN 5 file, got %d bytes after header". -/
  | notPaletteNorScreen5 (afterHeader : Nat)
  /-- The error "palette file format not recognized: file size is %d bytes ...". -/
  | notRecognized (size : Nat)
  /-- The error "file too small for SCREEN 5 header". -/
  | screen5HeaderTooSmall
  /-- The error "palette address 0x%04X is before begin address 0x%04X". -/
  | paletteBeforeBegin (beginAddress : Nat)
  /-- The error "file too small to contain palette: need %d bytes, got %d". -/
  | noRoomForPalette (need got : Nat)
  deriving DecidableEq, Repr

/-- The function `isScreen5File`. -/
def isScreen5File (data : List Nat) : Bool :=
  if data.length < BinaryHeaderSize then false
  else if data.getD 0 0 ≠ MagicByteBinary then false
  else
    let endAddress := littleEndianUint16 ((data.drop 3).take 2)
    if endAddress ≥ SC5PaletteOffset + PaletteSize - 1 then true else false

/-- The function `extractScreen5Palette`; the subtraction `SC5PaletteOffset-beginAddress`
is a `uint16`. -/
def extractScreen5Palette (data : List Nat) : Except PaletteFileError (List Nat) :=
  if data.length < BinaryHeaderSize then .error .screen5HeaderTooSmall
  else
    let beginAddress := littleEndianUint16 ((data.drop 1).take 2)
    if SC5PaletteOffset < beginAddress then .error (.paletteBeforeBegin beginAddress)
    else
      let paletteFileOffset := (SC5PaletteOffset + 65536 - beginAddress) % 65536 + BinaryHeaderSize
      if data.length < paletteFileOffset + PaletteSize then
        .error (.noRoomForPalette (paletteFileOffset + PaletteSize) data.length)
      else
        .ok ((data.drop paletteFileOffset).take PaletteSize)

/-- The function `ProcessPaletteFile`. -/
def ProcessPaletteFile (paletteData : List Nat) : Except PaletteFileError (List Nat) :=
  if paletteData.length = 0 then .error .empty
  else if paletteData.length = PaletteSize then .ok paletteData
  else if paletteData.getD 0 0 = MagicByteBinary then
    if paletteData.length < BinaryHeaderSize then .error (.headerTooSmall paletteData.length)
    else
      let dataAfterHeader := paletteData.drop BinaryHeaderSize
      if dataAfterHeader.length = PaletteSize then .ok dataAfterHeader
      else if isScreen5File paletteData = true then extractScreen5Palette paletteData
      else .error (.notPaletteNorScreen5 dataAfterHeader.length)
  else .error (.notRecognized paletteData.length)

/-! ## The decoder registry (`decoders/registry.go`) -/

/-- The nine types of `registry.go` that implement the interface `Decoder`. -/
inductive Decoder where
  | msxbasicDecoder
  | wbass2Decoder
  | screen5Decoder
  | screen7Decoder
  | screen8Decoder
  | screen10Decoder
  | screen12Decoder
  | stpDecoder
  | cmpDecoder
  deriving DecidableEq, Repr

/-- The struct `Registry`. The Go map `decoders` is a list of key-value pairs with at most
one pair per key; the order of the pairs has no counterpart in Go. -/
structure Registry where
  decoders : List (String × Decoder)
  deriving DecidableEq, Repr

/-- The method `Register`: `r.decoders[format] = decoder`. -/
def Registry.Register (r : Registry) (format : String) (decoder : Decoder) : Registry :=
  { decoders := (format, decoder) :: r.decoders.filter (fun kv => kv.1 ≠ format) }

/-- The method `GetDecoder`; the error is the message of `fmt.Errorf`. -/
def Registry.GetDecoder (r : Registry) (format : String) : Except String Decoder :=
  match r.decoders.lookup format with
  | none => .error ("unknown file format: " ++ format)
  | some decoder => .ok decoder

/-- The method `GetSupportedFormats`: the keys of the map. Go leaves the order of a map
iteration unspecified; here it is the order of the pairs. -/
def Registry.GetSupportedFormats (r : Registry) : List String :=
  r.decoders.map fun kv => kv.1

/-- The function `NewRegistry`. -/
def NewRegistry : Registry :=
  ((((((((({ decoders := [] } : Registry).Register "BAS" .msxbasicDecoder).Register "WB2"
    .wbass2Decoder).Register "SC5" .screen5Decoder).Register "SC7" .screen7Decoder).Register
    "SC8" .screen8Decoder).Register "S10" .screen10Decoder).Register "S12"
    .screen12Decoder).Register "STP" .stpDecoder).Register "CMP" .cmpDecoder

/-! ## Specification vocabulary for the bit stream -/

/-- Number of set bits among the eight low bits of `c`. -/
def popcount8 (c : Nat) : Nat :=
  ((List.range 8).map fun k => (c.testBit k).toNat).sum

/-- Number of table slots before slot `i` that the control byte `c` marks as read from the
stream: slot `j` is governed by bit `7 - j`. -/
def setBitsBefore (c i : Nat) : Nat :=
  ((List.range i).map fun j => (c.testBit (7 - j)).toNat).sum

/-- The bit of the table `T` that governs the call number `n` (counted from 0) after the
table load: bit `7 - n mod 8` of `T[n div 8]`. -/
def govBit (T : List Nat) (n : Nat) : Bool :=
  (T.getD (n / 8) 0).testBit (7 - n % 8)

/-- Number of set governing bits among the calls `0 .. n-1`. -/
def consumedBefore (T : List Nat) (n : Nat) : Nat :=
  ((List.range n).map fun k => (govBit T k).toNat).sum

/-- State of a reader `n` calls (`n ≤ 63`) after a table load that left the table `T` and
the offset `o0` on the buffer `D`: the call number `n` is governed by bit `7 - n mod 8` of
`T[n div 8]`, which is the top bit of the bit buffer. -/
def Governed (D T : List Nat) (o0 n : Nat) (r : bitStreamReader) : Prop :=
  r.data = D ∧ r.lookupTable = T ∧ r.offset = o0 + consumedBefore T n ∧
  r.bitCounter = 8 - n % 8 ∧ r.tableIndex = n / 8 + 1 ∧
  ∀ j, j + n % 8 ≤ 7 →
    r.bitBuffer.testBit (7 - j) = (T.getD (n / 8) 0).testBit (7 - (n % 8 + j))

/-- The relation between the decoded buffer `out` and the results `bs` of the successive
`readByte` calls at row `r`, column `x` of a `W`-byte-wide image with `K` verbatim rows. -/
def RowRel (W K : Nat) (bs out : List Nat) (r x : Nat) : Prop :=
  out.getD (r * W + x) 0 =
    if r < K then bs.getD (r * W + x) 0
    else if 1 ≤ r then bs.getD (r * W + x) 0 ^^^ out.getD ((r - 1) * W + x) 0
    else bs.getD (r * W + x) 0

/-- State of the decoding loops of `DecodeCMP` in front of row `r`, column `x`: the
remaining calls of the reader produce the remaining results, and every byte decoded so far
satisfies `RowRel`. -/
def RowsInv (W H K : Nat) (bs : List Nat) (rEnd : bitStreamReader) (r x : Nat)
    (s : DecodeState) : Prop :=
  s.2.length = W * H ∧
  readBytes (W * H - (r * W + x)) s.1 = .ok (bs.drop (r * W + x), rEnd) ∧
  ∀ r' x', x' < W → (r' < r ∨ (r' = r ∧ x' < x)) → RowRel W K bs s.2 r' x'

/-- State of the pixel loops of `DecodeCMP` in front of row `y`, byte column `x`: the image
has its dimensions, and the two pixels of every byte column handled so far hold the high
and the low nibble of the decoded byte. -/
def PixelsInv (W outW H : Nat) (output : List Nat) (y x : Nat) (img : Paletted) : Prop :=
  img.width = outW ∧ img.height = H ∧ img.Stride = outW ∧ img.Pix.length = outW * H ∧
  ∀ y' x', (y' < y ∨ (y' = y ∧ x' < x)) → y' < H → x' * 2 < outW →
    img.ColorIndexAt (x' * 2) y' = output.getD (y' * W + x') 0 >>> 4 ∧
    (x' * 2 + 1 < outW →
      img.ColorIndexAt (x' * 2 + 1) y' = output.getD (y' * W + x') 0 &&& 0x0F)

/-! ## Specification vocabulary for the colour mathematics -/

/-- A raw 6-bit field read as two's complement: reduced by 64 when it exceeds 31. -/
def signed6 (raw : Nat) : Int :=
  if raw > 31 then (raw : Int) - 64 else (raw : Int)

/-- The colour of one chroma/luma pixel in the words of the specification: `b` is the
pixel's own byte, `k` and `j` the two shared chroma values; `none` when the palette lacks
the escape entry. Divisions truncate toward zero. -/
def yjkColour (palette : List RGBA) (isYae : Bool) (k j : Int) (b : Nat) : Option RGBA :=
  let y := b >>> 3
  if isYae = true ∧ y % 2 = 1 then
    palette[y >>> 1]?
  else
    some { R := color5bitsLookupTable.getD (clamp ((y : Int) + j) 0 31).toNat 0,
           G := color5bitsLookupTable.getD (clamp ((y : Int) + k) 0 31).toNat 0,
           B := color5bitsLookupTable.getD
             (clamp (Int.tdiv (5 * (y : Int)) 4 - Int.tdiv j 2 - Int.tdiv k 4) 0 31).toNat 0,
           A := 255 }

/-- State of the address loop of `decodeScreen` with row width 256 in front of the
address `cur`: the image keeps its dimensions, and the pixel number `a` of every address
handled so far holds the colour of its payload byte. -/
def ScreenInv (header : screenHeader) (H cur : Nat) (img : RGBAImage) : Prop :=
  img.width = 256 ∧ img.height = H ∧ img.Pix.length = 256 * H ∧
  ∀ a, header.beginAddress ≤ a → a < cur →
    ∃ v, header.pixels[a - header.beginAddress]? = some v ∧
      img.Pix.getD a ⟨0, 0, 0, 0⟩ =
        { R := color3bitsLookupTable.getD ((v >>> 2) &&& 7) 0,
          G := color3bitsLookupTable.getD ((v >>> 5) &&& 7) 0,
          B := color2bitsLookupTable.getD (v &&& 3) 0, A := 255 }

/-! ## Specification vocabulary for the runs of a loop -/

/-- The run of the loop `forRange body n i s` evaluates `body j t`: the body is called for
the index `j` in the state `t`. A run ends at the first call that fails. -/
def forRange.Visits {σ ε : Type} (body : Nat → σ → Except ε σ) :
    Nat → Nat → σ → Nat → σ → Prop
  | 0, _, _, _, _ => False
  | n + 1, i, s, j, t =>
    (j = i ∧ t = s) ∨
    match body i s with
    | .error _ => False
    | .ok s' => forRange.Visits body n (i + 1) s' j t

/-! ## Specification vocabulary for the image grids -/

/-- A paletted image whose pixel buffer has one byte per pixel and rows of `width` bytes,
as `image.NewPaletted` builds it. -/
def Paletted.WellFormed (p : Paletted) : Prop :=
  p.Stride = p.width ∧ p.Pix.length = p.width * p.height

/-- State of the pixel loops of `DecodeSTP` in front of the pixel `(x, y)` of a `w` x `h`
grid: the counter is the pixel number, and every earlier pixel holds one minus the low bit
of its 2-bit field. -/
def StpInv (pixels : List Nat) (w h y x : Nat) (s : Paletted × Nat) : Prop :=
  s.2 = y * w + x ∧ s.1.width = w ∧ s.1.height = h ∧ s.1.WellFormed ∧
  s.1.Palette = DecodeSTP.palette ∧
  ∀ x' y', x' < w → (y' < y ∨ (y' = y ∧ x' < x)) →
    ∃ b, pixels[(y' * w + x') / 4]? = some b ∧
      s.1.ColorIndexAt x' y' = 1 - (b >>> (6 - 2 * ((y' * w + x') % 4))) % 2

/-- The four fields of a `color.RGBA` value are of type `uint8`. -/
def RGBA.IsBytes (c : RGBA) : Prop := c.R < 256 ∧ c.G < 256 ∧ c.B < 256 ∧ c.A < 256

instance (c : RGBA) : Decidable c.IsBytes := by
  unfold RGBA.IsBytes; infer_instance

instance (p : Paletted) : Decidable p.WellFormed := by
  unfold Paletted.WellFormed; infer_instance

/-- State of the loops of `doubleHeightPaletted` in front of the source pixel `(x, y)`:
every output pixel that belongs to an earlier source pixel holds the index of that pixel. -/
def HeightInv (img : Paletted) (w h y x : Nat) (out : Paletted) : Prop :=
  out.width = w ∧ out.height = h * 2 ∧ out.WellFormed ∧ out.Palette = img.Palette ∧
  ∀ X Y, X < w → (Y / 2 < y ∨ (Y / 2 = y ∧ X < x)) →
    out.ColorIndexAt X Y = img.ColorIndexAt X (Y / 2)

/-- State of the loops of `doubleSizePaletted` in front of the source pixel `(x, y)`:
every output pixel that belongs to an earlier source pixel holds the index that
`Palette.Index` gives to the colour of that pixel. -/
def DoubleInv (img : Paletted) (w h y x : Nat) (out : Paletted) : Prop :=
  out.width = w * 2 ∧ out.height = h * 2 ∧ out.WellFormed ∧ out.Palette = img.Palette ∧
  ∀ X Y, X < w * 2 → (Y / 2 < y ∨ (Y / 2 = y ∧ X / 2 < x)) →
    ∃ c, img.Palette[img.ColorIndexAt (X / 2) (Y / 2)]? = some c ∧
      out.ColorIndexAt X Y = PaletteIndex img.Palette c % 256

/-- State of the loops of `doubleSize` in front of the source pixel `(x, y)`. -/
def DoubleInvRGBA (img : RGBAImage) (w h y x : Nat) (out : RGBAImage) : Prop :=
  out.width = w * 2 ∧ out.height = h * 2 ∧ out.Pix.length = out.width * out.height ∧
  ∀ X Y, X < w * 2 → (Y / 2 < y ∨ (Y / 2 = y ∧ X / 2 < x)) →
    out.RGBAAt X Y = img.RGBAAt (X / 2) (Y / 2)

/-! ## Concrete inputs used by the instance theorems -/

/-- A fresh reader at offset 0 of `data`, before the first table load. -/
def freshReader (data : List Nat) : bitStreamReader :=
  { data := data, offset := 0, bitBuffer := 0, bitCounter := 0,
    lookupTable := List.replicate 8 0, tableIndex := 0 }

/-- Control byte `0xFF`, the table `01 .. 08`, then `AA BB CC`. -/
def streamAABBCC : List Nat := [0xFF, 1, 2, 3, 4, 5, 6, 7, 8, 0xAA, 0xBB, 0xCC]

/-- The reader on `streamAABBCC` after the table load. -/
def loadedAABBCC : bitStreamReader :=
  { data := streamAABBCC, offset := 9, bitBuffer := 1, bitCounter := 8,
    lookupTable := [1, 2, 3, 4, 5, 6, 7, 8], tableIndex := 1 }

/-- The reader on `streamAABBCC` after eight calls. -/
def after8AABBCC : bitStreamReader :=
  { data := streamAABBCC, offset := 10, bitBuffer := 2, bitCounter := 8,
    lookupTable := [1, 2, 3, 4, 5, 6, 7, 8], tableIndex := 2 }

/-- The reader on the two-byte stream `00 00` after the table load. -/
def loadedZeroZero : bitStreamReader :=
  { data := [0, 0], offset := 1, bitBuffer := 0, bitCounter := 8,
    lookupTable := List.replicate 8 0, tableIndex := 1 }

/-- The reader on the stream `data` after a load of the all-zero table that left the
offset 1, followed by 63 calls: one bit of the last table byte is left. -/
def beforeCall64 (data : List Nat) : bitStreamReader :=
  { data := data, offset := 1, bitBuffer := 0, bitCounter := 1,
    lookupTable := List.replicate 8 0, tableIndex := 8 }

/-- The two-byte stream `00 80`: the control byte of the all-zero table, then a control
byte that asks for one table byte, which is missing. -/
def truncatedTableStream : List Nat := [0x00, 0x80]

/-- A CMP file of width 2, height 3 with 1 verbatim row: header `02 03 01`, control byte
`C0`, table bytes `F0 00`, stream bytes `12 34 56 78`, two unused bytes. -/
def deltaFile : List Nat := [2, 3, 1, 0xC0, 0xF0, 0, 0x12, 0x34, 0x56, 0x78, 0x9a, 0xbc]

/-- The reader of `deltaFile` after `newBitStreamReader deltaFile 3`. -/
def deltaReader : bitStreamReader :=
  { data := deltaFile, offset := 6, bitBuffer := 0xF0, bitCounter := 8,
    lookupTable := [0xF0, 0, 0, 0, 0, 0, 0, 0], tableIndex := 1 }

/-- The reader of `deltaFile` after six calls. -/
def deltaReaderEnd : bitStreamReader :=
  { data := deltaFile, offset := 10, bitBuffer := 0, bitCounter := 2,
    lookupTable := [0xF0, 0, 0, 0, 0, 0, 0, 0], tableIndex := 1 }

/-- A 7-byte memory dump whose begin-address field (`0x0010`) exceeds its end-address
field (`0x0000`). -/
def reversedHeader : List Nat := [0xFE, 0x10, 0x00, 0x00, 0x00, 0x00, 0x00]

/-- A memory dump whose header addresses two bytes (begin 0, end 2) and whose payload has
one byte. -/
def truncatedDump : List Nat := [0xFE, 0x00, 0x00, 0x02, 0x00, 0x00, 0x00, 0xAB]

/-- The configuration without palette blob and without magnification. -/
def plainConfig : Config :=
  { OutputFormat := "", DoubleImageSize := false, VerboseOutput := false, ExtraData := none }

/-- A payload of 33 bytes: one pixel byte, then a palette blob of sixteen times `0x7777`
(white). -/
def whitePayload : List Nat := 0 :: List.replicate 32 0x77

/-- The stream `01 01 AA 80`: a control byte that fills only the last table slot, the
table byte `01`, one stream byte `AA`, and a control byte `80` whose table byte is missing. -/
def lateTableStream : List Nat := [0x01, 0x01, 0xAA, 0x80]

/-- The reader on `lateTableStream` after the table load and 63 calls: the last bit of the
table, which is set, is the top bit of the bit buffer. -/
def lateTableReader : bitStreamReader :=
  { data := lateTableStream, offset := 2, bitBuffer := 0x80, bitCounter := 1,
    lookupTable := [0, 0, 0, 0, 0, 0, 0, 1], tableIndex := 8 }

/-- A SCREEN 8 dump with begin 0, end 2 and the two payload bytes `00` and `FF`. -/
def twoPixelDump : List Nat := [0xFE, 0x00, 0x00, 0x02, 0x00, 0x00, 0x00, 0x00, 0xFF]

/-- A payload of one group of four bytes: the chroma fields are `k = 7 + 8 * 7 - 64 = -1`
and `j = 4 + 8 * 0 = 4`; the luma values are 1 (odd), 2, 31 and 0. -/
def yjkGroupHeader : screenHeader :=
  { beginAddress := 0, endAddress := 4, pixels := [0x0F, 0x17, 0xFC, 0x00] }

/-- A palette of sixteen distinct greys. -/
def greyPalette : List RGBA := (List.range 16).map fun i => ⟨i, i, i, 255⟩

/-- A dump header with begin `0x767C` and end `0x769F`, the four payload bytes 1, 2, 3, 4
and the palette region of 32 bytes of value 7. -/
def paletteDump : List Nat :=
  [0xFE, 0x7C, 0x76, 0x9F, 0x76, 0x00, 0x00] ++ [1, 2, 3, 4] ++ List.replicate 32 7

/-- An STP file of width 1 and height 1 whose only 2-bit field is `10`. -/
def stampTwo : List Nat := [0x01, 0x00, 0x01, 0x00, 0x80]

/-- An STP file of width 2 and height 1 with the 2-bit fields `00` and `01`. -/
def stampPair : List Nat := [0x02, 0x00, 0x01, 0x00, 0x10]

/-- A configuration with `DoubleImageSize` set. -/
def doubleConfig : Config :=
  { OutputFormat := "", DoubleImageSize := true, VerboseOutput := false, ExtraData := none }

/-- A paletted image of one pixel with the built-in palette, whose entries 0 and 1 are
both black; the pixel has the index 1. -/
def blackOne : Paletted :=
  { Pix := [1], Stride := 1, width := 1, height := 1,
    Palette := (getPalette defaultPalette 0).getD [] }

/-- A paletted image of two pixels with the built-in palette and the indices 2 and 15. -/
def colourPair : Paletted :=
  { Pix := [2, 15], Stride := 2, width := 2, height := 1,
    Palette := (getPalette defaultPalette 0).getD [] }

/-! ## Loop rules -/

theorem forRange_spec {σ ε : Type} (body : Nat → σ → Except ε σ) (P : Nat → σ → Prop) :
    ∀ (n i : Nat) (s : σ), P i s →
      (∀ j t, i ≤ j → j < i + n → P j t → ∃ t', body j t = .ok t' ∧ P (j + 1) t') →
      ∃ s', forRange body n i s = .ok s' ∧ P (i + n) s' := by
  intro n
  induction n with
  | zero => intro i s h0 _; exact ⟨s, rfl, by simpa using h0⟩
  | succ n ih =>
    intro i s h0 hstep
    obtain ⟨t', hb, hP⟩ := hstep i s (Nat.le_refl i) (by omega) h0
    obtain ⟨s', hs', hP'⟩ := ih (i + 1) t' hP
      (fun j t hij hjn hPj => hstep j t (by omega) (by omega) hPj)
    refine ⟨s', ?_, ?_⟩
    · simp only [forRange, hb]; exact hs'
    · have h : i + (n + 1) = i + 1 + n := by omega
      rw [h]; exact hP'

theorem forRange_inv {σ ε : Type} (body : Nat → σ → Except ε σ) (P : Nat → σ → Prop) :
    ∀ (n i : Nat) (s s' : σ), P i s →
      (∀ j t t', i ≤ j → j < i + n → P j t → body j t = .ok t' → P (j + 1) t') →
      forRange body n i s = .ok s' → P (i + n) s' := by
  intro n
  induction n with
  | zero =>
    intro i s s' h0 _ h
    simp only [forRange, Except.ok.injEq] at h
    subst h; simpa using h0
  | succ n ih =>
    intro i s s' h0 hstep h
    simp only [forRange] at h
    cases hb : body i s with
    | error e => rw [hb] at h; cases h
    | ok t' =>
      rw [hb] at h
      have hP := hstep i s t' (Nat.le_refl i) (by omega) h0 hb
      have := ih (i + 1) t' s' hP
        (fun j t u hij hjn hPj hbj => hstep j t u (by omega) (by omega) hPj hbj) h
      have h2 : i + (n + 1) = i + 1 + n := by omega
      rw [h2]; exact this

theorem forWhile_spec {σ : Type} (cond : Nat → Bool) (body : Nat → σ → σ)
    (P : Nat → σ → Prop) :
    ∀ (n i : Nat) (s : σ), P i s →
      (∀ j t, i ≤ j → j < i + n → cond j = true → P j t → P (j + 1) (body j t)) →
      ∃ k, i ≤ k ∧ k ≤ i + n ∧ P k (forWhile cond body n i s) ∧
        (k < i + n → cond k = false) := by
  intro n
  induction n with
  | zero => intro i s h0 _; exact ⟨i, Nat.le_refl i, Nat.le_refl i, h0, fun h => absurd h (by omega)⟩
  | succ n ih =>
    intro i s h0 hstep
    cases hc : cond i with
    | false =>
      refine ⟨i, Nat.le_refl i, by omega, ?_, fun _ => hc⟩
      simp only [forWhile, hc]
      exact h0
    | true =>
      have h1 := hstep i s (Nat.le_refl i) (by omega) hc h0
      obtain ⟨k, g1, g2, g3, g4⟩ := ih (i + 1) (body i s) h1
        (fun j t hij hjn hcj hPj => hstep j t (by omega) (by omega) hcj hPj)
      refine ⟨k, by omega, by omega, ?_, fun hk => g4 (by omega)⟩
      simp only [forWhile, hc]
      exact g3

theorem forRange_error_body {σ ε : Type} (body : Nat → σ → Except ε σ) (e : ε) :
    ∀ (n i : Nat) (s : σ), forRange body n i s = .error e →
      ∃ j t, i ≤ j ∧ j < i + n ∧ body j t = .error e := by
  intro n
  induction n with
  | zero => intro i s h; simp only [forRange] at h; cases h
  | succ n ih =>
    intro i s h
    simp only [forRange] at h
    cases hb : body i s with
    | error e' =>
      rw [hb] at h
      cases h
      exact ⟨i, s, Nat.le_refl i, by omega, hb⟩
    | ok t =>
      rw [hb] at h
      obtain ⟨j, u, h1, h2, h3⟩ := ih (i + 1) t h
      exact ⟨j, u, by omega, by omega, h3⟩

theorem forRange_ok_body {σ ε : Type} (body : Nat → σ → Except ε σ) :
    ∀ (n i : Nat) (s s' : σ), forRange body n i s = .ok s' →
      ∀ j, i ≤ j → j < i + n → ∃ t t', body j t = .ok t' := by
  intro n
  induction n with
  | zero => intro i s s' _ j h1 h2; omega
  | succ n ih =>
    intro i s s' h j h1 h2
    simp only [forRange] at h
    cases hb : body i s with
    | error e' => rw [hb] at h; cases h
    | ok t =>
      rw [hb] at h
      by_cases hj : j = i
      · subst hj; exact ⟨s, t, hb⟩
      · exact ih (i + 1) t s' h j (by omega) (by omega)

theorem forCount_inv {σ : Type} (body : Nat → σ → σ) (P : Nat → σ → Prop) :
    ∀ (n i : Nat) (s : σ), P i s →
      (∀ j t, i ≤ j → j < i + n → P j t → P (j + 1) (body j t)) →
      P (i + n) (forCount body n i s) := by
  intro n
  induction n with
  | zero => intro i s h0 _; simpa [forCount] using h0
  | succ n ih =>
    intro i s h0 hstep
    have hP := hstep i s (Nat.le_refl i) (by omega) h0
    have := ih (i + 1) (body i s) hP (fun j t hij hjn hPj => hstep j t (by omega) (by omega) hPj)
    have h2 : i + (n + 1) = i + 1 + n := by omega
    rw [h2]
    simpa [forCount] using this

/-! ## Bit facts -/

theorem and_shift_ne_zero (c k : Nat) : (c &&& (1 <<< k) ≠ 0) ↔ c.testBit k = true := by
  rw [Nat.one_shiftLeft]
  constructor
  · intro h
    by_contra hb
    apply h
    apply Nat.eq_of_testBit_eq
    intro j
    simp only [Nat.testBit_and, Nat.testBit_two_pow, Nat.zero_testBit]
    by_cases hkj : k = j
    · subst hkj; simp [hb]
    · simp [hkj]
  · intro hb h
    have := congrArg (fun x => x.testBit k) h
    simp [Nat.testBit_two_pow, hb] at this

theorem and_0x80_ne_zero (b : Nat) : (b &&& 0x80 ≠ 0) ↔ b.testBit 7 = true := by
  have := and_shift_ne_zero b 7
  simpa using this

theorem setBitsBefore_succ (c i : Nat) :
    setBitsBefore c (i + 1) = setBitsBefore c i + (c.testBit (7 - i)).toNat := by
  simp [setBitsBefore, List.range_succ]

theorem setBitsBefore_mono (c : Nat) {i j : Nat} (h : i ≤ j) :
    setBitsBefore c i ≤ setBitsBefore c j := by
  induction j with
  | zero => have : i = 0 := by omega
            subst this; exact Nat.le_refl _
  | succ j ih =>
    rcases Nat.lt_or_ge i (j + 1) with h1 | h1
    · have := ih (by omega)
      rw [setBitsBefore_succ]; omega
    · have : i = j + 1 := by omega
      subst this; exact Nat.le_refl _

theorem popcount8_eq (c : Nat) : popcount8 c = setBitsBefore c 8 := by
  simp [popcount8, setBitsBefore, List.range_succ]
  omega

theorem consumedBefore_succ (T : List Nat) (n : Nat) :
    consumedBefore T (n + 1) = consumedBefore T n + (govBit T n).toNat := by
  simp [consumedBefore, List.range_succ]


/-! ## `readLookupTable` -/

theorem getD_set (l : List Nat) (i j v : Nat) :
    (l.set i v).getD j 0 = if i = j ∧ i < l.length then v else l.getD j 0 := by
  simp only [List.getD_eq_getElem?_getD, List.getElem?_set]
  by_cases hij : i = j
  · subst hij
    by_cases hi : i < l.length
    · simp [hi]
    · simp [hi, List.getElem?_eq_none (Nat.le_of_not_lt hi)]
  · simp [hij]

theorem slot_step (D : List Nat) (c o1 i : Nat) (t : bitStreamReader)
    (hD : t.data = D) (hlen : t.lookupTable.length = 8) (hi : i < 8)
    (hoff : t.offset = o1 + setBitsBefore c i)
    (htab : ∀ j, j < i → t.lookupTable.getD j 0 =
      if c.testBit (7 - j) then D.getD (o1 + setBitsBefore c j) 0 else 0)
    (hroom : o1 + setBitsBefore c (i + 1) ≤ D.length) :
    ∃ t', readLookupTable.slot c i t = .ok t' ∧
      t'.data = D ∧ t'.lookupTable.length = 8 ∧ t'.offset = o1 + setBitsBefore c (i + 1) ∧
      (∀ j, j < i + 1 → t'.lookupTable.getD j 0 =
        if c.testBit (7 - j) then D.getD (o1 + setBitsBefore c j) 0 else 0) := by
  rw [setBitsBefore_succ] at hroom ⊢
  unfold readLookupTable.slot
  by_cases hb : c.testBit (7 - i) = true
  · have hc : c &&& (1 <<< (7 - i)) ≠ 0 := (and_shift_ne_zero c (7 - i)).2 hb
    have hlt : ¬ (t.offset ≥ t.data.length) := by
      rw [hD, hoff]; simp [hb] at hroom; omega
    rw [if_pos hc, if_neg hlt]
    refine ⟨_, rfl, hD, by simp [hlen], by simp [hb, hoff]; omega, ?_⟩
    intro j hj
    simp only [getD_set, hlen]
    by_cases hji : i = j
    · subst hji; simp [hi, hb, hD, hoff]
    · rw [if_neg (by omega)]; exact htab j (by omega)
  · have hc : ¬ (c &&& (1 <<< (7 - i)) ≠ 0) := fun h => hb ((and_shift_ne_zero c (7 - i)).1 h)
    rw [if_neg hc]
    refine ⟨_, rfl, hD, by simp [hlen], by simp [hb, hoff], ?_⟩
    intro j hj
    simp only [getD_set, hlen]
    by_cases hji : i = j
    · subst hji; simp [hi, hb]
    · rw [if_neg (by omega)]; exact htab j (by omega)

theorem readLookupTable_ok (r : bitStreamReader) (hlen : r.lookupTable.length = 8)
    (hbytes : r.offset + 1 + popcount8 (r.data.getD r.offset 0) ≤ r.data.length) :
    ∃ r', readLookupTable r = .ok r' ∧ r'.data = r.data ∧ r'.lookupTable.length = 8 ∧
      (∀ i, i < 8 → r'.lookupTable.getD i 0 =
        if (r.data.getD r.offset 0).testBit (7 - i)
        then r.data.getD (r.offset + 1 + setBitsBefore (r.data.getD r.offset 0) i) 0 else 0) ∧
      r'.offset = r.offset + 1 + popcount8 (r.data.getD r.offset 0) ∧
      r'.bitBuffer = r'.lookupTable.getD 0 0 ∧ r'.bitCounter = 8 ∧ r'.tableIndex = 1 := by
  have hlt : ¬ (r.offset ≥ r.data.length) := by omega
  rw [popcount8_eq] at hbytes ⊢
  obtain ⟨r2, hloop, hD, hl2, ho2, ht2⟩ :=
    forRange_spec (readLookupTable.slot (r.data.getD r.offset 0))
      (fun i t => t.data = r.data ∧ t.lookupTable.length = 8 ∧
        t.offset = r.offset + 1 + setBitsBefore (r.data.getD r.offset 0) i ∧
        ∀ j, j < i → t.lookupTable.getD j 0 =
          if (r.data.getD r.offset 0).testBit (7 - j)
          then r.data.getD (r.offset + 1 + setBitsBefore (r.data.getD r.offset 0) j) 0 else 0)
      8 0 { r with offset := r.offset + 1 }
      ⟨rfl, hlen, by simp [setBitsBefore], fun j hj => absurd hj (Nat.not_lt_zero j)⟩
      (fun j t _ hj8 ⟨h1, h2, h3, h4⟩ =>
        slot_step r.data (r.data.getD r.offset 0) (r.offset + 1) j t h1 h2 (by omega) h3 h4
          (Nat.le_trans (Nat.add_le_add_left
            (setBitsBefore_mono (r.data.getD r.offset 0) (by omega : j + 1 ≤ 8)) _) hbytes))
  refine ⟨{ r2 with bitBuffer := r2.lookupTable.getD 0 0, bitCounter := 8, tableIndex := 1 },
    ?_, hD, hl2, ?_, ?_, rfl, rfl, rfl⟩
  · unfold readLookupTable
    rw [if_neg hlt]
    simp only [hloop]
  · intro i hi; exact ht2 i (by omega)
  · simpa using ho2

theorem slot_offset (c i : Nat) (t t' : bitStreamReader)
    (h : readLookupTable.slot c i t = .ok t') :
    t'.data = t.data ∧ t'.offset = t.offset + (c.testBit (7 - i)).toNat ∧
      (c.testBit (7 - i) = true → t.offset < t.data.length) := by
  unfold readLookupTable.slot at h
  by_cases hb : c.testBit (7 - i) = true
  · have hc : c &&& (1 <<< (7 - i)) ≠ 0 := (and_shift_ne_zero c (7 - i)).2 hb
    rw [if_pos hc] at h
    by_cases hlt : t.offset ≥ t.data.length
    · rw [if_pos hlt] at h; cases h
    · rw [if_neg hlt] at h
      cases h
      exact ⟨rfl, by simp [hb], fun _ => by omega⟩
  · have hc : ¬ (c &&& (1 <<< (7 - i)) ≠ 0) := fun h => hb ((and_shift_ne_zero c (7 - i)).1 h)
    rw [if_neg hc] at h
    cases h
    exact ⟨rfl, by simp [hb], fun h => absurd h hb⟩

theorem readLookupTable_ok_offset (r r' : bitStreamReader) (h : readLookupTable r = .ok r') :
    r.offset + 1 + popcount8 (r.data.getD r.offset 0) ≤ r.data.length := by
  unfold readLookupTable at h
  by_cases hlt : r.offset ≥ r.data.length
  · rw [if_pos hlt] at h; cases h
  · rw [if_neg hlt] at h
    simp only at h
    cases hloop : forRange (readLookupTable.slot (r.data.getD r.offset 0)) 8 0
        { r with offset := r.offset + 1 } with
    | error e => rw [hloop] at h; cases h
    | ok r2 =>
      have := forRange_inv (readLookupTable.slot (r.data.getD r.offset 0))
        (fun i t => t.data = r.data ∧
          t.offset = r.offset + 1 + setBitsBefore (r.data.getD r.offset 0) i ∧
          t.offset ≤ r.data.length)
        8 0 { r with offset := r.offset + 1 } r2
        ⟨rfl, by simp [setBitsBefore], by simp; omega⟩
        (fun j t t' _ _ ⟨h1, h2, h3⟩ hb => by
          obtain ⟨g1, g2, g3⟩ := slot_offset _ j t t' hb
          refine ⟨g1.trans h1, by rw [g2, h2, setBitsBefore_succ]; omega, ?_⟩
          rw [g2]
          by_cases hbit : (r.data.getD r.offset 0).testBit (7 - j) = true
          · have := g3 hbit
            rw [h1] at this
            rw [hbit]; simp only [Bool.toNat_true]; omega
          · rw [Bool.not_eq_true] at hbit
            rw [hbit]; simpa using h3)
        hloop
      rw [popcount8_eq]
      simp only [Nat.zero_add] at this
      obtain ⟨_, h2, h3⟩ := this
      omega

theorem readLookupTable_fails_iff (r : bitStreamReader) (hlen : r.lookupTable.length = 8) :
    (∃ e, readLookupTable r = .error e) ↔
      r.data.length < r.offset + 1 + popcount8 (r.data.getD r.offset 0) := by
  constructor
  · rintro ⟨e, he⟩
    by_contra hge
    obtain ⟨r', hr', _⟩ := readLookupTable_ok r hlen (by omega)
    rw [hr'] at he; cases he
  · intro hlt
    cases h : readLookupTable r with
    | error e => exact ⟨e, rfl⟩
    | ok r' => have := readLookupTable_ok_offset r r' h; omega


/-! ## `readByte` -/

theorem reload_keep (t : bitStreamReader) (h : (t.bitCounter + 255) % 256 ≠ 0) :
    readByte.reload t = .ok { t with bitCounter := (t.bitCounter + 255) % 256 } := by
  unfold readByte.reload
  simp only [if_neg h]

theorem reload_table (t : bitStreamReader) (h : (t.bitCounter + 255) % 256 = 0)
    (hidx : t.tableIndex < t.lookupTable.length) :
    readByte.reload t = .ok { t with bitBuffer := t.lookupTable.getD t.tableIndex 0,
                                     tableIndex := t.tableIndex + 1, bitCounter := 8 } := by
  unfold readByte.reload
  simp only [if_pos h, if_neg (Nat.not_le_of_lt hidx)]

theorem reload_eof (t : bitStreamReader) (h : (t.bitCounter + 255) % 256 = 0)
    (hidx : t.tableIndex ≥ t.lookupTable.length) (hoff : t.offset ≥ t.data.length) :
    readByte.reload t = .ok { t with bitBuffer := 0, bitCounter := 8, tableIndex := 0,
                                     lookupTable := List.replicate t.lookupTable.length 0 } := by
  unfold readByte.reload
  simp only [if_pos h, if_pos hidx, if_pos hoff]

theorem reload_new (t : bitStreamReader) (h : (t.bitCounter + 255) % 256 = 0)
    (hidx : t.tableIndex ≥ t.lookupTable.length) (hoff : t.offset < t.data.length) :
    readByte.reload t =
      match readLookupTable { t with bitCounter := (t.bitCounter + 255) % 256 } with
      | .error e => .error (.newTableFailed e)
      | .ok r' => .ok r' := by
  unfold readByte.reload
  simp only [if_pos h, if_pos hidx, if_neg (Nat.not_le_of_lt hoff)]

theorem readByte_carry (r : bitStreamReader) (hc : r.bitBuffer.testBit 7 = true) :
    readByte r =
      if r.offset ≥ r.data.length then .error .streamEnd
      else
        match readByte.reload { r with bitBuffer := (r.bitBuffer <<< 1) % 256,
                                       offset := r.offset + 1 } with
        | .error e => .error e
        | .ok r2 => .ok (r.data.getD r.offset 0, r2) := by
  unfold readByte
  simp only [if_pos ((and_0x80_ne_zero r.bitBuffer).2 hc)]

theorem readByte_clear (r : bitStreamReader) (hc : r.bitBuffer.testBit 7 = false) :
    readByte r =
      match readByte.reload { r with bitBuffer := (r.bitBuffer <<< 1) % 256 } with
      | .error e => .error e
      | .ok r2 => .ok (0, r2) := by
  unfold readByte
  have : ¬ (r.bitBuffer &&& 0x80 ≠ 0) := by
    rw [and_0x80_ne_zero, hc]; simp
  simp only [if_neg this]

theorem testBit_shl1 (b i : Nat) (hi : i < 8) (hi1 : 1 ≤ i) :
    ((b <<< 1) % 256).testBit i = b.testBit (i - 1) := by
  have : (256 : Nat) = 2 ^ 8 := by norm_num
  rw [this, Nat.testBit_mod_two_pow, Nat.testBit_shiftLeft]
  simp [hi, hi1]


theorem governed_reload (D T : List Nat) (o0 n : Nat) (t r' : bitStreamReader)
    (hT : T.length = 8) (hn : n < 63)
    (hD : t.data = D) (hTab : t.lookupTable = T)
    (hoff : t.offset = o0 + consumedBefore T (n + 1))
    (hcnt : t.bitCounter = 8 - n % 8) (hidx : t.tableIndex = n / 8 + 1)
    (hbits : ∀ j, j + n % 8 + 1 ≤ 7 →
      t.bitBuffer.testBit (7 - j) = (T.getD (n / 8) 0).testBit (7 - (n % 8 + 1 + j)))
    (h : readByte.reload t = .ok r') : Governed D T o0 (n + 1) r' := by
  by_cases hk : n % 8 < 7
  · have e1 : (n + 1) / 8 = n / 8 := by omega
    have e2 : (n + 1) % 8 = n % 8 + 1 := by omega
    have hne : (t.bitCounter + 255) % 256 ≠ 0 := by rw [hcnt]; omega
    rw [reload_keep t hne] at h
    cases h
    refine ⟨hD, hTab, hoff, ?_, ?_, ?_⟩
    · show (t.bitCounter + 255) % 256 = 8 - (n + 1) % 8
      rw [hcnt]; omega
    · show t.tableIndex = (n + 1) / 8 + 1
      rw [hidx, e1]
    · intro j hj
      show t.bitBuffer.testBit (7 - j) = _
      rw [e1, e2]
      exact hbits j (by omega)
  · have e1 : (n + 1) / 8 = n / 8 + 1 := by omega
    have e2 : (n + 1) % 8 = 0 := by omega
    have hz : (t.bitCounter + 255) % 256 = 0 := by rw [hcnt]; omega
    have hlt : t.tableIndex < t.lookupTable.length := by rw [hidx, hTab, hT]; omega
    rw [reload_table t hz hlt] at h
    cases h
    refine ⟨hD, hTab, hoff, ?_, ?_, ?_⟩
    · show 8 = 8 - (n + 1) % 8
      rw [e2]
    · show t.tableIndex + 1 = (n + 1) / 8 + 1
      rw [hidx, e1]
    · intro j _
      show (t.lookupTable.getD t.tableIndex 0).testBit (7 - j) = _
      rw [e1, e2, hidx, hTab, Nat.zero_add]

theorem reload_data (t r' : bitStreamReader) (h : readByte.reload t = .ok r') :
    r'.data = t.data := by
  unfold readByte.reload at h
  simp only at h
  split at h
  · split at h
    · split at h
      · cases h; rfl
      · split at h
        · cases h
        · rename_i r2 hr2
          cases h
          unfold readLookupTable at hr2
          split at hr2
          · cases hr2
          · simp only at hr2
            split at hr2
            · cases hr2
            · rename_i r3 hr3
              cases hr2
              have := forRange_inv _ (fun _ u => u.data = t.data) 8 0 _ r3 rfl
                (fun j u u' _ _ hu hb => (slot_offset _ j u u' hb).1.trans hu) hr3
              exact this
    · cases h; rfl
  · cases h; rfl

theorem governed_step (D T : List Nat) (o0 n : Nat) (r r' : bitStreamReader) (b : Nat)
    (hT : T.length = 8) (hg : Governed D T o0 n r)
    (h : readByte r = .ok (b, r')) :
    b = (if govBit T n = true then D.getD (o0 + consumedBefore T n) 0 else 0) ∧
    (govBit T n = true → o0 + consumedBefore T n < D.length) ∧
    r'.data = D ∧
    (n < 63 → Governed D T o0 (n + 1) r') := by
  obtain ⟨hD, hTab, hoff, hcnt, hidx, hbits⟩ := hg
  have hcarry : r.bitBuffer.testBit 7 = govBit T n := by
    have := hbits 0 (by omega)
    simpa [govBit] using this
  have hshift : ∀ j, j + n % 8 + 1 ≤ 7 →
      ((r.bitBuffer <<< 1) % 256).testBit (7 - j) =
        (T.getD (n / 8) 0).testBit (7 - (n % 8 + 1 + j)) := by
    intro j hj
    rw [testBit_shl1 _ _ (by omega) (by omega)]
    have := hbits (j + 1) (by omega)
    have e : 7 - (j + 1) = 7 - j - 1 := by omega
    have e' : n % 8 + (j + 1) = n % 8 + 1 + j := by omega
    rw [e, e'] at this
    exact this
  cases hgb : govBit T n with
  | true =>
    rw [hgb] at hcarry
    rw [readByte_carry r hcarry] at h
    by_cases hend : r.offset ≥ r.data.length
    · rw [if_pos hend] at h; cases h
    · rw [if_neg hend] at h
      cases hre : readByte.reload
          { r with bitBuffer := (r.bitBuffer <<< 1) % 256, offset := r.offset + 1 } with
      | error e => rw [hre] at h; cases h
      | ok r2 =>
        rw [hre] at h
        cases h
        refine ⟨by simp [hD, hoff], (fun _ => by rw [← hD, ← hoff]; omega),
          (reload_data _ _ hre).trans hD, fun hn' => ?_⟩
        exact governed_reload D T o0 n
          { r with bitBuffer := (r.bitBuffer <<< 1) % 256, offset := r.offset + 1 } r'
          hT hn' hD hTab
          (by show r.offset + 1 = _; rw [hoff, consumedBefore_succ, hgb]; rfl)
          hcnt hidx hshift hre
  | false =>
    rw [hgb] at hcarry
    rw [readByte_clear r hcarry] at h
    cases hre : readByte.reload { r with bitBuffer := (r.bitBuffer <<< 1) % 256 } with
    | error e => rw [hre] at h; cases h
    | ok r2 =>
      rw [hre] at h
      cases h
      refine ⟨by simp, (fun hf => by cases hf), (reload_data _ _ hre).trans hD, fun hn' => ?_⟩
      exact governed_reload D T o0 n { r with bitBuffer := (r.bitBuffer <<< 1) % 256 } r'
        hT hn' hD hTab
        (by show r.offset = _; rw [hoff, consumedBefore_succ, hgb]; rfl)
        hcnt hidx hshift hre


theorem readByte_split (r r' : bitStreamReader) (b : Nat) (h : readByte r = .ok (b, r')) :
    readByte.reload { r with bitBuffer := (r.bitBuffer <<< 1) % 256,
                             offset := r.offset + (r.bitBuffer.testBit 7).toNat } = .ok r' ∧
    b = (if r.bitBuffer.testBit 7 = true then r.data.getD r.offset 0 else 0) ∧
    (r.bitBuffer.testBit 7 = true → r.offset < r.data.length) := by
  cases hc : r.bitBuffer.testBit 7 with
  | true =>
    rw [readByte_carry r hc] at h
    by_cases hend : r.offset ≥ r.data.length
    · rw [if_pos hend] at h; cases h
    · rw [if_neg hend] at h
      cases hre : readByte.reload
          { r with bitBuffer := (r.bitBuffer <<< 1) % 256, offset := r.offset + 1 } with
      | error e => rw [hre] at h; cases h
      | ok r2 =>
        rw [hre] at h
        cases h
        exact ⟨hre, by simp, fun _ => by omega⟩
  | false =>
    rw [readByte_clear r hc] at h
    cases hre : readByte.reload { r with bitBuffer := (r.bitBuffer <<< 1) % 256 } with
    | error e => rw [hre] at h; cases h
    | ok r2 =>
      rw [hre] at h
      cases h
      exact ⟨hre, by simp, fun hf => by cases hf⟩

theorem readLookupTable_ok_fields (r r' : bitStreamReader) (hlen : r.lookupTable.length = 8)
    (h : readLookupTable r = .ok r') :
    r'.data = r.data ∧ r'.lookupTable.length = 8 ∧
      r'.offset = r.offset + 1 + popcount8 (r.data.getD r.offset 0) ∧
      r'.bitBuffer = r'.lookupTable.getD 0 0 ∧ r'.bitCounter = 8 ∧ r'.tableIndex = 1 := by
  obtain ⟨r2, h2, g1, g2, _, g4, g5, g6, g7⟩ :=
    readLookupTable_ok r hlen (readLookupTable_ok_offset r r' h)
  rw [h2] at h
  cases h
  exact ⟨g1, g2, g4, g5, g6, g7⟩

theorem governed_zero (r r' : bitStreamReader) (hlen : r.lookupTable.length = 8)
    (h : readLookupTable r = .ok r') :
    Governed r'.data r'.lookupTable r'.offset 0 r' := by
  obtain ⟨_, _, _, g4, g5, g6⟩ := readLookupTable_ok_fields r r' hlen h
  refine ⟨rfl, rfl, by simp [consumedBefore], by simp [g5], by simp [g6], ?_⟩
  intro j _
  rw [g4]
  simp

theorem governed_last (D T : List Nat) (o0 : Nat) (r r' : bitStreamReader) (b : Nat)
    (hT : T.length = 8) (hg : Governed D T o0 63 r) (h : readByte r = .ok (b, r')) :
    r'.offset =
      if o0 + consumedBefore T 64 < D.length
      then o0 + consumedBefore T 64 + 1 + popcount8 (D.getD (o0 + consumedBefore T 64) 0)
      else o0 + consumedBefore T 64 := by
  obtain ⟨hD, hTab, hoff, hcnt, hidx, hbits⟩ := hg
  obtain ⟨hre, _, _⟩ := readByte_split r r' b h
  have hcarry : r.bitBuffer.testBit 7 = govBit T 63 := by
    have := hbits 0 (by omega)
    simpa [govBit] using this
  have ho : r.offset + (r.bitBuffer.testBit 7).toNat = o0 + consumedBefore T 64 := by
    have e : consumedBefore T 64 = consumedBefore T 63 + (govBit T 63).toNat :=
      consumedBefore_succ T 63
    rw [hoff, hcarry, e]; omega
  have hz : (r.bitCounter + 255) % 256 = 0 := by rw [hcnt]
  have hi : r.tableIndex ≥ r.lookupTable.length := by rw [hidx, hTab, hT]
  by_cases hend : o0 + consumedBefore T 64 < D.length
  · rw [if_pos hend]
    rw [reload_new { r with bitBuffer := (r.bitBuffer <<< 1) % 256,
                            offset := r.offset + (r.bitBuffer.testBit 7).toNat }
      hz hi (by show r.offset + _ < r.data.length; rw [ho, hD]; exact hend)] at hre
    split at hre
    · cases hre
    · rename_i r2 hr2
      cases hre
      obtain ⟨_, _, g3, _⟩ := readLookupTable_ok_fields _ _ (by show r.lookupTable.length = 8; rw [hTab, hT]) hr2
      rw [g3]
      show r.offset + _ + 1 + popcount8 (r.data.getD (r.offset + _) 0) = _
      rw [ho, hD]
  · rw [if_neg hend]
    rw [reload_eof { r with bitBuffer := (r.bitBuffer <<< 1) % 256,
                            offset := r.offset + (r.bitBuffer.testBit 7).toNat }
      hz hi (by show r.offset + _ ≥ r.data.length; rw [ho, hD]; omega)] at hre
    cases hre
    exact ho

theorem readBytes_snoc : ∀ (n : Nat) (r r' : bitStreamReader) (bs : List Nat),
    readBytes (n + 1) r = .ok (bs, r') →
    ∃ bs0 rn b, readBytes n r = .ok (bs0, rn) ∧ readByte rn = .ok (b, r') ∧
      bs = bs0 ++ [b] ∧ bs0.length = n := by
  intro n
  induction n with
  | zero =>
    intro r r' bs h
    simp only [readBytes] at h
    cases hb : readByte r with
    | error e => rw [hb] at h; cases h
    | ok p =>
      obtain ⟨b, r1⟩ := p
      rw [hb] at h
      cases h
      exact ⟨[], r, b, rfl, hb, rfl, rfl⟩
  | succ n ih =>
    intro r r' bs h
    rw [readBytes] at h
    cases hb : readByte r with
    | error e => rw [hb] at h; cases h
    | ok p =>
      obtain ⟨b, r1⟩ := p
      rw [hb] at h
      simp only at h
      cases hrest : readBytes (n + 1) r1 with
      | error e => rw [hrest] at h; cases h
      | ok q =>
        obtain ⟨bs1, r2⟩ := q
        rw [hrest] at h
        cases h
        obtain ⟨bs0, rn, b', h1, h2, h3, h4⟩ := ih r1 r' bs1 hrest
        refine ⟨b :: bs0, rn, b', ?_, h2, by rw [h3]; rfl, by simp [h4]⟩
        rw [readBytes, hb]
        simp only [h1]

theorem readBytes_append : ∀ (n : Nat) (r rn r' : bitStreamReader) (bs0 : List Nat) (b : Nat),
    readBytes n r = .ok (bs0, rn) → readByte rn = .ok (b, r') →
    readBytes (n + 1) r = .ok (bs0 ++ [b], r') := by
  intro n
  induction n with
  | zero =>
    intro r rn r' bs0 b h hb
    simp only [readBytes, Except.ok.injEq, Prod.mk.injEq] at h
    obtain ⟨h1, h2⟩ := h
    subst h1 h2
    simp [readBytes, hb]
  | succ n ih =>
    intro r rn r' bs0 b h hb
    rw [readBytes] at h
    cases hb1 : readByte r with
    | error e => rw [hb1] at h; cases h
    | ok p =>
      obtain ⟨b1, r1⟩ := p
      rw [hb1] at h
      simp only at h
      cases hrest : readBytes n r1 with
      | error e => rw [hrest] at h; cases h
      | ok q =>
        obtain ⟨bs1, r2⟩ := q
        rw [hrest] at h
        cases h
        have := ih r1 rn r' bs1 b hrest hb
        rw [readBytes, hb1]
        simp only [this, List.cons_append]

theorem governed_after (D T : List Nat) (o0 : Nat) (r : bitStreamReader) (hT : T.length = 8)
    (hg : Governed D T o0 0 r) :
    ∀ (n : Nat) (bs : List Nat) (rn : bitStreamReader), n ≤ 63 →
      readBytes n r = .ok (bs, rn) → Governed D T o0 n rn := by
  intro n
  induction n with
  | zero =>
    intro bs rn _ h
    simp only [readBytes, Except.ok.injEq, Prod.mk.injEq] at h
    rw [← h.2]; exact hg
  | succ n ih =>
    intro bs rn hn h
    obtain ⟨bs0, rm, b, h1, h2, _, _⟩ := readBytes_snoc n r rn bs h
    exact (governed_step D T o0 n rm rn b hT (ih bs0 rm (by omega) h1) h2).2.2.2 (by omega)


/-! ## Claims on the bit stream -/

/-- C1 (as stated, refuted): on the stream `00 00` the table load leaves the all-zero table
and offset 1; the first 64 calls succeed; the bit governing call 64 (bit 0 of `T[7]`) is
clear and the call returns 0, yet it moves the offset from 1 to 2: the call ends with the
table reload, which consumes the next control byte. -/
theorem C1_counterexample :
    readLookupTable (freshReader [0, 0]) = .ok loadedZeroZero ∧
    readBytes 63 loadedZeroZero = .ok (List.replicate 63 0, beforeCall64 [0, 0]) ∧
    govBit loadedZeroZero.lookupTable 63 = false ∧
    readByte (beforeCall64 [0, 0]) =
      .ok (0, { loadedZeroZero with offset := 2 }) ∧
    (beforeCall64 [0, 0]).offset = 1 := by
  decide

/-- C1 (amended): after a successful `readLookupTable` that left the table `T` (8 bytes),
for every `n` in 0..63 such that the first `n+1` `readByte` calls succeed, call `n+1`
starts at offset `o + (number of set governing bits before n)`, where `o` is the offset
left by the table load; it returns the stream byte at that offset when bit `7 - n mod 8`
of `T[n div 8]` is set and 0 when it is clear; for `n < 63` it advances the offset by
exactly 1 (bit set) or 0 (bit clear); the 64th call (`n = 63`) then also performs the
reload: with input left it consumes the next control byte and its `popcount` table bytes,
otherwise nothing more. -/
theorem C1_governing_law (r0 r r' : bitStreamReader) (n : Nat) (bs : List Nat)
    (hlen : r0.lookupTable.length = 8) (hload : readLookupTable r0 = .ok r) (hn : n < 64)
    (hcalls : readBytes (n + 1) r = .ok (bs, r')) :
    ∃ bs0 rn b, readBytes n r = .ok (bs0, rn) ∧ readByte rn = .ok (b, r') ∧
      bs = bs0 ++ [b] ∧
      rn.offset = r.offset + consumedBefore r.lookupTable n ∧
      (govBit r.lookupTable n = true →
        rn.offset < r.data.length ∧ b = r.data.getD rn.offset 0) ∧
      (govBit r.lookupTable n = false → b = 0) ∧
      (n < 63 → r'.offset = rn.offset + (govBit r.lookupTable n).toNat) ∧
      (n = 63 → r'.offset =
        if rn.offset + (govBit r.lookupTable n).toNat < r.data.length
        then rn.offset + (govBit r.lookupTable n).toNat + 1 +
          popcount8 (r.data.getD (rn.offset + (govBit r.lookupTable n).toNat) 0)
        else rn.offset + (govBit r.lookupTable n).toNat) := by
  obtain ⟨bs0, rn, b, h1, h2, h3, _⟩ := readBytes_snoc n r r' bs hcalls
  have hT : r.lookupTable.length = 8 := (readLookupTable_ok_fields r0 r hlen hload).2.1
  have hg0 := governed_zero r0 r hlen hload
  have hgn := governed_after r.data r.lookupTable r.offset r hT hg0 n bs0 rn (by omega) h1
  obtain ⟨hb, hav, _, hnext⟩ := governed_step r.data r.lookupTable r.offset n rn r' b hT hgn h2
  have hoff : rn.offset = r.offset + consumedBefore r.lookupTable n := hgn.2.2.1
  refine ⟨bs0, rn, b, h1, h2, h3, hoff, ?_, ?_, ?_, ?_⟩
  · intro hbit
    rw [hoff]
    exact ⟨hav hbit, by rw [hb, if_pos hbit]⟩
  · intro hbit
    rw [hb, hbit]; rfl
  · intro hn'
    have := (hnext hn').2.2.1
    rw [this, consumedBefore_succ, hoff]; omega
  · intro hn'
    subst hn'
    have hlast := governed_last r.data r.lookupTable r.offset rn r' b hT hgn h2
    have e : consumedBefore r.lookupTable 64 =
        consumedBefore r.lookupTable 63 + (govBit r.lookupTable 63).toNat :=
      consumedBefore_succ r.lookupTable 63
    rw [hlast, hoff, e]
    simp only [Nat.add_assoc]

/-- C1, instance: table `01 .. 08` followed by `AA BB CC`; the eighth call (`n = 7`) is
governed by bit 0 of `T[0] = 0x01`, which is set, and returns `0xAA` after seven zeros. -/
theorem C1_governing_law_witness :
    (freshReader streamAABBCC).lookupTable.length = 8 ∧
    readLookupTable (freshReader streamAABBCC) = .ok loadedAABBCC ∧
    readBytes (7 + 1) loadedAABBCC = .ok ([0, 0, 0, 0, 0, 0, 0, 0xAA], after8AABBCC) ∧
    ∃ bs0 rn b, readBytes 7 loadedAABBCC = .ok (bs0, rn) ∧
      readByte rn = .ok (b, after8AABBCC) ∧
      [0, 0, 0, 0, 0, 0, 0, 0xAA] = bs0 ++ [b] ∧
      rn.offset = loadedAABBCC.offset + consumedBefore loadedAABBCC.lookupTable 7 ∧
      (govBit loadedAABBCC.lookupTable 7 = true →
        rn.offset < loadedAABBCC.data.length ∧ b = loadedAABBCC.data.getD rn.offset 0) ∧
      (govBit loadedAABBCC.lookupTable 7 = false → b = 0) ∧
      (7 < 63 → after8AABBCC.offset = rn.offset + (govBit loadedAABBCC.lookupTable 7).toNat) ∧
      (7 = 63 → after8AABBCC.offset =
        if rn.offset + (govBit loadedAABBCC.lookupTable 7).toNat < loadedAABBCC.data.length
        then rn.offset + (govBit loadedAABBCC.lookupTable 7).toNat + 1 +
          popcount8 (loadedAABBCC.data.getD
            (rn.offset + (govBit loadedAABBCC.lookupTable 7).toNat) 0)
        else rn.offset + (govBit loadedAABBCC.lookupTable 7).toNat) :=
  ⟨by decide, by decide, by decide,
    C1_governing_law (freshReader streamAABBCC) loadedAABBCC after8AABBCC 7
      [0, 0, 0, 0, 0, 0, 0, 0xAA] (by decide) (by decide) (by decide) (by decide)⟩

/-- C2: with the 8-slot table of the reader, a control byte `c` at the current offset that
is followed by at least `popcount(c)` bytes makes `readLookupTable` succeed; slot `i` of
the table is the next stream byte in stream order when bit `7 - i` of `c` is set and 0
otherwise; the offset advances by exactly `1 + popcount(c)`; `bitBuffer = lookupTable[0]`,
`bitCounter = 8`, `tableIndex = 1`. -/
theorem C2_reload_table (r : bitStreamReader) (hlen : r.lookupTable.length = 8)
    (hbytes : r.offset + 1 + popcount8 (r.data.getD r.offset 0) ≤ r.data.length) :
    ∃ r', readLookupTable r = .ok r' ∧ r'.data = r.data ∧ r'.lookupTable.length = 8 ∧
      (∀ i, i < 8 → r'.lookupTable.getD i 0 =
        if (r.data.getD r.offset 0).testBit (7 - i)
        then r.data.getD (r.offset + 1 + setBitsBefore (r.data.getD r.offset 0) i) 0 else 0) ∧
      r'.offset = r.offset + 1 + popcount8 (r.data.getD r.offset 0) ∧
      r'.bitBuffer = r'.lookupTable.getD 0 0 ∧ r'.bitCounter = 8 ∧ r'.tableIndex = 1 :=
  readLookupTable_ok r hlen hbytes

/-- C2, instance: control byte `0xFF` followed by `01 02 03 04 05 06 07 08` yields exactly
that table with `bitBuffer = 0x01`, `bitCounter = 8`, `tableIndex = 1` and offset 9. -/
theorem C2_reload_table_witness :
    newBitStreamReader [0xFF, 1, 2, 3, 4, 5, 6, 7, 8] 0 =
      .ok { data := [0xFF, 1, 2, 3, 4, 5, 6, 7, 8], offset := 9, bitBuffer := 1,
            bitCounter := 8, lookupTable := [1, 2, 3, 4, 5, 6, 7, 8], tableIndex := 1 } ∧
    ∃ r', readLookupTable (freshReader [0xFF, 1, 2, 3, 4, 5, 6, 7, 8]) = .ok r' ∧
      r'.data = (freshReader [0xFF, 1, 2, 3, 4, 5, 6, 7, 8]).data ∧
      r'.lookupTable.length = 8 ∧
      (∀ i, i < 8 → r'.lookupTable.getD i 0 =
        if (0xFF : Nat).testBit (7 - i)
        then [0xFF, 1, 2, 3, 4, 5, 6, 7, 8].getD (0 + 1 + setBitsBefore 0xFF i) 0 else 0) ∧
      r'.offset = 0 + 1 + popcount8 0xFF ∧
      r'.bitBuffer = r'.lookupTable.getD 0 0 ∧ r'.bitCounter = 8 ∧ r'.tableIndex = 1 :=
  ⟨by decide, C2_reload_table (freshReader [0xFF, 1, 2, 3, 4, 5, 6, 7, 8]) (by decide) (by decide)⟩


/-- C3: with the 8-slot table of the reader, a control byte `0x00` at the current offset
makes `readLookupTable` succeed whatever follows it (also nothing): the table is eight
zero bytes, `bitBuffer = 0`, `bitCounter = 8`, `tableIndex = 1`, and exactly the control
byte is consumed; no field of the result depends on the bytes `rest` after it. -/
theorem C3_reload_zero_control (pre rest T : List Nat) (b k t : Nat) (hT : T.length = 8) :
    readLookupTable { data := pre ++ 0 :: rest, offset := pre.length, bitBuffer := b,
                      bitCounter := k, lookupTable := T, tableIndex := t } =
      .ok { data := pre ++ 0 :: rest, offset := pre.length + 1, bitBuffer := 0,
            bitCounter := 8, lookupTable := List.replicate 8 0, tableIndex := 1 } := by
  match T, hT with
  | [a0, a1, a2, a3, a4, a5, a6, a7], _ =>
    have hc : (pre ++ 0 :: rest).getD pre.length 0 = 0 := by
      rw [List.getD_eq_getElem?_getD, List.getElem?_append_right (Nat.le_refl _)]
      simp
    have hlt : ¬ (pre.length ≥ (pre ++ 0 :: rest).length) := by simp
    unfold readLookupTable
    simp only [if_neg hlt, hc]
    simp [forRange, readLookupTable.slot, List.replicate]

/-- C3, instance: the one-byte stream `00`, nothing after the control byte. -/
theorem C3_reload_zero_control_witness :
    (List.replicate 8 0).length = 8 ∧
    readLookupTable { data := [] ++ 0 :: [], offset := ([] : List Nat).length, bitBuffer := 0,
                      bitCounter := 0, lookupTable := List.replicate 8 0, tableIndex := 0 } =
      .ok { data := [] ++ 0 :: [], offset := ([] : List Nat).length + 1, bitBuffer := 0,
            bitCounter := 8, lookupTable := List.replicate 8 0, tableIndex := 1 } :=
  ⟨by decide, C3_reload_zero_control [] [] (List.replicate 8 0) 0 0 0 (by decide)⟩

/-! ### End-of-stream fallback -/

theorem zero_step (r : bitStreamReader) (hb : r.bitBuffer = 0)
    (hT : ∀ x ∈ r.lookupTable, x = 0) (hoff : r.offset ≥ r.data.length) :
    ∃ r', readByte r = .ok (0, r') ∧ r'.bitBuffer = 0 ∧ (∀ x ∈ r'.lookupTable, x = 0) ∧
      r'.offset = r.offset ∧ r'.data = r.data := by
  have hc : r.bitBuffer.testBit 7 = false := by rw [hb]; simp
  have hs : (r.bitBuffer <<< 1) % 256 = 0 := by rw [hb]; simp
  rw [readByte_clear r hc, hs]
  by_cases hz : (r.bitCounter + 255) % 256 = 0
  · by_cases hi : r.tableIndex ≥ r.lookupTable.length
    · rw [reload_eof { r with bitBuffer := 0 } hz hi hoff]
      refine ⟨_, rfl, rfl, ?_, rfl, rfl⟩
      intro x hx
      exact (List.mem_replicate.1 hx).2
    · rw [reload_table { r with bitBuffer := 0 } hz (Nat.lt_of_not_ge hi)]
      refine ⟨_, rfl, ?_, hT, rfl, rfl⟩
      show r.lookupTable.getD r.tableIndex 0 = 0
      rw [List.getD_eq_getElem?_getD, List.getElem?_eq_getElem (Nat.lt_of_not_ge hi)]
      exact hT _ (List.getElem_mem _)
  · rw [reload_keep { r with bitBuffer := 0 } hz]
    exact ⟨_, rfl, rfl, hT, rfl, rfl⟩

theorem zero_run : ∀ (n : Nat) (r : bitStreamReader), r.bitBuffer = 0 →
    (∀ x ∈ r.lookupTable, x = 0) → r.offset ≥ r.data.length →
    ∃ r', readBytes n r = .ok (List.replicate n 0, r') ∧ r'.offset = r.offset := by
  intro n
  induction n with
  | zero => intro r _ _ _; exact ⟨r, rfl, rfl⟩
  | succ n ih =>
    intro r hb hT hoff
    obtain ⟨r1, h1, g1, g2, g3, g4⟩ := zero_step r hb hT hoff
    obtain ⟨r2, h2, g5⟩ := ih r1 g1 g2 (by rw [g3, g4]; exact hoff)
    refine ⟨r2, ?_, g5.trans g3⟩
    rw [readBytes, h1]
    simp only [h2, List.replicate_succ]

/-- C4: let a `readByte` call on `r0` succeed with state `r`, having found the lookup table
exhausted (the counter reached 0 with `tableIndex` at the end of the table) and no input
byte left at the offset reached after its result byte. Then every finite run of further
calls succeeds, every result is 0, and the offset stays what it was. -/
theorem C4_eof_fallback (r0 r : bitStreamReader) (b0 : Nat)
    (hcall : readByte r0 = .ok (b0, r))
    (hcnt : r0.bitCounter = 1) (hidx : r0.tableIndex ≥ r0.lookupTable.length)
    (heof : r0.offset + (r0.bitBuffer.testBit 7).toNat ≥ r0.data.length) (n : Nat) :
    ∃ r', readBytes n r = .ok (List.replicate n 0, r') ∧ r'.offset = r.offset := by
  obtain ⟨hre, _, _⟩ := readByte_split r0 r b0 hcall
  rw [reload_eof { r0 with bitBuffer := (r0.bitBuffer <<< 1) % 256,
                           offset := r0.offset + (r0.bitBuffer.testBit 7).toNat }
    (by show (r0.bitCounter + 255) % 256 = 0; rw [hcnt]) hidx heof] at hre
  cases hre
  exact zero_run n _ rfl (fun x hx => (List.mem_replicate.1 hx).2) heof

/-- C4, instance: on the one-byte stream `00`, call 64 after the table load finds the table
exhausted at the end of the input. -/
theorem C4_eof_fallback_witness :
    readByte (beforeCall64 [0]) =
      .ok (0, { beforeCall64 [0] with bitCounter := 8, tableIndex := 0 }) ∧
    (beforeCall64 [0]).bitCounter = 1 ∧
    (beforeCall64 [0]).tableIndex ≥ (beforeCall64 [0]).lookupTable.length ∧
    (beforeCall64 [0]).offset + ((beforeCall64 [0]).bitBuffer.testBit 7).toNat ≥
      (beforeCall64 [0]).data.length ∧
    ∃ r', readBytes 100 { beforeCall64 [0] with bitCounter := 8, tableIndex := 0 } =
        .ok (List.replicate 100 0, r') ∧
      r'.offset = ({ beforeCall64 [0] with bitCounter := 8, tableIndex := 0 }).offset :=
  ⟨by decide, by decide, by decide, by decide,
    C4_eof_fallback (beforeCall64 [0]) { beforeCall64 [0] with bitCounter := 8, tableIndex := 0 }
      0 (by decide) (by decide) (by decide) (by decide) 100⟩


/-! ### Failure of `readByte` -/

theorem reload_fails_iff (t : bitStreamReader) (hlen : t.lookupTable.length = 8)
    (hc1 : 1 ≤ t.bitCounter) (hc8 : t.bitCounter ≤ 8) (hidx : t.tableIndex ≤ 8) :
    (∃ e, readByte.reload t = .error e) ↔
      t.bitCounter = 1 ∧ t.tableIndex = 8 ∧ t.offset < t.data.length ∧
      t.data.length < t.offset + 1 + popcount8 (t.data.getD t.offset 0) := by
  by_cases hz : (t.bitCounter + 255) % 256 = 0
  · have h1 : t.bitCounter = 1 := by omega
    by_cases hi : t.tableIndex ≥ t.lookupTable.length
    · have h8 : t.tableIndex = 8 := by rw [hlen] at hi; omega
      by_cases hoff : t.offset ≥ t.data.length
      · rw [reload_eof t hz hi hoff]
        constructor
        · rintro ⟨e, he⟩; cases he
        · rintro ⟨_, _, h, _⟩; omega
      · rw [reload_new t hz hi (Nat.lt_of_not_ge hoff)]
        have key := readLookupTable_fails_iff
          { t with bitCounter := (t.bitCounter + 255) % 256 } hlen
        constructor
        · rintro ⟨e, he⟩
          refine ⟨h1, h8, Nat.lt_of_not_ge hoff, ?_⟩
          apply key.1
          cases hr : readLookupTable { t with bitCounter := (t.bitCounter + 255) % 256 } with
          | error e' => exact ⟨e', rfl⟩
          | ok r' => rw [hr] at he; cases he
        · rintro ⟨_, _, _, hshort⟩
          obtain ⟨e', he'⟩ := key.2 hshort
          exact ⟨.newTableFailed e', by rw [he']⟩
    · rw [reload_table t hz (Nat.lt_of_not_ge hi)]
      constructor
      · rintro ⟨e, he⟩; cases he
      · rintro ⟨_, h, _, _⟩; rw [hlen] at hi; omega
  · rw [reload_keep t hz]
    constructor
    · rintro ⟨e, he⟩; cases he
    · rintro ⟨h, _, _, _⟩; rw [h] at hz; exact absurd rfl hz

theorem readByte_fails_iff (r : bitStreamReader) (hinv : ReaderInv r) :
    (∃ e, readByte r = .error e) ↔
      (r.bitBuffer.testBit 7 = true ∧ r.offset ≥ r.data.length) ∨
      (r.bitCounter = 1 ∧ r.tableIndex = 8 ∧
        r.offset + (r.bitBuffer.testBit 7).toNat < r.data.length ∧
        r.data.length < r.offset + (r.bitBuffer.testBit 7).toNat + 1 +
          popcount8 (r.data.getD (r.offset + (r.bitBuffer.testBit 7).toNat) 0)) := by
  obtain ⟨hc1, hc8, hidx, hlen, _⟩ := hinv
  cases hc : r.bitBuffer.testBit 7 with
  | true =>
    rw [readByte_carry r hc]
    by_cases hend : r.offset ≥ r.data.length
    · rw [if_pos hend]
      exact ⟨fun _ => Or.inl ⟨rfl, hend⟩, fun _ => ⟨_, rfl⟩⟩
    · rw [if_neg hend]
      have key := reload_fails_iff
        { r with bitBuffer := (r.bitBuffer <<< 1) % 256, offset := r.offset + 1 }
        hlen hc1 hc8 hidx
      constructor
      · rintro ⟨e, he⟩
        right
        apply key.1
        cases hre : readByte.reload
            { r with bitBuffer := (r.bitBuffer <<< 1) % 256, offset := r.offset + 1 } with
        | error e' => exact ⟨e', rfl⟩
        | ok r2 => rw [hre] at he; cases he
      · rintro (⟨_, h⟩ | h)
        · exact absurd h hend
        · obtain ⟨e', he'⟩ := key.2 h
          exact ⟨e', by rw [he']⟩
  | false =>
    rw [readByte_clear r hc]
    have key := reload_fails_iff { r with bitBuffer := (r.bitBuffer <<< 1) % 256 }
      hlen hc1 hc8 hidx
    constructor
    · rintro ⟨e, he⟩
      right
      apply key.1
      cases hre : readByte.reload { r with bitBuffer := (r.bitBuffer <<< 1) % 256 } with
      | error e' => exact ⟨e', rfl⟩
      | ok r2 => rw [hre] at he; cases he
    · rintro (⟨h, _⟩ | h)
      · cases h
      · obtain ⟨e', he'⟩ := key.2 h
        exact ⟨e', by rw [he']⟩

/-- C5 (as stated, refuted): on the stream `00 80` the reader is built, 63 calls succeed,
and call 64 fails although the high bit of `bitBuffer` is clear and an input byte is
available at the offset on entry: the table is exhausted, the call starts the reload, the
new control byte `0x80` asks for a table byte, and the stream has none. The state on entry
satisfies the reader invariant. -/
theorem C5_counterexample :
    (newBitStreamReader truncatedTableStream 0).bind (readBytes 63) =
      .ok (List.replicate 63 0, beforeCall64 truncatedTableStream) ∧
    ReaderInv (beforeCall64 truncatedTableStream) ∧
    (beforeCall64 truncatedTableStream).bitBuffer.testBit 7 = false ∧
    (beforeCall64 truncatedTableStream).offset <
      (beforeCall64 truncatedTableStream).data.length ∧
    readByte (beforeCall64 truncatedTableStream) =
      .error (.newTableFailed (.tableByteEnd 0)) := by
  decide

/-- C5 (amended): in a state that satisfies the reader invariant, `readByte` returns an
error exactly in two cases: (a) the high bit of `bitBuffer` is set and no input byte is
available at the offset on entry; (b) the call exhausts the table (`bitCounter = 1`,
`tableIndex = 8`), input remains after the result byte, and the table reload fails because
fewer than `popcount` bytes follow the new control byte. In every other state the call
succeeds. -/
theorem C5_readByte_fails_iff (r : bitStreamReader) (hinv : ReaderInv r) :
    (∃ e, readByte r = .error e) ↔
      (r.bitBuffer.testBit 7 = true ∧ r.offset ≥ r.data.length) ∨
      (r.bitCounter = 1 ∧ r.tableIndex = 8 ∧
        r.offset + (r.bitBuffer.testBit 7).toNat < r.data.length ∧
        r.data.length < r.offset + (r.bitBuffer.testBit 7).toNat + 1 +
          popcount8 (r.data.getD (r.offset + (r.bitBuffer.testBit 7).toNat) 0)) :=
  readByte_fails_iff r hinv

/-- C5, instance: the state in front of call 64 on the stream `00 80`; the call fails by
case (b). -/
theorem C5_readByte_fails_iff_witness :
    ReaderInv (beforeCall64 truncatedTableStream) ∧
    ((∃ e, readByte (beforeCall64 truncatedTableStream) = .error e) ↔
      ((beforeCall64 truncatedTableStream).bitBuffer.testBit 7 = true ∧
        (beforeCall64 truncatedTableStream).offset ≥
          (beforeCall64 truncatedTableStream).data.length) ∨
      ((beforeCall64 truncatedTableStream).bitCounter = 1 ∧
        (beforeCall64 truncatedTableStream).tableIndex = 8 ∧
        (beforeCall64 truncatedTableStream).offset +
            ((beforeCall64 truncatedTableStream).bitBuffer.testBit 7).toNat <
          (beforeCall64 truncatedTableStream).data.length ∧
        (beforeCall64 truncatedTableStream).data.length <
          (beforeCall64 truncatedTableStream).offset +
            ((beforeCall64 truncatedTableStream).bitBuffer.testBit 7).toNat + 1 +
            popcount8 ((beforeCall64 truncatedTableStream).data.getD
              ((beforeCall64 truncatedTableStream).offset +
                ((beforeCall64 truncatedTableStream).bitBuffer.testBit 7).toNat) 0))) :=
  ⟨by decide, C5_readByte_fails_iff (beforeCall64 truncatedTableStream) (by decide)⟩

/-! ## `DecodeCMP`: the two phases -/

theorem idx_lt_of_row_lt (W r' x' r x : Nat) (hx' : x' < W) (hr : r' < r) :
    r' * W + x' < r * W + x := by
  have h1 : (r' + 1) * W ≤ r * W := Nat.mul_le_mul_right W hr
  rw [Nat.succ_mul] at h1
  omega

theorem idx_lt_of_before (W r' x' r x : Nat) (hx' : x' < W)
    (h : r' < r ∨ (r' = r ∧ x' < x)) : r' * W + x' < r * W + x := by
  rcases h with h | ⟨h1, h2⟩
  · exact idx_lt_of_row_lt W r' x' r x hx' h
  · subst h1; omega

theorem idx_lt_total (W H r x : Nat) (hx : x < W) (hr : r < H) : r * W + x < W * H := by
  have := idx_lt_of_row_lt W r x H 0 hx hr
  rw [Nat.mul_comm W H]; omega

theorem drop_cons_getD (l : List Nat) (m b : Nat) (rest : List Nat)
    (h : l.drop m = b :: rest) : l.getD m 0 = b ∧ l.drop (m + 1) = rest := by
  constructor
  · rw [List.getD_eq_getElem?_getD]
    have := congrArg List.head? h
    simp [List.head?_drop] at this
    simp [this]
  · have := congrArg List.tail h
    simpa using this

theorem readBytes_cons (n : Nat) (r rEnd : bitStreamReader) (bs : List Nat)
    (h : readBytes (n + 1) r = .ok (bs, rEnd)) :
    ∃ b r' rest, readByte r = .ok (b, r') ∧ readBytes n r' = .ok (rest, rEnd) ∧
      bs = b :: rest := by
  rw [readBytes] at h
  cases hb : readByte r with
  | error e => rw [hb] at h; cases h
  | ok p =>
    obtain ⟨b, r1⟩ := p
    rw [hb] at h
    simp only at h
    cases hrest : readBytes n r1 with
    | error e => rw [hrest] at h; cases h
    | ok q =>
      obtain ⟨bs1, r2⟩ := q
      rw [hrest] at h
      cases h
      exact ⟨b, r1, bs1, rfl, hrest, rfl⟩

/-- One byte of either phase: the next call of the reader succeeds with the next result. -/
theorem rows_next_byte (W H K : Nat) (bs : List Nat) (rEnd : bitStreamReader) (r x : Nat)
    (s : DecodeState) (hinv : RowsInv W H K bs rEnd r x s) (hx : x < W) (hr : r < H) :
    ∃ rd', readByte s.1 = .ok (bs.getD (r * W + x) 0, rd') ∧
      readBytes (W * H - (r * W + (x + 1))) rd' = .ok (bs.drop (r * W + (x + 1)), rEnd) := by
  obtain ⟨_, hread, _⟩ := hinv
  have hm := idx_lt_total W H r x hx hr
  have e : W * H - (r * W + x) = (W * H - (r * W + (x + 1))) + 1 := by omega
  rw [e] at hread
  obtain ⟨b, rd', rest, h1, h2, h3⟩ := readBytes_cons _ _ _ _ hread
  obtain ⟨g1, g2⟩ := drop_cons_getD bs (r * W + x) b rest h3
  refine ⟨rd', by rw [g1]; exact h1, ?_⟩
  rw [show r * W + (x + 1) = r * W + x + 1 by omega, g2]
  rw [show r * W + (x + 1) = r * W + x + 1 by omega] at h2
  exact h2

/-- Writing the byte of row `r`, column `x` keeps `RowRel` at every earlier position. -/
theorem rowRel_set_before (W K : Nat) (bs out : List Nat) (r x v r' x' : Nat)
    (hx' : x' < W) (hbefore : r' < r ∨ (r' = r ∧ x' < x))
    (h : RowRel W K bs out r' x') : RowRel W K bs (out.set (r * W + x) v) r' x' := by
  have hlt := idx_lt_of_before W r' x' r x hx' hbefore
  unfold RowRel at h ⊢
  rw [getD_set, if_neg (by omega), h]
  by_cases h1 : r' < K
  · simp only [if_pos h1]
  · simp only [if_neg h1]
    by_cases h2 : 1 ≤ r'
    · simp only [if_pos h2]
      have hprev : (r' - 1) * W + x' < r' * W + x' :=
        idx_lt_of_row_lt W (r' - 1) x' r' x' hx' (by omega)
      rw [getD_set, if_neg (by omega)]
    · simp only [if_neg h2]

theorem directByte_step (W H K : Nat) (bs : List Nat) (rEnd : bitStreamReader) (r x : Nat)
    (s : DecodeState) (hinv : RowsInv W H K bs rEnd r x s) (hx : x < W) (hr : r < K)
    (hK : K ≤ H) :
    ∃ s', DecodeCMP.directByte W r x s = .ok s' ∧ RowsInv W H K bs rEnd r (x + 1) s' := by
  obtain ⟨rd', h1, h2⟩ := rows_next_byte W H K bs rEnd r x s hinv hx (by omega)
  obtain ⟨hlen, _, hrel⟩ := hinv
  have hm := idx_lt_total W H r x hx (by omega : r < H)
  refine ⟨(rd', s.2.set (r * W + x) (bs.getD (r * W + x) 0)), ?_, ?_, h2, ?_⟩
  · unfold DecodeCMP.directByte
    rw [h1]
  · simp [hlen]
  · intro r' x' hx' hb
    by_cases hnew : r' = r ∧ x' = x
    · obtain ⟨e1, e2⟩ := hnew
      subst e1 e2
      unfold RowRel
      rw [if_pos hr, getD_set, if_pos ⟨rfl, by rw [hlen]; exact hm⟩]
    · exact rowRel_set_before W K bs s.2 r x _ r' x' hx' (by omega)
        (hrel r' x' hx' (by omega))

theorem xorByte_step (W H K : Nat) (bs : List Nat) (rEnd : bitStreamReader) (r x : Nat)
    (s : DecodeState) (hinv : RowsInv W H K bs rEnd r x s) (hx : x < W) (hrK : K ≤ r)
    (hr : r < H) :
    ∃ s', DecodeCMP.xorByte W r x s = .ok s' ∧ RowsInv W H K bs rEnd r (x + 1) s' := by
  obtain ⟨rd', h1, h2⟩ := rows_next_byte W H K bs rEnd r x s hinv hx hr
  obtain ⟨hlen, _, hrel⟩ := hinv
  have hm := idx_lt_total W H r x hx hr
  by_cases h0 : 1 ≤ r
  · have hp : ((r : Int) - 1 ≥ 0) := by omega
    have hpn : ((r : Int) - 1).toNat = r - 1 := by omega
    refine ⟨(rd', s.2.set (r * W + x)
      (bs.getD (r * W + x) 0 ^^^ s.2.getD ((r - 1) * W + x) 0)), ?_, ?_, h2, ?_⟩
    · unfold DecodeCMP.xorByte
      simp only [h1, if_pos hp, hpn]
    · simp [hlen]
    · intro r' x' hx' hb
      by_cases hnew : r' = r ∧ x' = x
      · obtain ⟨e1, e2⟩ := hnew
        subst e1 e2
        have hprev : (r' - 1) * W + x' < r' * W + x' :=
          idx_lt_of_row_lt W (r' - 1) x' r' x' hx' (by omega)
        unfold RowRel
        rw [if_neg (by omega), if_pos h0, getD_set, if_pos ⟨rfl, by rw [hlen]; exact hm⟩,
          getD_set, if_neg (by omega)]
      · exact rowRel_set_before W K bs s.2 r x _ r' x' hx' (by omega)
          (hrel r' x' hx' (by omega))
  · have hp : ¬ ((r : Int) - 1 ≥ 0) := by omega
    refine ⟨(rd', s.2.set (r * W + x) (bs.getD (r * W + x) 0)), ?_, ?_, h2, ?_⟩
    · unfold DecodeCMP.xorByte
      simp only [h1, if_neg hp]
    · simp [hlen]
    · intro r' x' hx' hb
      by_cases hnew : r' = r ∧ x' = x
      · obtain ⟨e1, e2⟩ := hnew
        subst e1 e2
        unfold RowRel
        rw [if_neg (by omega), if_neg h0, getD_set, if_pos ⟨rfl, by rw [hlen]; exact hm⟩]
      · exact rowRel_set_before W K bs s.2 r x _ r' x' hx' (by omega)
          (hrel r' x' hx' (by omega))


theorem rowsInv_next_row (W H K : Nat) (bs : List Nat) (rEnd : bitStreamReader) (r : Nat)
    (s : DecodeState) (h : RowsInv W H K bs rEnd r W s) :
    RowsInv W H K bs rEnd (r + 1) 0 s := by
  obtain ⟨h1, h2, h3⟩ := h
  have e : (r + 1) * W + 0 = r * W + W := by rw [Nat.succ_mul]; rfl
  refine ⟨h1, by rw [e]; exact h2, ?_⟩
  intro r' x' hx' hb
  exact h3 r' x' hx' (by omega)

theorem direct_row (W H K : Nat) (bs : List Nat) (rEnd : bitStreamReader) (r : Nat)
    (s : DecodeState) (hinv : RowsInv W H K bs rEnd r 0 s) (hr : r < K) (hK : K ≤ H) :
    ∃ s', forRange (DecodeCMP.directByte W r) W 0 s = .ok s' ∧
      RowsInv W H K bs rEnd (r + 1) 0 s' := by
  obtain ⟨s', h1, h2⟩ := forRange_spec (DecodeCMP.directByte W r)
    (fun x t => RowsInv W H K bs rEnd r x t) W 0 s hinv
    (fun x t _ hx ht => directByte_step W H K bs rEnd r x t ht (by omega) hr hK)
  refine ⟨s', h1, rowsInv_next_row W H K bs rEnd r s' ?_⟩
  simpa using h2

theorem xor_row (W H K : Nat) (bs : List Nat) (rEnd : bitStreamReader) (r : Nat)
    (s : DecodeState) (hinv : RowsInv W H K bs rEnd r 0 s) (hrK : K ≤ r) (hr : r < H) :
    ∃ s', forRange (DecodeCMP.xorByte W r) W 0 s = .ok s' ∧
      RowsInv W H K bs rEnd (r + 1) 0 s' := by
  obtain ⟨s', h1, h2⟩ := forRange_spec (DecodeCMP.xorByte W r)
    (fun x t => RowsInv W H K bs rEnd r x t) W 0 s hinv
    (fun x t _ hx ht => xorByte_step W H K bs rEnd r x t ht (by omega) hrK hr)
  refine ⟨s', h1, rowsInv_next_row W H K bs rEnd r s' ?_⟩
  simpa using h2

/-- Both phases succeed when the `W * H` calls of the reader do, and end in `RowsInv` in
front of row `H`. -/
theorem rows_spec (W H K : Nat) (reader rEnd : bitStreamReader) (bs : List Nat) (hK : K ≤ H)
    (hread : readBytes (W * H) reader = .ok (bs, rEnd)) :
    ∃ s', DecodeCMP.rows W H K reader = .ok s' ∧ RowsInv W H K bs rEnd H 0 s' := by
  have h0 : RowsInv W H K bs rEnd 0 0 (reader, List.replicate (W * H) 0) := by
    refine ⟨by simp, by simpa using hread, ?_⟩
    intro r' x' _ hb
    omega
  obtain ⟨s1, g1, g2⟩ := forRange_spec
    (fun scanline s => forRange (DecodeCMP.directByte W scanline) W 0 s)
    (fun r t => RowsInv W H K bs rEnd r 0 t) K 0 _ h0
    (fun r t _ hr ht => direct_row W H K bs rEnd r t ht (by omega) hK)
  simp only [Nat.zero_add] at g2
  obtain ⟨s2, g3, g4⟩ := forRange_spec
    (fun scanline s => forRange (DecodeCMP.xorByte W scanline) W 0 s)
    (fun r t => RowsInv W H K bs rEnd r 0 t) (H - K) K s1 g2
    (fun r t hrK hr ht => xor_row W H K bs rEnd r t ht hrK (by omega))
  have e : K + (H - K) = H := by omega
  rw [e] at g4
  refine ⟨s2, ?_, g4⟩
  unfold DecodeCMP.rows DecodeCMP.phase1 DecodeCMP.phase2
  rw [g1]
  exact g3

theorem rowsInv_final (W H K : Nat) (bs : List Nat) (rEnd : bitStreamReader)
    (s : DecodeState) (h : RowsInv W H K bs rEnd H 0 s) : s.1 = rEnd := by
  obtain ⟨_, h2, _⟩ := h
  have e : W * H - (H * W + 0) = 0 := by rw [Nat.mul_comm]; omega
  rw [e] at h2
  simp only [readBytes, Except.ok.injEq, Prod.mk.injEq] at h2
  exact h2.2

/-! ## Claims on `DecodeCMP` -/

/-- C6: let `bs` be the results of the `W * H` successive `readByte` calls, all succeeding,
and `K ≤ H` (which `DecodeCMP` has checked). Then the two phases succeed, leave the reader
in the state after those calls, and the decoded buffer `out` has `W * H` bytes with
`out[r*W+x] = bs[r*W+x]` for every row `r < K`; `out[r*W+x] = bs[r*W+x] XOR out[(r-1)*W+x]`
for every row `K ≤ r < H` with `r ≥ 1`; and, when `K = 0`, row 0 verbatim. -/
theorem C6_phase_reconstruction (W H K : Nat) (reader rEnd : bitStreamReader)
    (bs : List Nat) (hK : K ≤ H) (hread : readBytes (W * H) reader = .ok (bs, rEnd)) :
    ∃ out, DecodeCMP.rows W H K reader = .ok (rEnd, out) ∧ out.length = W * H ∧
      (∀ r x, r < K → x < W → out.getD (r * W + x) 0 = bs.getD (r * W + x) 0) ∧
      (∀ r x, K ≤ r → r < H → 1 ≤ r → x < W →
        out.getD (r * W + x) 0 = bs.getD (r * W + x) 0 ^^^ out.getD ((r - 1) * W + x) 0) ∧
      (K = 0 → 0 < H → ∀ x, x < W → out.getD x 0 = bs.getD x 0) := by
  obtain ⟨s', h1, h2⟩ := rows_spec W H K reader rEnd bs hK hread
  have hfin := rowsInv_final W H K bs rEnd s' h2
  obtain ⟨hlen, _, hrel⟩ := h2
  obtain ⟨rd, out⟩ := s'
  simp only at hfin hlen hrel
  subst hfin
  refine ⟨out, h1, hlen, ?_, ?_, ?_⟩
  · intro r x hr hx
    have := hrel r x hx (Or.inl (by omega))
    unfold RowRel at this
    rw [if_pos hr] at this
    exact this
  · intro r x hrK hrH hr1 hx
    have := hrel r x hx (Or.inl hrH)
    unfold RowRel at this
    rw [if_neg (by omega), if_pos hr1] at this
    exact this
  · intro hK0 hH x hx
    have := hrel 0 x hx (Or.inl hH)
    unfold RowRel at this
    rw [if_neg (by omega), if_neg (by omega)] at this
    simpa using this

/-- C6, instance: width 2, height 3, one verbatim row; the six calls return
`12 34 56 78 00 00` and the decoded buffer is `12 34 | 44 4C | 44 4C`. -/
theorem C6_phase_reconstruction_witness :
    1 ≤ 3 ∧ readBytes (2 * 3) deltaReader = .ok ([0x12, 0x34, 0x56, 0x78, 0, 0], deltaReaderEnd) ∧
    DecodeCMP.rows 2 3 1 deltaReader = .ok (deltaReaderEnd, [0x12, 0x34, 0x44, 0x4C, 0x44, 0x4C]) ∧
    ∃ out, DecodeCMP.rows 2 3 1 deltaReader = .ok (deltaReaderEnd, out) ∧ out.length = 2 * 3 ∧
      (∀ r x, r < 1 → x < 2 →
        out.getD (r * 2 + x) 0 = [0x12, 0x34, 0x56, 0x78, 0, 0].getD (r * 2 + x) 0) ∧
      (∀ r x, 1 ≤ r → r < 3 → 1 ≤ r → x < 2 →
        out.getD (r * 2 + x) 0 =
          [0x12, 0x34, 0x56, 0x78, 0, 0].getD (r * 2 + x) 0 ^^^ out.getD ((r - 1) * 2 + x) 0) ∧
      (1 = 0 → 0 < 3 → ∀ x, x < 2 → out.getD x 0 = [0x12, 0x34, 0x56, 0x78, 0, 0].getD x 0) :=
  ⟨by decide, by decide, by decide,
    C6_phase_reconstruction 2 3 1 deltaReader deltaReaderEnd [0x12, 0x34, 0x56, 0x78, 0, 0]
      (by decide) (by decide)⟩

/-- C7: an input with fewer than 3 bytes, or with width byte 0, or with height byte 0, or
with a verbatim-row count above the height, makes `DecodeCMP` return an error and no
image: "file too small" for a short input, else "invalid dimensions" for a zero width or
height, else "invalid control byte" for `K > H`, which is never clamped. -/
theorem C7_header_validation (data : List Nat) (config : Config)
    (h : data.length < 3 ∨ data.getD 0 0 = 0 ∨ data.getD 1 0 = 0 ∨
      data.getD 2 0 > data.getD 1 0) :
    DecodeCMP data config =
      .error (if data.length < 3 then .fileTooSmall
              else if data.getD 0 0 = 0 ∨ data.getD 1 0 = 0 then .invalidDimensions
              else .invalidControl) := by
  unfold DecodeCMP
  by_cases h3 : data.length < 3
  · simp only [if_pos h3]
  · simp only [if_neg h3]
    by_cases hd : data.getD 0 0 = 0 ∨ data.getD 1 0 = 0
    · have hd' : data.getD 0 0 ≤ 0 ∨ data.getD 1 0 ≤ 0 := by omega
      simp only [if_pos hd, if_pos hd']
    · have hd' : ¬ (data.getD 0 0 ≤ 0 ∨ data.getD 1 0 ≤ 0) := by omega
      have hk : data.getD 2 0 < 0 ∨ data.getD 2 0 > data.getD 1 0 := by
        right; omega
      simp only [if_neg hd, if_neg hd', if_pos hk]

/-- C7, instance: the input `10 10 FF` of the test suite (`K = 255 > H = 16`). -/
theorem C7_header_validation_witness :
    ([0x10, 0x10, 0xFF].length < 3 ∨ [0x10, 0x10, 0xFF].getD 0 0 = 0 ∨
      [0x10, 0x10, 0xFF].getD 1 0 = 0 ∨ [0x10, 0x10, 0xFF].getD 2 0 > [0x10, 0x10, 0xFF].getD 1 0) ∧
    DecodeCMP [0x10, 0x10, 0xFF] ⟨"", false, false, none⟩ =
      .error (if [0x10, 0x10, 0xFF].length < 3 then .fileTooSmall
              else if [0x10, 0x10, 0xFF].getD 0 0 = 0 ∨ [0x10, 0x10, 0xFF].getD 1 0 = 0
              then .invalidDimensions
              else .invalidControl) :=
  ⟨by decide, C7_header_validation [0x10, 0x10, 0xFF] ⟨"", false, false, none⟩ (by decide)⟩


/-! ## `DecodeCMP`: the pixel grid -/

theorem idx_inj (S y x y' x' : Nat) (hx : x < S) (hx' : x' < S)
    (h : y * S + x = y' * S + x') : y = y' ∧ x = x' := by
  rcases Nat.lt_trichotomy y y' with hlt | heq | hgt
  · have := idx_lt_of_row_lt S y x y' x' hx hlt; omega
  · subst heq; exact ⟨rfl, by omega⟩
  · have := idx_lt_of_row_lt S y' x' y x hx' hgt; omega

theorem setColorIndex_dims (p : Paletted) (x y v : Nat) :
    (p.SetColorIndex x y v).width = p.width ∧ (p.SetColorIndex x y v).height = p.height ∧
    (p.SetColorIndex x y v).Stride = p.Stride ∧
    (p.SetColorIndex x y v).Pix.length = p.Pix.length := by
  unfold Paletted.SetColorIndex
  split
  · exact ⟨rfl, rfl, rfl, by simp⟩
  · exact ⟨rfl, rfl, rfl, rfl⟩

theorem colorIndexAt_set (p : Paletted) (x y v x' y' : Nat) (hS : p.Stride = p.width)
    (hlen : p.Pix.length = p.width * p.height) :
    (p.SetColorIndex x y v).ColorIndexAt x' y' =
      if x' = x ∧ y' = y ∧ x < p.width ∧ y < p.height then v else p.ColorIndexAt x' y' := by
  unfold Paletted.SetColorIndex Paletted.ColorIndexAt
  by_cases hin : x < p.width ∧ y < p.height
  · obtain ⟨hxw, hyh⟩ := hin
    simp only [if_pos (And.intro hxw hyh)]
    by_cases hin' : x' < p.width ∧ y' < p.height
    · obtain ⟨hxw', hyh'⟩ := hin'
      simp only [if_pos (And.intro hxw' hyh'), getD_set, hS, hlen]
      have hidx : y * p.width + x < p.width * p.height := idx_lt_total p.width p.height y x hxw hyh
      by_cases heq : x' = x ∧ y' = y
      · obtain ⟨e1, e2⟩ := heq
        subst e1 e2
        rw [if_pos ⟨rfl, hidx⟩, if_pos ⟨rfl, rfl, hxw, hyh⟩]
      · have hne : ¬ (y * p.width + x = y' * p.width + x' ∧ y * p.width + x < p.width * p.height) := by
          rintro ⟨h, _⟩
          obtain ⟨e1, e2⟩ := idx_inj p.width y x y' x' hxw hxw' h
          exact heq ⟨e2.symm, e1.symm⟩
        rw [if_neg hne, if_neg (fun h => heq ⟨h.1, h.2.1⟩)]
    · have hne : ¬ (x' = x ∧ y' = y ∧ x < p.width ∧ y < p.height) := by
        rintro ⟨e1, e2, _, _⟩
        subst e1 e2
        exact hin' ⟨hxw, hyh⟩
      simp only [if_neg hin', if_neg hne]
  · have hne : ¬ (x' = x ∧ y' = y ∧ x < p.width ∧ y < p.height) :=
      fun h => hin ⟨h.2.2.1, h.2.2.2⟩
    simp only [if_neg hin, if_neg hne]

theorem pixelPair_step (W outW H : Nat) (output : List Nat) (y x : Nat) (img : Paletted)
    (hinv : PixelsInv W outW H output y x img) (hy : y < H) (hx : x * 2 < outW) :
    PixelsInv W outW H output y (x + 1) (DecodeCMP.pixelPair W outW output y x img) := by
  obtain ⟨hw, hh, hs, hl, hpix⟩ := hinv
  obtain ⟨d1, d2, d3, d4⟩ := setColorIndex_dims img (x * 2) y (output.getD (y * W + x) 0 >>> 4)
  have hS1 : (img.SetColorIndex (x * 2) y (output.getD (y * W + x) 0 >>> 4)).Stride =
      (img.SetColorIndex (x * 2) y (output.getD (y * W + x) 0 >>> 4)).width := by
    rw [d1, d3, hs, hw]
  have hL1 : (img.SetColorIndex (x * 2) y (output.getD (y * W + x) 0 >>> 4)).Pix.length =
      (img.SetColorIndex (x * 2) y (output.getD (y * W + x) 0 >>> 4)).width *
        (img.SetColorIndex (x * 2) y (output.getD (y * W + x) 0 >>> 4)).height := by
    rw [d1, d2, d4, hl, hw, hh]
  have hS0 : img.Stride = img.width := by rw [hs, hw]
  have hL0 : img.Pix.length = img.width * img.height := by rw [hl, hw, hh]
  unfold DecodeCMP.pixelPair
  simp only
  by_cases hodd : x * 2 + 1 < outW
  · rw [if_pos hodd]
    obtain ⟨e1, e2, e3, e4⟩ := setColorIndex_dims
      (img.SetColorIndex (x * 2) y (output.getD (y * W + x) 0 >>> 4)) (x * 2 + 1) y
      (output.getD (y * W + x) 0 &&& 0x0F)
    refine ⟨by rw [e1, d1, hw], by rw [e2, d2, hh], by rw [e3, d3, hs],
      by rw [e4, d4, hl], ?_⟩
    intro y' x' hb hy' hx'
    rw [colorIndexAt_set _ _ _ _ _ _ hS1 hL1, colorIndexAt_set _ _ _ _ _ _ hS0 hL0,
      colorIndexAt_set _ _ _ _ _ _ hS1 hL1, colorIndexAt_set _ _ _ _ _ _ hS0 hL0]
    rw [if_neg (by omega)]
    by_cases hnew : y' = y ∧ x' = x
    · obtain ⟨a1, a2⟩ := hnew
      subst a1 a2
      rw [if_pos ⟨rfl, rfl, by rw [hw]; exact hx, by rw [hh]; exact hy⟩]
      refine ⟨rfl, fun _ => ?_⟩
      rw [if_pos ⟨rfl, rfl, by rw [d1, hw]; exact hodd, by rw [d2, hh]; exact hy⟩]
    · have hold := hpix y' x' (by omega) hy' hx'
      rw [if_neg (by omega)]
      refine ⟨hold.1, fun h => ?_⟩
      rw [if_neg (by omega), if_neg (by omega)]
      exact hold.2 h
  · rw [if_neg hodd]
    refine ⟨by rw [d1, hw], by rw [d2, hh], by rw [d3, hs], by rw [d4, hl], ?_⟩
    intro y' x' hb hy' hx'
    rw [colorIndexAt_set _ _ _ _ _ _ hS0 hL0, colorIndexAt_set _ _ _ _ _ _ hS0 hL0]
    by_cases hnew : y' = y ∧ x' = x
    · obtain ⟨a1, a2⟩ := hnew
      subst a1 a2
      rw [if_pos ⟨rfl, rfl, by rw [hw]; exact hx, by rw [hh]; exact hy⟩]
      exact ⟨rfl, fun h => absurd h hodd⟩
    · have hold := hpix y' x' (by omega) hy' hx'
      rw [if_neg (by omega)]
      refine ⟨hold.1, fun h => ?_⟩
      rw [if_neg (by omega)]
      exact hold.2 h

theorem pixel_row (W outW H : Nat) (output : List Nat) (y : Nat) (img : Paletted)
    (hout : outW ≤ W * 2) (hinv : PixelsInv W outW H output y 0 img) (hy : y < H) :
    PixelsInv W outW H output (y + 1) 0
      (forWhile (fun x => decide (x < W) && decide (x * 2 < outW))
        (DecodeCMP.pixelPair W outW output y) W 0 img) := by
  obtain ⟨k, _, hk, hP, hstop⟩ := forWhile_spec
    (fun x => decide (x < W) && decide (x * 2 < outW))
    (DecodeCMP.pixelPair W outW output y)
    (fun x t => PixelsInv W outW H output y x t) W 0 img hinv
    (fun x t _ _ hc ht => by
      simp only [Bool.and_eq_true, decide_eq_true_eq] at hc
      exact pixelPair_step W outW H output y x t ht hy hc.2)
  obtain ⟨hw, hh, hs, hl, hpix⟩ := hP
  refine ⟨hw, hh, hs, hl, ?_⟩
  intro y' x' hb hy' hx'
  apply hpix y' x' _ hy' hx'
  rcases hb with hb | ⟨hb, hb'⟩
  · rcases Nat.lt_or_ge y' y with h | h
    · exact Or.inl h
    · right
      refine ⟨by omega, ?_⟩
      by_cases hkW : k < 0 + W
      · have := hstop hkW
        simp only [Bool.and_eq_false_iff, decide_eq_false_iff_not] at this
        omega
      · omega
  · omega

theorem pixels_spec (W outW H : Nat) (output : List Nat) (pal : List RGBA)
    (hout : outW ≤ W * 2) :
    PixelsInv W outW H output H 0
      (DecodeCMP.pixels W H outW output (NewPaletted outW H pal)) := by
  have h0 : PixelsInv W outW H output 0 0 (NewPaletted outW H pal) := by
    refine ⟨rfl, rfl, rfl, by simp [NewPaletted], ?_⟩
    intro y' x' hb
    omega
  obtain ⟨k, _, hk, hP, hstop⟩ := forWhile_spec (fun y => decide (y < H))
    (fun y img => forWhile (fun x => decide (x < W) && decide (x * 2 < outW))
      (DecodeCMP.pixelPair W outW output y) W 0 img)
    (fun y t => PixelsInv W outW H output y 0 t) H 0 (NewPaletted outW H pal) h0
    (fun y t _ _ hc ht => by
      simp only [decide_eq_true_eq] at hc
      exact pixel_row W outW H output y t hout ht hc)
  have hkH : k = H := by
    by_cases hlt : k < 0 + H
    · have := hstop hlt
      simp only [decide_eq_false_iff_not] at this
      omega
    · omega
  subst hkH
  exact hP


theorem pixels_palette (W H outW : Nat) (output : List Nat) (img : Paletted) :
    (DecodeCMP.pixels W H outW output img).Palette = img.Palette := by
  have hset : ∀ (p : Paletted) (x y v : Nat), (p.SetColorIndex x y v).Palette = p.Palette := by
    intro p x y v
    unfold Paletted.SetColorIndex
    split <;> rfl
  obtain ⟨_, _, _, hP, _⟩ := forWhile_spec (fun y => decide (y < H))
    (fun y img => forWhile (fun x => decide (x < W) && decide (x * 2 < outW))
      (DecodeCMP.pixelPair W outW output y) W 0 img)
    (fun _ t => t.Palette = img.Palette) H 0 img rfl
    (fun y t _ _ _ ht => by
      obtain ⟨_, _, _, hQ, _⟩ := forWhile_spec
        (fun x => decide (x < W) && decide (x * 2 < outW))
        (DecodeCMP.pixelPair W outW output y)
        (fun _ u => u.Palette = img.Palette) W 0 t ht
        (fun x u _ _ _ hu => by
          unfold DecodeCMP.pixelPair
          simp only
          split
          · rw [hset, hset]; exact hu
          · rw [hset]; exact hu)
      exact hQ)
  exact hP

theorem getD_isBytes (l : List Nat) (h : IsBytes l) (i : Nat) : l.getD i 0 < 256 := by
  rw [List.getD_eq_getElem?_getD]
  by_cases hi : i < l.length
  · rw [List.getElem?_eq_getElem hi]
    exact h _ (List.getElem_mem _)
  · rw [List.getElem?_eq_none (Nat.le_of_not_lt hi)]
    decide

theorem getD_lt_of_all (l : List Nat) (h : ∀ v ∈ l, v < 256) (i : Nat) : l.getD i 0 < 256 :=
  getD_isBytes l h i

theorem set_all_lt (l : List Nat) (h : ∀ v ∈ l, v < 256) (i b : Nat) (hb : b < 256) :
    ∀ v ∈ l.set i b, v < 256 := by
  intro v hv
  rcases List.mem_or_eq_of_mem_set hv with h1 | h1
  · exact h v h1
  · rw [h1]; exact hb

theorem readByte_isByte (r r' : bitStreamReader) (b : Nat) (hD : IsBytes r.data)
    (h : readByte r = .ok (b, r')) : b < 256 ∧ r'.data = r.data := by
  obtain ⟨hre, hb, _⟩ := readByte_split r r' b h
  have hdata := reload_data _ _ hre
  refine ⟨?_, hdata⟩
  rw [hb]
  split
  · exact getD_isBytes r.data hD _
  · decide

theorem directByte_bytes (W r x : Nat) (s s' : DecodeState)
    (hinv : IsBytes s.1.data ∧ ∀ v ∈ s.2, v < 256)
    (h : DecodeCMP.directByte W r x s = .ok s') :
    IsBytes s'.1.data ∧ ∀ v ∈ s'.2, v < 256 := by
  unfold DecodeCMP.directByte at h
  cases hb : readByte s.1 with
  | error e => rw [hb] at h; cases h
  | ok p =>
    obtain ⟨b, rd⟩ := p
    rw [hb] at h
    cases h
    obtain ⟨g1, g2⟩ := readByte_isByte s.1 rd b hinv.1 hb
    exact ⟨by show IsBytes rd.data; rw [g2]; exact hinv.1, set_all_lt s.2 hinv.2 _ b g1⟩

theorem xorByte_bytes (W r x : Nat) (s s' : DecodeState)
    (hinv : IsBytes s.1.data ∧ ∀ v ∈ s.2, v < 256)
    (h : DecodeCMP.xorByte W r x s = .ok s') :
    IsBytes s'.1.data ∧ ∀ v ∈ s'.2, v < 256 := by
  unfold DecodeCMP.xorByte at h
  cases hb : readByte s.1 with
  | error e => rw [hb] at h; cases h
  | ok p =>
    obtain ⟨b, rd⟩ := p
    rw [hb] at h
    cases h
    obtain ⟨g1, g2⟩ := readByte_isByte s.1 rd b hinv.1 hb
    refine ⟨by show IsBytes rd.data; rw [g2]; exact hinv.1, set_all_lt s.2 hinv.2 _ _ ?_⟩
    split
    · exact Nat.xor_lt_two_pow (n := 8) g1 (getD_lt_of_all s.2 hinv.2 _)
    · exact g1

theorem rows_bytes (W H K : Nat) (reader : bitStreamReader) (s' : DecodeState)
    (hD : IsBytes reader.data) (h : DecodeCMP.rows W H K reader = .ok s') :
    ∀ v ∈ s'.2, v < 256 := by
  unfold DecodeCMP.rows at h
  cases h1 : DecodeCMP.phase1 W K (reader, List.replicate (W * H) 0) with
  | error e => rw [h1] at h; cases h
  | ok s1 =>
    rw [h1] at h
    simp only at h
    have g1 := forRange_inv
      (fun scanline s => forRange (DecodeCMP.directByte W scanline) W 0 s)
      (fun _ (t : DecodeState) => IsBytes t.1.data ∧ ∀ v ∈ t.2, v < 256) K 0 _ s1
      ⟨hD, fun v hv => by rw [(List.mem_replicate.1 hv).2]; decide⟩
      (fun r t t' _ _ ht hrow =>
        forRange_inv (DecodeCMP.directByte W r)
          (fun _ (u : DecodeState) => IsBytes u.1.data ∧ ∀ v ∈ u.2, v < 256) W 0 t t' ht
          (fun x u u' _ _ hu hbody => directByte_bytes W r x u u' hu hbody) hrow)
      h1
    have g2 := forRange_inv
      (fun scanline s => forRange (DecodeCMP.xorByte W scanline) W 0 s)
      (fun _ (t : DecodeState) => IsBytes t.1.data ∧ ∀ v ∈ t.2, v < 256) (H - K) K s1 s' g1
      (fun r t t' _ _ ht hrow =>
        forRange_inv (DecodeCMP.xorByte W r)
          (fun _ (u : DecodeState) => IsBytes u.1.data ∧ ∀ v ∈ u.2, v < 256) W 0 t t' ht
          (fun x u u' _ _ hu hbody => xorByte_bytes W r x u u' hu hbody) hrow)
      h
    exact g2.2

theorem newBitStreamReader_data (data : List Nat) (offset : Nat) (reader : bitStreamReader)
    (h : newBitStreamReader data offset = .ok reader) : reader.data = data := by
  unfold newBitStreamReader at h
  split at h
  · cases h
  · exact (readLookupTable_ok_fields _ reader (by simp) h).1

/-- The parts of a successful `DecodeCMP` run. -/
theorem DecodeCMP_ok (data : List Nat) (config : Config) (res : FinalizeCall)
    (h : DecodeCMP data config = .ok res) :
    ∃ reader rEnd out pal,
      3 ≤ data.length ∧ 0 < data.getD 0 0 ∧ 0 < data.getD 1 0 ∧
      data.getD 2 0 ≤ data.getD 1 0 ∧
      newBitStreamReader data 3 = .ok reader ∧
      DecodeCMP.rows (data.getD 0 0) (data.getD 1 0) (data.getD 2 0) reader = .ok (rEnd, out) ∧
      ResolvePalette [] 0 0 0 config.ExtraData = some pal ∧
      res =
        { img := DecodeCMP.pixels (data.getD 0 0) (data.getD 1 0)
            (if data.getD 0 0 * 2 > ScreenWidth then ScreenWidth else data.getD 0 0 * 2) out
            (NewPaletted
              (if data.getD 0 0 * 2 > ScreenWidth then ScreenWidth else data.getD 0 0 * 2)
              (data.getD 1 0) pal),
          width := if data.getD 0 0 * 2 > ScreenWidth then ScreenWidth else data.getD 0 0 * 2,
          height := data.getD 1 0, double := config.DoubleImageSize } := by
  unfold DecodeCMP at h
  split at h
  · cases h
  · rename_i h3
    simp only at h
    split at h
    · cases h
    · rename_i hd
      split at h
      · cases h
      · rename_i hk
        split at h
        · cases h
        · rename_i reader hnew
          split at h
          · cases h
          · rename_i rEnd out hrows
            split at h
            · cases h
            · rename_i pal hpal
              cases h
              exact ⟨reader, rEnd, out, pal, by omega, by omega, by omega, by omega,
                hnew, hrows, hpal, rfl⟩

theorem getPalette_some (blob : List Nat) (h : 32 ≤ blob.length) :
    ∃ p, getPalette blob 0 = some p ∧ p.length = 16 := by
  unfold getPalette
  have : ¬ ((0 : Int) < 0 ∨ blob.length < (0 : Int).toNat + 32) := by
    simp; omega
  rw [if_neg this]
  exact ⟨_, rfl, by simp⟩

theorem resolvePalette_cmp (config : Config) (hcfg : config.Valid) :
    ∃ p, ResolvePalette [] 0 0 0 config.ExtraData = some p ∧ p.length = 16 := by
  unfold ResolvePalette
  rw [if_neg (by decide)]
  cases hx : config.ExtraData with
  | none => exact getPalette_some defaultPalette (by decide)
  | some blob => exact getPalette_some blob (hcfg blob hx)

theorem phase2_none (W H : Nat) (s : DecodeState) : DecodeCMP.phase2 W H H s = .ok s := by
  unfold DecodeCMP.phase2
  rw [Nat.sub_self]
  rfl

theorem rows_phase1_only (W H : Nat) (reader : bitStreamReader) :
    DecodeCMP.rows W H H reader =
      DecodeCMP.phase1 W H (reader, List.replicate (W * H) 0) := by
  unfold DecodeCMP.rows
  cases h : DecodeCMP.phase1 W H (reader, List.replicate (W * H) 0) with
  | error e => rfl
  | ok s => exact phase2_none W H s

/-- C8: for every 4 payload bytes after `02 02 02 00` and every configuration whose
palette blob is absent or has at least 32 bytes, `DecodeCMP` returns no error and the pixel
grid is 4 pixels wide and 2 rows high (all 8 pixels have index 0: no payload byte is read;
the palette has 16 entries, so the closing container encoding has a valid image).
Whenever `K = H`, Phase 2 runs zero iterations and returns its state unchanged, so the
decoded buffer is the result of Phase 1 alone and no byte is XORed with a previous row. -/
theorem C8_phase1_only (p0 p1 p2 p3 : Nat) (config : Config) (hcfg : config.Valid) :
    (∃ res, DecodeCMP [2, 2, 2, 0, p0, p1, p2, p3] config = .ok res ∧
      res.img.width = 4 ∧ res.img.height = 2 ∧ res.width = 4 ∧ res.height = 2 ∧
      res.img.Pix = List.replicate 8 0 ∧ res.img.Palette.length = 16) ∧
    (∀ W H s, DecodeCMP.phase2 W H H s = .ok s) ∧
    (∀ W H reader, DecodeCMP.rows W H H reader =
      DecodeCMP.phase1 W H (reader, List.replicate (W * H) 0)) := by
  refine ⟨?_, phase2_none, rows_phase1_only⟩
  obtain ⟨pal, hpal, hpl⟩ := resolvePalette_cmp config hcfg
  have hnew : newBitStreamReader [2, 2, 2, 0, p0, p1, p2, p3] 3 =
      .ok { data := [2, 2, 2, 0, p0, p1, p2, p3], offset := 4, bitBuffer := 0,
            bitCounter := 8, lookupTable := List.replicate 8 0, tableIndex := 1 } := by
    simp [newBitStreamReader, readLookupTable, forRange, readLookupTable.slot]
  have hrows : DecodeCMP.rows 2 2 2
      { data := [2, 2, 2, 0, p0, p1, p2, p3], offset := 4, bitBuffer := 0,
        bitCounter := 8, lookupTable := List.replicate 8 0, tableIndex := 1 } =
      .ok ({ data := [2, 2, 2, 0, p0, p1, p2, p3], offset := 4, bitBuffer := 0,
             bitCounter := 4, lookupTable := List.replicate 8 0, tableIndex := 1 },
           List.replicate 4 0) := by
    simp [DecodeCMP.rows, DecodeCMP.phase1, DecodeCMP.phase2, forRange, DecodeCMP.directByte,
      readByte, readByte.reload]
  have hinv := pixels_spec 2 4 2 (List.replicate 4 0) pal (by decide)
  refine ⟨{ img := DecodeCMP.pixels 2 2 4 (List.replicate 4 0) (NewPaletted 4 2 pal),
            width := 4, height := 2, double := config.DoubleImageSize },
    ?_, hinv.1, hinv.2.1, rfl, rfl, ?_, ?_⟩
  · unfold DecodeCMP
    simp only [List.length_cons, List.length_nil, List.getD_cons_zero, List.getD_cons_succ]
    rw [if_neg (by decide), if_neg (by decide), if_neg (by decide)]
    simp only [hnew, hrows, hpal]
    rfl
  · simp [DecodeCMP.pixels, forWhile, DecodeCMP.pixelPair, Paletted.SetColorIndex,
      NewPaletted]
  · rw [pixels_palette]
    exact hpl

/-- C8, instance: payload `12 34 56 78`, no palette blob. -/
theorem C8_phase1_only_witness :
    Config.Valid ⟨"", false, false, none⟩ ∧
    (∃ res, DecodeCMP [2, 2, 2, 0, 0x12, 0x34, 0x56, 0x78] ⟨"", false, false, none⟩ = .ok res ∧
      res.img.width = 4 ∧ res.img.height = 2 ∧ res.width = 4 ∧ res.height = 2 ∧
      res.img.Pix = List.replicate 8 0 ∧ res.img.Palette.length = 16) :=
  ⟨(fun _ h => by cases h), (C8_phase1_only 0x12 0x34 0x56 0x78 ⟨"", false, false, none⟩
    (fun _ h => by cases h)).1⟩

/-- C9: for every byte buffer that `DecodeCMP` decodes successfully, with header `W`, `H`
and decoded buffer `out`, the grid is `min(2*W, 256)` pixels wide and `H` rows high, and
for every row `y < H` and byte column `x` with `2*x < min(2*W, 256)` pixel `(2x, y)` has
palette index `out[y*W+x] >> 4` and pixel `(2x+1, y)` has index `out[y*W+x] & 0x0F`; both
indices are below 16. -/
theorem C9_pixel_grid (data : List Nat) (config : Config) (res : FinalizeCall)
    (hbytes : IsBytes data) (hok : DecodeCMP data config = .ok res) :
    ∃ reader rEnd out,
      newBitStreamReader data 3 = .ok reader ∧
      DecodeCMP.rows (data.getD 0 0) (data.getD 1 0) (data.getD 2 0) reader = .ok (rEnd, out) ∧
      res.img.width = min (2 * data.getD 0 0) 256 ∧ res.img.height = data.getD 1 0 ∧
      res.width = min (2 * data.getD 0 0) 256 ∧ res.height = data.getD 1 0 ∧
      ∀ y x, y < data.getD 1 0 → 2 * x < min (2 * data.getD 0 0) 256 →
        res.img.ColorIndexAt (2 * x) y = out.getD (y * data.getD 0 0 + x) 0 >>> 4 ∧
        res.img.ColorIndexAt (2 * x + 1) y = out.getD (y * data.getD 0 0 + x) 0 &&& 0x0F ∧
        res.img.ColorIndexAt (2 * x) y < 16 ∧ res.img.ColorIndexAt (2 * x + 1) y < 16 := by
  obtain ⟨reader, rEnd, out, pal, _, _, _, _, hnew, hrows, _, hres⟩ :=
    DecodeCMP_ok data config res hok
  have hD : IsBytes reader.data := by
    rw [newBitStreamReader_data data 3 reader hnew]; exact hbytes
  have hout := rows_bytes _ _ _ reader (rEnd, out) hD hrows
  have hw : (if data.getD 0 0 * 2 > ScreenWidth then ScreenWidth else data.getD 0 0 * 2) =
      min (2 * data.getD 0 0) 256 := by
    unfold ScreenWidth
    split <;> omega
  rw [hw] at hres
  have hle : min (2 * data.getD 0 0) 256 ≤ data.getD 0 0 * 2 := by omega
  obtain ⟨p1, p2, _, _, hpix⟩ := pixels_spec (data.getD 0 0) (min (2 * data.getD 0 0) 256)
    (data.getD 1 0) out pal hle
  subst hres
  refine ⟨reader, rEnd, out, hnew, hrows, p1, p2, rfl, rfl, ?_⟩
  intro y x hy hx
  obtain ⟨q1, q2⟩ := hpix y x (Or.inl hy) hy (by omega)
  have q3 := q2 (by omega)
  have e1 : x * 2 = 2 * x := Nat.mul_comm x 2
  rw [e1] at q1 q3
  have hv : out.getD (y * data.getD 0 0 + x) 0 < 256 := getD_lt_of_all out hout _
  refine ⟨q1, q3, ?_, ?_⟩
  · rw [q1, Nat.shiftRight_eq_div_pow]
    omega
  · rw [q3]
    exact Nat.and_lt_two_pow _ (n := 4) (by decide)

/-- C9, instance: the file `deltaFile` (width 2, height 3): a grid of 4 by 3 pixels. -/
theorem C9_pixel_grid_witness :
    IsBytes deltaFile ∧
    DecodeCMP deltaFile ⟨"", false, false, none⟩ =
      .ok { img := { Pix := [1, 2, 3, 4, 4, 4, 4, 12, 4, 4, 4, 12], Stride := 4, width := 4,
                     height := 3, Palette := (getPalette defaultPalette 0).getD [] },
            width := 4, height := 3, double := false } ∧
    ∃ reader rEnd out,
      newBitStreamReader deltaFile 3 = .ok reader ∧
      DecodeCMP.rows (deltaFile.getD 0 0) (deltaFile.getD 1 0) (deltaFile.getD 2 0) reader =
        .ok (rEnd, out) ∧
      (4 : Nat) = min (2 * deltaFile.getD 0 0) 256 ∧ (3 : Nat) = deltaFile.getD 1 0 ∧
      (4 : Nat) = min (2 * deltaFile.getD 0 0) 256 ∧ (3 : Nat) = deltaFile.getD 1 0 ∧
      ∀ y x, y < deltaFile.getD 1 0 → 2 * x < min (2 * deltaFile.getD 0 0) 256 →
        Paletted.ColorIndexAt
          { Pix := [1, 2, 3, 4, 4, 4, 4, 12, 4, 4, 4, 12], Stride := 4, width := 4,
            height := 3, Palette := (getPalette defaultPalette 0).getD [] } (2 * x) y =
          out.getD (y * deltaFile.getD 0 0 + x) 0 >>> 4 ∧
        Paletted.ColorIndexAt
          { Pix := [1, 2, 3, 4, 4, 4, 4, 12, 4, 4, 4, 12], Stride := 4, width := 4,
            height := 3, Palette := (getPalette defaultPalette 0).getD [] } (2 * x + 1) y =
          out.getD (y * deltaFile.getD 0 0 + x) 0 &&& 0x0F ∧
        Paletted.ColorIndexAt
          { Pix := [1, 2, 3, 4, 4, 4, 4, 12, 4, 4, 4, 12], Stride := 4, width := 4,
            height := 3, Palette := (getPalette defaultPalette 0).getD [] } (2 * x) y < 16 ∧
        Paletted.ColorIndexAt
          { Pix := [1, 2, 3, 4, 4, 4, 4, 12, 4, 4, 4, 12], Stride := 4, width := 4,
            height := 3, Palette := (getPalette defaultPalette 0).getD [] } (2 * x + 1) y < 16 :=
  ⟨by decide, by decide,
    C9_pixel_grid deltaFile ⟨"", false, false, none⟩
      { img := { Pix := [1, 2, 3, 4, 4, 4, 4, 12, 4, 4, 4, 12], Stride := 4, width := 4,
                 height := 3, Palette := (getPalette defaultPalette 0).getD [] },
        width := 4, height := 3, double := false } (by decide) (by decide)⟩


/-! ## Claims on `DetectFormat` -/

/-- C10: with a non-empty explicit hint, `DetectFormat` returns the hint unchanged, for
every buffer (also the empty one), every filename and every behaviour of the library
functions. -/
theorem C10_explicit_hint (std : GoStd) (data : List Nat) (inputFileName fileType : String)
    (h : fileType ≠ "") : DetectFormat std data inputFileName fileType = fileType := by
  have hpos : fileType.length > 0 := by
    obtain ⟨cs⟩ := fileType
    cases cs with
    | nil => exact absurd rfl h
    | cons c cs => simp [String.length]
  unfold DetectFormat
  rw [if_pos hpos]

/-- C10, instance: hint `S12` on the empty buffer with a filename of another format. -/
theorem C10_explicit_hint_witness :
    "S12" ≠ "" ∧ DetectFormat GoStd.unix [] "picture.sc5" "S12" = "S12" :=
  ⟨by decide, C10_explicit_hint GoStd.unix [] "picture.sc5" "S12" (by decide)⟩


theorem detect_no_hint (std : GoStd) (data : List Nat) (inputFileName : String) :
    DetectFormat std data inputFileName "" =
      if data.length = 0 then "unknown"
      else if data.getD 0 0 = MagicByteBAS then "BAS"
      else if data.getD 0 0 = MagicByteWB2 then "WB2"
      else if data.getD 0 0 = MagicByteBinary then
        if data.length ≥ 7 then
          if upperExtension std inputFileName = "GE5" ∨ upperExtension std inputFileName = "SC5" ∨
              upperExtension std inputFileName = "SR5" then "SC5"
          else if upperExtension std inputFileName = "SC7" ∨
              upperExtension std inputFileName = "SR7" then "SC7"
          else if upperExtension std inputFileName = "SC8" ∨
              upperExtension std inputFileName = "PIC" ∨
              upperExtension std inputFileName = "SR8" then "SC8"
          else if upperExtension std inputFileName = "S10" ∨
              upperExtension std inputFileName = "SCA" then "S10"
          else if upperExtension std inputFileName = "S12" ∨
              upperExtension std inputFileName = "SCC" ∨
              upperExtension std inputFileName = "SRS" then "S12"
          else if upperExtension std inputFileName = "CMP" then "CMP"
          else if data.length ≥ HeaderSC5.length ∧ matchesHeader data HeaderSC5 then "SC5"
          else "unknown"
        else "unknown"
      else if upperExtension std inputFileName ≠ "" then upperExtension std inputFileName
      else "unknown" := by
  unfold DetectFormat upperExtension
  have h0 : ¬ ("".length > 0) := by decide
  rw [if_neg h0]

/-- C11: with an empty hint, `DetectFormat` returns "unknown" for the empty buffer and for
every buffer that starts with the memory-dump magic `0xFE` and has fewer than 7 bytes (so
for the one-byte buffer `FE`), for every filename and every behaviour of the library
functions: the extension is not consulted. -/
theorem C11_too_short_unknown (std : GoStd) (data : List Nat) (inputFileName : String)
    (h : data = [] ∨ (data.getD 0 0 = 0xFE ∧ data.length < 7)) :
    DetectFormat std data inputFileName "" = "unknown" := by
  rw [detect_no_hint]
  rcases h with h | ⟨h1, h2⟩
  · subst h
    rfl
  · by_cases hl : data.length = 0
    · rw [if_pos hl]
    · rw [if_neg hl, if_neg (by rw [h1]; decide), if_neg (by rw [h1]; decide),
        if_pos (by rw [h1]; rfl), if_neg (by omega)]

/-- C11, instance: the one-byte buffer `FE` with a filename of a recognised screen mode. -/
theorem C11_too_short_unknown_witness :
    (([0xFE] : List Nat) = [] ∨ ([0xFE].getD 0 0 = 0xFE ∧ [0xFE].length < 7)) ∧
    DetectFormat GoStd.unix [0xFE] "PICTURE.SC5" "" = "unknown" :=
  ⟨by decide, C11_too_short_unknown GoStd.unix [0xFE] "PICTURE.SC5" (by decide)⟩

theorem matchesHeader_sc5 (data : List Nat) (h : 7 ≤ data.length) :
    matchesHeader data HeaderSC5 = true ↔ data.take 7 = [0xFE, 0x00, 0x00, 0x9F, 0x76, 0x00, 0x00] := by
  match data, h with
  | a0 :: a1 :: a2 :: a3 :: a4 :: a5 :: a6 :: rest, _ =>
    simp [matchesHeader, HeaderSC5, List.range_succ]

/-- C12: for a buffer of at least 7 bytes that starts with `0xFE`, with an empty hint, the
result is determined by `E`, the filename's extension upper-cased: `GE5`, `SC5`, `SR5` give
SC5; `SC7`, `SR7` give SC7; `SC8`, `PIC`, `SR8` give SC8; `S10`, `SCA` give S10; `S12`,
`SCC`, `SRS` give S12; `CMP` gives CMP, whatever the first 7 bytes are; for any other `E`
the result is SC5 exactly when the first 7 bytes are `FE 00 00 9F 76 00 00`, and "unknown"
otherwise. -/
theorem C12_dump_classification (std : GoStd) (data : List Nat) (inputFileName : String)
    (hlen : 7 ≤ data.length) (h0 : data.getD 0 0 = 0xFE) :
    DetectFormat std data inputFileName "" =
      if upperExtension std inputFileName = "GE5" ∨ upperExtension std inputFileName = "SC5" ∨
          upperExtension std inputFileName = "SR5" then "SC5"
      else if upperExtension std inputFileName = "SC7" ∨
          upperExtension std inputFileName = "SR7" then "SC7"
      else if upperExtension std inputFileName = "SC8" ∨
          upperExtension std inputFileName = "PIC" ∨
          upperExtension std inputFileName = "SR8" then "SC8"
      else if upperExtension std inputFileName = "S10" ∨
          upperExtension std inputFileName = "SCA" then "S10"
      else if upperExtension std inputFileName = "S12" ∨
          upperExtension std inputFileName = "SCC" ∨
          upperExtension std inputFileName = "SRS" then "S12"
      else if upperExtension std inputFileName = "CMP" then "CMP"
      else if data.take 7 = [0xFE, 0x00, 0x00, 0x9F, 0x76, 0x00, 0x00] then "SC5"
      else "unknown" := by
  rw [detect_no_hint]
  have hl : ¬ (data.length = 0) := by omega
  have hsig : (data.length ≥ HeaderSC5.length ∧ matchesHeader data HeaderSC5 = true) ↔
      data.take 7 = [0xFE, 0x00, 0x00, 0x9F, 0x76, 0x00, 0x00] := by
    rw [matchesHeader_sc5 data hlen]
    exact ⟨fun h => h.2, fun h => ⟨hlen, h⟩⟩
  rw [if_neg hl, if_neg (by rw [h0]; decide), if_neg (by rw [h0]; decide),
    if_pos (by rw [h0]; rfl), if_pos hlen]
  simp only [hsig]

/-- C12, instance: the signature `FE 00 00 9F 76 00 00` under the filename `GAME.cmp`: the
extension wins and the result is CMP. -/
theorem C12_dump_classification_witness :
    7 ≤ HeaderSC5.length ∧ HeaderSC5.getD 0 0 = 0xFE ∧
    upperExtension GoStd.unix "GAME.cmp" = "CMP" ∧
    HeaderSC5.take 7 = [0xFE, 0x00, 0x00, 0x9F, 0x76, 0x00, 0x00] ∧
    DetectFormat GoStd.unix HeaderSC5 "GAME.cmp" "" = "CMP" :=
  ⟨by decide, by decide, by decide, by decide,
    (C12_dump_classification GoStd.unix HeaderSC5 "GAME.cmp" (by decide) (by decide)).trans
      (by decide)⟩

/-! ### The filename extension -/

theorem extLoop_no_dot (std : GoStd) : ∀ (rev suffix : List Char),
    (∀ c ∈ rev, c ≠ '.') → filepathExt.loop std rev suffix = [] := by
  intro rev
  induction rev with
  | nil => intro _ _; rfl
  | cons c rev ih =>
    intro suffix h
    unfold filepathExt.loop
    by_cases hs : std.IsPathSeparator c = true
    · rw [if_pos hs]
    · rw [if_neg hs, if_neg (h c (List.mem_cons_self c rev))]
      exact ih (c :: suffix) (fun d hd => h d (List.mem_cons_of_mem c hd))

theorem extLoop_separator (std : GoStd) (s : Char) (rest : List Char)
    (hs : std.IsPathSeparator s = true) : ∀ (base suffix : List Char),
    (∀ c ∈ base, c ≠ '.') → filepathExt.loop std (base ++ s :: rest) suffix = [] := by
  intro base
  induction base with
  | nil =>
    intro suffix _
    simp only [List.nil_append]
    unfold filepathExt.loop
    rw [if_pos hs]
  | cons c base ih =>
    intro suffix h
    simp only [List.cons_append]
    unfold filepathExt.loop
    by_cases hc : std.IsPathSeparator c = true
    · rw [if_pos hc]
    · rw [if_neg hc, if_neg (h c (List.mem_cons_self c base))]
      exact ih (c :: suffix) (fun d hd => h d (List.mem_cons_of_mem c hd))

theorem extLoop_dot (std : GoStd) (rest : List Char) (hdot : std.IsPathSeparator '.' = false) :
    ∀ (extRev suffix : List Char),
    (∀ c ∈ extRev, c ≠ '.' ∧ std.IsPathSeparator c = false) →
    filepathExt.loop std (extRev ++ '.' :: rest) suffix = '.' :: (extRev.reverse ++ suffix) := by
  intro extRev
  induction extRev with
  | nil =>
    intro suffix _
    simp only [List.nil_append, List.reverse_nil]
    unfold filepathExt.loop
    rw [if_neg (by rw [hdot]; decide), if_pos rfl]
  | cons c extRev ih =>
    intro suffix h
    obtain ⟨h1, h2⟩ := h c (List.mem_cons_self c extRev)
    simp only [List.cons_append]
    unfold filepathExt.loop
    rw [if_neg (by rw [h2]; decide), if_neg h1,
      ih (c :: suffix) (fun d hd => h d (List.mem_cons_of_mem c hd))]
    simp

theorem trimLeft_dot (ext : List Char) (h : ∀ c ∈ ext, c ≠ '.') :
    stringsTrimLeft (String.mk ('.' :: ext)) "." = String.mk ext := by
  unfold stringsTrimLeft
  have hd : (".".data : List Char) = ['.'] := rfl
  rw [hd]
  congr 1
  show List.dropWhile (fun c => ['.'].contains c) ('.' :: ext) = ext
  rw [List.dropWhile_cons]
  have : (['.'].contains '.') = true := by decide
  rw [if_pos this]
  cases ext with
  | nil => rfl
  | cons c ext =>
    rw [List.dropWhile_cons]
    have hc : c ≠ '.' := h c (List.mem_cons_self c ext)
    have : ¬ ((['.'].contains c) = true) := by
      simp [hc]
    rw [if_neg this]

theorem upperExtension_dot (std : GoStd) (pre ext : List Char)
    (hdot : std.IsPathSeparator '.' = false)
    (h : ∀ c ∈ ext, c ≠ '.' ∧ std.IsPathSeparator c = false) :
    upperExtension std (String.mk (pre ++ '.' :: ext)) = std.ToUpper (String.mk ext) := by
  unfold upperExtension filepathExt
  have hrev : (String.mk (pre ++ '.' :: ext)).data.reverse = ext.reverse ++ '.' :: pre.reverse := by
    simp
  rw [hrev, extLoop_dot std pre.reverse hdot ext.reverse [] (fun c hc => h c (List.mem_reverse.1 hc))]
  simp only [List.reverse_reverse, List.append_nil]
  rw [trimLeft_dot ext (fun c hc => (h c hc).1)]

theorem upperExtension_none (std : GoStd) (path : List Char)
    (h : filepathExt.loop std path.reverse [] = []) :
    upperExtension std (String.mk path) = std.ToUpper "" := by
  unfold upperExtension filepathExt
  show std.ToUpper (stringsTrimLeft (String.mk (filepathExt.loop std path.reverse [])) ".") = _
  rw [h]
  rfl

theorem detect_fallback (std : GoStd) (data : List Nat) (inputFileName : String)
    (hne : data ≠ [])
    (hm : data.getD 0 0 ≠ 0xFF ∧ data.getD 0 0 ≠ 0xFD ∧ data.getD 0 0 ≠ 0xFE) :
    DetectFormat std data inputFileName "" =
      if upperExtension std inputFileName = "" then "unknown"
      else upperExtension std inputFileName := by
  rw [detect_no_hint]
  have hl : ¬ (data.length = 0) := by
    intro h; exact hne (List.length_eq_zero.1 h)
  have h1 : ¬ (data.getD 0 0 = MagicByteBAS) := hm.1
  have h2 : ¬ (data.getD 0 0 = MagicByteWB2) := hm.2.1
  have h3 : ¬ (data.getD 0 0 = MagicByteBinary) := hm.2.2
  rw [if_neg hl, if_neg h1, if_neg h2, if_neg h3]
  by_cases he : upperExtension std inputFileName = ""
  · rw [if_neg (by simp [he]), if_pos he]
  · rw [if_pos he, if_neg he]

/-- C13 (as stated, refuted): for the one-byte buffer `01` and the filename `a.stp` the
result is `STP`, the extension upper-cased, and not the extension `stp` verbatim. -/
theorem C13_counterexample :
    ([0x01] : List Nat) ≠ [] ∧
    DetectFormat GoStd.unix [0x01] "a.stp" "" = "STP" ∧
    stringsTrimLeft (filepathExt GoStd.unix "a.stp") "." = "stp" ∧
    DetectFormat GoStd.unix [0x01] "a.stp" "" ≠ "stp" := by
  decide

/-- C13 (amended): for every non-empty buffer whose first byte is none of the magic bytes
`0xFF`, `0xFD`, `0xFE`, with an empty hint, `DetectFormat` returns the filename's extension
upper-cased by `strings.ToUpper`: for a filename `pre.ext` whose part `ext` after the final
dot has no path separator, the result is `ToUpper(ext)`, or "unknown" when that is empty;
for a filename without a dot, and for a filename whose final path element has no dot, the
result is "unknown". (The dot is no path separator and `ToUpper` maps the empty string to
itself, as in Go.) -/
theorem C13_fallback_extension (std : GoStd) (data : List Nat) (hne : data ≠ [])
    (hm : data.getD 0 0 ≠ 0xFF ∧ data.getD 0 0 ≠ 0xFD ∧ data.getD 0 0 ≠ 0xFE)
    (hdot : std.IsPathSeparator '.' = false) (hup : std.ToUpper "" = "") :
    (∀ pre ext : List Char, (∀ c ∈ ext, c ≠ '.' ∧ std.IsPathSeparator c = false) →
      DetectFormat std data (String.mk (pre ++ '.' :: ext)) "" =
        if std.ToUpper (String.mk ext) = "" then "unknown" else std.ToUpper (String.mk ext)) ∧
    (∀ name : List Char, (∀ c ∈ name, c ≠ '.') →
      DetectFormat std data (String.mk name) "" = "unknown") ∧
    (∀ (dir base : List Char) (sep : Char), std.IsPathSeparator sep = true →
      (∀ c ∈ base, c ≠ '.') →
      DetectFormat std data (String.mk (dir ++ sep :: base)) "" = "unknown") := by
  refine ⟨?_, ?_, ?_⟩
  · intro pre ext h
    rw [detect_fallback std data _ hne hm, upperExtension_dot std pre ext hdot h]
  · intro name h
    rw [detect_fallback std data _ hne hm, upperExtension_none std name
      (extLoop_no_dot std name.reverse [] (fun c hc => h c (List.mem_reverse.1 hc))), hup]
    rfl
  · intro dir base sep hsep h
    have hrev : (dir ++ sep :: base).reverse = base.reverse ++ sep :: dir.reverse := by simp
    have hloop : filepathExt.loop std (dir ++ sep :: base).reverse [] = [] := by
      rw [hrev]
      exact extLoop_separator std sep dir.reverse hsep base.reverse []
        (fun c hc => h c (List.mem_reverse.1 hc))
    rw [detect_fallback std data _ hne hm, upperExtension_none std (dir ++ sep :: base) hloop,
      hup]
    rfl

/-- C13, instance: the buffer `01` under Unix with ASCII upper-casing; the filename `a.stp`
gives `STP`. -/
theorem C13_fallback_extension_witness :
    ([0x01] : List Nat) ≠ [] ∧
    (([0x01] : List Nat).getD 0 0 ≠ 0xFF ∧ ([0x01] : List Nat).getD 0 0 ≠ 0xFD ∧
      ([0x01] : List Nat).getD 0 0 ≠ 0xFE) ∧
    GoStd.unix.IsPathSeparator '.' = false ∧ GoStd.unix.ToUpper "" = "" ∧
    DetectFormat GoStd.unix [0x01] (String.mk (['a'] ++ '.' :: ['s', 't', 'p'])) "" = "STP" :=
  ⟨by decide, by decide, by decide, by decide,
    ((C13_fallback_extension GoStd.unix [0x01] (by decide) (by decide) (by decide)
      (by decide)).1 ['a'] ['s', 't', 'p'] (by decide)).trans (by decide)⟩

/-- C14: for every non-empty buffer with an empty hint, a first byte `0xFF` gives "BAS" and
a first byte `0xFD` gives "WB2", for every filename and every buffer length; so such a
file is never classified as STP or CMP, whatever its name. -/
theorem C14_magic_precedence (std : GoStd) (data : List Nat) (inputFileName : String)
    (hne : data ≠ []) (h : data.getD 0 0 = 0xFF ∨ data.getD 0 0 = 0xFD) :
    DetectFormat std data inputFileName "" =
      (if data.getD 0 0 = 0xFF then "BAS" else "WB2") ∧
    DetectFormat std data inputFileName "" ≠ "STP" ∧
    DetectFormat std data inputFileName "" ≠ "CMP" := by
  have hl : ¬ (data.length = 0) := by
    intro h'; exact hne (List.length_eq_zero.1 h')
  have key : DetectFormat std data inputFileName "" =
      (if data.getD 0 0 = 0xFF then "BAS" else "WB2") := by
    rw [detect_no_hint, if_neg hl]
    rcases h with h | h
    · rw [if_pos (by rw [h]; rfl), if_pos h]
    · rw [if_neg (by rw [h]; decide), if_pos (by rw [h]; rfl), if_neg (by rw [h]; decide)]
  refine ⟨key, ?_, ?_⟩
  · rw [key]; split <;> decide
  · rw [key]; split <;> decide

/-- C14, instance: a file named `STAMP.STP` whose first byte is `0xFF`. -/
theorem C14_magic_precedence_witness :
    ([0xFF, 0x00, 0x01, 0x00] : List Nat) ≠ [] ∧
    (([0xFF, 0x00, 0x01, 0x00] : List Nat).getD 0 0 = 0xFF ∨
      ([0xFF, 0x00, 0x01, 0x00] : List Nat).getD 0 0 = 0xFD) ∧
    DetectFormat GoStd.unix [0xFF, 0x00, 0x01, 0x00] "STAMP.STP" "" = "BAS" :=
  ⟨by decide, by decide,
    (C14_magic_precedence GoStd.unix [0xFF, 0x00, 0x01, 0x00] "STAMP.STP" (by decide)
      (by decide)).1.trans (by decide)⟩

/-! ## Claims on the screen header and the image height -/

theorem leUint16_bytes (lo hi : Nat) (hlo : lo < 256) (hhi : hi < 256) :
    (lo ||| (hi <<< 8)) % 65536 = lo + 256 * hi := by
  have h1 : lo ||| (hi <<< 8) = 2 ^ 8 * hi + lo := by
    rw [Nat.mul_add_lt_is_or (by omega : lo < 2 ^ 8) hi, Nat.or_comm, Nat.shiftLeft_eq,
      Nat.mul_comm]
  rw [h1]
  omega

theorem leUint16_window (d : List Nat) (k : Nat) :
    littleEndianUint16 ((d.drop k).take 2) =
      (d.getD k 0 ||| (d.getD (k + 1) 0 <<< 8)) % 65536 := by
  simp [littleEndianUint16, List.getD_eq_getElem?_getD, List.getElem?_take,
    List.getElem?_drop]

theorem parseScreenHeader_eq (d : List Nat) :
    parseScreenHeader d =
      if d.length < 7 then .error .screenTooSmall
      else .ok { beginAddress := (d.getD 1 0 ||| (d.getD 2 0 <<< 8)) % 65536,
                 endAddress := (d.getD 3 0 ||| (d.getD 4 0 <<< 8)) % 65536,
                 pixels := d.drop 7 } := by
  unfold parseScreenHeader
  rw [leUint16_window d 1, leUint16_window d 3]

theorem parseScreenHeader_bytes (d : List Nat) (hb : IsBytes d) (hlen : 7 ≤ d.length) :
    parseScreenHeader d =
      .ok { beginAddress := d.getD 1 0 + 256 * d.getD 2 0,
            endAddress := d.getD 3 0 + 256 * d.getD 4 0, pixels := d.drop 7 } := by
  rw [parseScreenHeader_eq, if_neg (by omega),
    leUint16_bytes _ _ (getD_isBytes d hb 1) (getD_isBytes d hb 2),
    leUint16_bytes _ _ (getD_isBytes d hb 3) (getD_isBytes d hb 4)]

/-- C15: `parseScreenHeader` fails exactly on the inputs of fewer than 7 bytes; for a byte
buffer `d` of at least 7 bytes it returns `beginAddress = d[1] + 256*d[2]`,
`endAddress = d[3] + 256*d[4]` and the payload `d` without its first 7 bytes; overwriting
the bytes 0, 5 and 6 with any values leaves the result unchanged. -/
theorem C15_parse_header (d : List Nat) (hb : IsBytes d) :
    ((∃ e, parseScreenHeader d = .error e) ↔ d.length < 7) ∧
    (7 ≤ d.length →
      parseScreenHeader d =
        .ok { beginAddress := d.getD 1 0 + 256 * d.getD 2 0,
              endAddress := d.getD 3 0 + 256 * d.getD 4 0, pixels := d.drop 7 }) ∧
    (∀ a b c, parseScreenHeader (((d.set 0 a).set 5 b).set 6 c) = parseScreenHeader d) := by
  refine ⟨?_, parseScreenHeader_bytes d hb, ?_⟩
  · rw [parseScreenHeader_eq]
    by_cases h : d.length < 7
    · rw [if_pos h]
      exact ⟨fun _ => h, fun _ => ⟨_, rfl⟩⟩
    · rw [if_neg h]
      exact ⟨(fun ⟨e, he⟩ => by cases he), fun h' => absurd h' h⟩
  · intro a b c
    rw [parseScreenHeader_eq, parseScreenHeader_eq]
    simp only [List.length_set, getD_set]
    by_cases h : d.length < 7
    · rw [if_pos h, if_pos h]
    · rw [if_neg h, if_neg h, List.drop_set_of_lt _ _ (by omega),
        List.drop_set_of_lt _ _ (by omega), List.drop_set_of_lt _ _ (by omega)]
      simp

/-- C15, instance: the dump header `FE 34 12 9F 76 AA BB` followed by two payload bytes. -/
theorem C15_parse_header_witness :
    IsBytes [0xFE, 0x34, 0x12, 0x9F, 0x76, 0xAA, 0xBB, 0x01, 0x02] ∧
    parseScreenHeader [0xFE, 0x34, 0x12, 0x9F, 0x76, 0xAA, 0xBB, 0x01, 0x02] =
      .ok { beginAddress := 0x1234, endAddress := 0x769F, pixels := [0x01, 0x02] } ∧
    (7 ≤ [0xFE, 0x34, 0x12, 0x9F, 0x76, 0xAA, 0xBB, 0x01, 0x02].length →
      parseScreenHeader [0xFE, 0x34, 0x12, 0x9F, 0x76, 0xAA, 0xBB, 0x01, 0x02] =
        .ok { beginAddress := [0xFE, 0x34, 0x12, 0x9F, 0x76, 0xAA, 0xBB, 0x01, 0x02].getD 1 0 +
                256 * [0xFE, 0x34, 0x12, 0x9F, 0x76, 0xAA, 0xBB, 0x01, 0x02].getD 2 0,
              endAddress := [0xFE, 0x34, 0x12, 0x9F, 0x76, 0xAA, 0xBB, 0x01, 0x02].getD 3 0 +
                256 * [0xFE, 0x34, 0x12, 0x9F, 0x76, 0xAA, 0xBB, 0x01, 0x02].getD 4 0,
              pixels := [0xFE, 0x34, 0x12, 0x9F, 0x76, 0xAA, 0xBB, 0x01, 0x02].drop 7 }) :=
  ⟨by decide, by decide,
    (C15_parse_header [0xFE, 0x34, 0x12, 0x9F, 0x76, 0xAA, 0xBB, 0x01, 0x02] (by decide)).2.1⟩

/-- C16 (as stated, refuted): the 7-byte input `FE 10 00 00 00 00 00` is accepted and the
returned header has `beginAddress = 16 > endAddress = 0`. -/
theorem C16_counterexample :
    IsBytes reversedHeader ∧
    parseScreenHeader reversedHeader = .ok { beginAddress := 16, endAddress := 0, pixels := [] } ∧
    ¬ ((16 : Nat) ≤ 0) := by
  decide

/-- C16 (amended): `parseScreenHeader` accepts every byte buffer of at least 7 bytes and
makes no check of the address order: the returned addresses are the two 16-bit header
fields (both below 65536), and `beginAddress ≤ endAddress` holds exactly when the begin
field does not exceed the end field. -/
theorem C16_header_order (d : List Nat) (hb : IsBytes d) (hlen : 7 ≤ d.length) :
    ∃ header, parseScreenHeader d = .ok header ∧
      header.beginAddress < 65536 ∧ header.endAddress < 65536 ∧
      (header.beginAddress ≤ header.endAddress ↔
        d.getD 1 0 + 256 * d.getD 2 0 ≤ d.getD 3 0 + 256 * d.getD 4 0) := by
  refine ⟨_, parseScreenHeader_bytes d hb hlen, ?_, ?_, Iff.rfl⟩
  · have h1 := getD_isBytes d hb 1
    have h2 := getD_isBytes d hb 2
    show d.getD 1 0 + 256 * d.getD 2 0 < 65536
    omega
  · have h3 := getD_isBytes d hb 3
    have h4 := getD_isBytes d hb 4
    show d.getD 3 0 + 256 * d.getD 4 0 < 65536
    omega

/-- C16, instance: the accepted header `FE 10 00 00 00 00 00` with begin above end. -/
theorem C16_header_order_witness :
    IsBytes reversedHeader ∧ 7 ≤ reversedHeader.length ∧
    ∃ header, parseScreenHeader reversedHeader = .ok header ∧
      header.beginAddress < 65536 ∧ header.endAddress < 65536 ∧
      (header.beginAddress ≤ header.endAddress ↔
        reversedHeader.getD 1 0 + 256 * reversedHeader.getD 2 0 ≤
          reversedHeader.getD 3 0 + 256 * reversedHeader.getD 4 0) :=
  ⟨by decide, by decide, C16_header_order reversedHeader (by decide) (by decide)⟩

/-- C17: for every end address `e` and each row width `w` that the decoders pass (128 and
256), `calculateHeight(e, w)` is 192 or 212; it is 192 exactly when the integer quotient
`e / w` is at most 192, and 212 otherwise. -/
theorem C17_height_rule (e w : Nat) (hw : w = 128 ∨ w = 256) :
    (calculateHeight e w = 192 ∨ calculateHeight e w = 212) ∧
    (calculateHeight e w = 192 ↔ e / w ≤ 192) ∧
    (calculateHeight e w = 212 ↔ ¬ (e / w ≤ 192)) := by
  have hmod : w % 65536 = w := by rcases hw with h | h <;> rw [h]
  unfold calculateHeight ScreenHeightMSX1 ScreenHeightMSX2
  simp only [hmod]
  by_cases h : e / w ≤ 192
  · rw [if_pos h]
    exact ⟨Or.inl rfl, ⟨fun _ => h, fun _ => rfl⟩,
      ⟨(fun h' => by cases h'), fun h' => absurd h h'⟩⟩
  · rw [if_neg h]
    exact ⟨Or.inr rfl, ⟨(fun h' => by cases h'), fun h' => absurd h' h⟩,
      ⟨fun _ => h, fun _ => rfl⟩⟩

/-- C17, instance: end address `0x769F` with the row width 128 of SCREEN 5: the quotient
is 237 and the height 212. -/
theorem C17_height_rule_witness :
    ((128 : Nat) = 128 ∨ (128 : Nat) = 256) ∧ calculateHeight 0x769F 128 = 212 ∧
    (calculateHeight 0x769F 128 = 192 ↔ 0x769F / 128 ≤ 192) :=
  ⟨by decide, by decide, (C17_height_rule 0x769F 128 (by decide)).2.1⟩

/-! ## Claims on the payload reads of the screen decoders -/

theorem screenPixel_error (header : screenHeader) (width addr : Nat) (img : RGBAImage)
    (e : ImageError) (h : decodeScreen.pixel header width addr img = .error e) :
    e = .indexOutOfRange := by
  unfold decodeScreen.pixel at h
  simp only at h
  split at h
  · cases h; rfl
  · cases h

theorem screenPixel_ok (header : screenHeader) (width addr : Nat) (img img' : RGBAImage)
    (h : decodeScreen.pixel header width addr img = .ok img') :
    addr - header.beginAddress < header.pixels.length := by
  unfold decodeScreen.pixel at h
  simp only at h
  split at h
  · cases h
  · rename_i v hv
    by_contra hlt
    rw [List.getElem?_eq_none (Nat.le_of_not_lt hlt)] at hv
    cases hv

/-- When the payload is shorter than the address range that `decodeScreen` walks, the
unguarded index expression panics. -/
theorem decodeScreen_short_payload (data : List Nat) (config : Config) (width : Nat)
    (header : screenHeader) (hp : parseScreenHeader data = .ok header)
    (hshort : header.pixels.length <
      (if (calculateHeight header.endAddress width * width) % 65536 < header.endAddress
       then (calculateHeight header.endAddress width * width) % 65536
       else header.endAddress) - header.beginAddress) :
    decodeScreen data config width = .error .indexOutOfRange := by
  unfold decodeScreen
  simp only [hp]
  cases hloop : forRange (decodeScreen.pixel header width)
      ((if (calculateHeight header.endAddress width * width) % 65536 < header.endAddress
        then (calculateHeight header.endAddress width * width) % 65536
        else header.endAddress) - header.beginAddress) header.beginAddress
      (NewRGBA width (calculateHeight header.endAddress width)) with
  | error e =>
    obtain ⟨j, t, _, _, hb⟩ := forRange_error_body _ e _ _ _ hloop
    rw [screenPixel_error header width j t e hb]
  | ok img' =>
    obtain ⟨t, t', hb⟩ := forRange_ok_body _ _ _ _ _ hloop
      (header.beginAddress + header.pixels.length) (by omega) (by omega)
    have := screenPixel_ok header width _ t t' hb
    omega

theorem nibblePixel_error (header : screenHeader) (width addr : Nat) (img : Paletted)
    (e : ImageError) (h : decodeScreenNibbles.pixel header width addr img = .error e) :
    e = .indexOutOfRange := by
  unfold decodeScreenNibbles.pixel at h
  simp only at h
  split at h
  · cases h; rfl
  · cases h

theorem nibblePixel_ok (header : screenHeader) (width addr : Nat) (img img' : Paletted)
    (h : decodeScreenNibbles.pixel header width addr img = .ok img') :
    addr - header.beginAddress < header.pixels.length := by
  unfold decodeScreenNibbles.pixel at h
  simp only at h
  split at h
  · cases h
  · rename_i v hv
    by_contra hlt
    rw [List.getElem?_eq_none (Nat.le_of_not_lt hlt)] at hv
    cases hv

/-- When the payload is shorter than the address range that `decodeScreenNibbles` walks,
the call panics: in `getPalette` or at the unguarded index expression. -/
theorem decodeScreenNibbles_short_payload (data : List Nat) (config : Config)
    (width paletteOffset : Nat) (header : screenHeader)
    (hp : parseScreenHeader data = .ok header)
    (hshort : header.pixels.length <
      (if (calculateHeight header.endAddress (width / 2) * (width / 2)) % 65536 <
          header.endAddress
       then (calculateHeight header.endAddress (width / 2) * (width / 2)) % 65536
       else header.endAddress) - header.beginAddress) :
    decodeScreenNibbles data config width paletteOffset = .error .indexOutOfRange ∨
    decodeScreenNibbles data config width paletteOffset = .error .sliceOutOfRange := by
  unfold decodeScreenNibbles
  simp only [hp]
  cases hpal : ResolvePalette header.pixels header.beginAddress header.endAddress
      paletteOffset config.ExtraData with
  | none => exact Or.inr rfl
  | some palette =>
    left
    simp only
    cases hloop : forRange (decodeScreenNibbles.pixel header width)
        ((if (calculateHeight header.endAddress (width / 2) * (width / 2)) % 65536 <
            header.endAddress
          then (calculateHeight header.endAddress (width / 2) * (width / 2)) % 65536
          else header.endAddress) - header.beginAddress) header.beginAddress
        (NewPaletted width (calculateHeight header.endAddress (width / 2)) palette) with
    | error e =>
      obtain ⟨j, t, _, _, hb⟩ := forRange_error_body _ e _ _ _ hloop
      rw [nibblePixel_error header width j t e hb]
    | ok img' =>
      obtain ⟨t, t', hb⟩ := forRange_ok_body _ _ _ _ _ hloop
        (header.beginAddress + header.pixels.length) (by omega) (by omega)
      have := nibblePixel_ok header width _ t t' hb
      omega

theorem yjkPixel_error (header : screenHeader) (palette : List RGBA) (isYae : Bool)
    (idx x y : Nat) (k j : Int) (i : Nat) (img : RGBAImage) (e : ImageError)
    (h : decodeYaeYjk.pixel header palette isYae idx x y k j i img = .error e) :
    e = .indexOutOfRange := by
  unfold decodeYaeYjk.pixel at h
  split at h
  · cases h; rfl
  · simp only at h
    split at h
    · split at h
      · cases h; rfl
      · cases h
    · cases h

theorem yjkGroup_error (header : screenHeader) (palette : List RGBA) (isYae : Bool)
    (width y q : Nat) (img : RGBAImage) (e : ImageError)
    (h : decodeYaeYjk.group header palette isYae width y q img = .error e) :
    e = .indexOutOfRange := by
  unfold decodeYaeYjk.group at h
  simp only at h
  split at h
  · cases h; rfl
  · split at h
    · cases h; rfl
    · split at h
      · cases h; rfl
      · split at h
        · cases h; rfl
        · obtain ⟨i, t, _, _, hb⟩ := forRange_error_body _ e _ _ _ h
          exact yjkPixel_error _ _ _ _ _ _ _ _ _ _ _ hb

theorem yjkGroup_ok (header : screenHeader) (palette : List RGBA) (isYae : Bool)
    (width y q : Nat) (img img' : RGBAImage)
    (h : decodeYaeYjk.group header palette isYae width y q img = .ok img') :
    y * width + q * 4 + 3 < header.pixels.length := by
  unfold decodeYaeYjk.group at h
  simp only at h
  split at h
  · cases h
  · split at h
    · cases h
    · split at h
      · cases h
      · split at h
        · cases h
        · rename_i v hv
          by_contra hlt
          rw [List.getElem?_eq_none (Nat.le_of_not_lt hlt)] at hv
          cases hv

/-- When the payload has fewer than `height * 256` bytes, `decodeYaeYjk` with the row
width 256 of its callers panics: in `getPalette` or at an unguarded index expression. -/
theorem decodeYaeYjk_short_payload (data : List Nat) (config : Config) (paletteOffset : Nat)
    (isYae : Bool) (header : screenHeader) (hp : parseScreenHeader data = .ok header)
    (hshort : header.pixels.length < calculateHeight header.endAddress ScreenWidth * 256) :
    decodeYaeYjk data config ScreenWidth paletteOffset isYae = .error .indexOutOfRange ∨
    decodeYaeYjk data config ScreenWidth paletteOffset isYae = .error .sliceOutOfRange := by
  have hh : 0 < calculateHeight header.endAddress ScreenWidth := by
    unfold calculateHeight ScreenHeightMSX1 ScreenHeightMSX2
    simp only
    split <;> decide
  unfold decodeYaeYjk
  simp only [hp]
  cases hres : (if paletteOffset > 0 then
      ResolvePalette header.pixels header.beginAddress header.endAddress paletteOffset
        config.ExtraData
    else some []) with
  | none => exact Or.inr rfl
  | some palette =>
    left
    simp only
    cases hloop : forRange
        (fun y img =>
          forRange (decodeYaeYjk.group header palette isYae ScreenWidth y)
            ((ScreenWidth + 3) / 4) 0 img)
        (calculateHeight header.endAddress ScreenWidth) 0
        (NewRGBA ScreenWidth (calculateHeight header.endAddress ScreenWidth)) with
    | error e =>
      obtain ⟨y, t, _, _, hrow⟩ := forRange_error_body _ e _ _ _ hloop
      obtain ⟨q, u, _, _, hg⟩ := forRange_error_body _ e _ _ _ hrow
      rw [yjkGroup_error _ _ _ _ _ _ _ _ hg]
    | ok img' =>
      obtain ⟨t, t', hrow⟩ := forRange_ok_body _ _ _ _ _ hloop
        (calculateHeight header.endAddress ScreenWidth - 1) (by omega) (by omega)
      obtain ⟨u, u', hg⟩ := forRange_ok_body _ _ _ _ _ hrow 63 (by omega)
        (by unfold ScreenWidth; decide)
      have := yjkGroup_ok _ _ _ _ _ _ _ _ hg
      unfold ScreenWidth at this
      have e1 : (calculateHeight header.endAddress 256 - 1) * 256 =
          calculateHeight header.endAddress 256 * 256 - 256 := by
        rw [Nat.sub_mul]
      unfold ScreenWidth at hshort hh
      omega

/-- C18 (the code at a failing input): the dump `FE 00 00 02 00 00 00 AB` has a header
that addresses two bytes and a payload of one byte. None of the five screen decoders
clips to the payload or returns an error value: each evaluates an index expression on
`header.pixels` beyond its length, which is a run-time panic of Go. -/
theorem C18_truncated_payload_panics :
    parseScreenHeader truncatedDump =
      .ok { beginAddress := 0, endAddress := 2, pixels := [0xAB] } ∧
    DecodeScreen5 truncatedDump plainConfig = .error .indexOutOfRange ∧
    DecodeScreen7 truncatedDump plainConfig = .error .indexOutOfRange ∧
    DecodeScreen8 truncatedDump plainConfig = .error .indexOutOfRange ∧
    DecodeScreen10 truncatedDump plainConfig = .error .indexOutOfRange ∧
    DecodeScreen12 truncatedDump plainConfig = .error .indexOutOfRange := by
  decide

/-! ## Claims on `ResolvePalette` -/

theorem resolvePalette_external (pixels : List Nat) (b e p : Nat)
    (extra : Option (List Nat)) (h : p = 0 ∨ (p < 65536 ∧ e < p)) :
    ResolvePalette pixels b e p extra =
      match extra with
      | some blob => getPalette blob 0
      | none => getPalette defaultPalette 0 := by
  unfold ResolvePalette
  rcases h with h | ⟨h1, h2⟩
  · subst h
    rw [if_neg (by decide)]
  · have hpos : (p : Int) > 0 := by omega
    have hlt : ¬ (e ≥ ((p : Int) % 65536).toNat) := by omega
    rw [if_pos hpos, if_neg hlt]

theorem resolvePalette_embedded (pixels : List Nat) (b e p : Nat)
    (extra : Option (List Nat)) (hp : 0 < p) (hp16 : p < 65536) (hpe : p ≤ e) :
    ResolvePalette pixels b e p extra = getPalette pixels ((p : Int) - (b : Int)) := by
  unfold ResolvePalette
  have hpos : (p : Int) > 0 := by omega
  have hge : e ≥ ((p : Int) % 65536).toNat := by omega
  rw [if_pos hpos, if_pos hge]

theorem getPalette_window (data : List Nat) (off : Nat) (h : off + 32 ≤ data.length) :
    getPalette data (off : Int) = getPalette ((data.drop off).take 32) 0 := by
  unfold getPalette
  have h1 : ¬ ((off : Int) < 0 ∨ data.length < (off : Int).toNat + 32) := by
    simp only [Int.toNat_ofNat]
    omega
  have h2 : ¬ ((0 : Int) < 0 ∨ ((data.drop off).take 32).length < (0 : Int).toNat + 32) := by
    simp only [List.length_take, List.length_drop, Int.toNat_zero]
    omega
  rw [if_neg h1, if_neg h2]
  simp only [Int.toNat_ofNat, Int.toNat_zero, List.drop_zero, List.take_take, Nat.min_self]

/-- C19 (as stated, refuted): with `beginAddress = 0`, `endAddress = 1` and palette offset
`p = 1`, the offset is not inside `[beginAddress, endAddress)`, yet `ResolvePalette` decodes
the 32 payload bytes at index 1: the result is sixteen white entries, which is neither the
default palette nor independent of the payload. -/
theorem C19_counterexample :
    ¬ ((0 : Nat) ≤ 1 ∧ (1 : Nat) < 1) ∧
    ResolvePalette whitePayload 0 1 1 none = getPalette whitePayload 1 ∧
    ResolvePalette whitePayload 0 1 1 none = some (List.replicate 16 ⟨255, 255, 255, 255⟩) ∧
    ResolvePalette whitePayload 0 1 1 none ≠ getPalette defaultPalette 0 ∧
    ResolvePalette (List.replicate 33 0) 0 1 1 none ≠ ResolvePalette whitePayload 0 1 1 none := by
  decide

/-- C19 (amended): for a 16-bit palette offset `p > 0`, `ResolvePalette` compares `p` with
the end address only, the end address included. When `endAddress < p` it returns the
palette of the external blob, or of the default blob when there is none, and the payload
has no influence on the result. When `beginAddress ≤ p ≤ endAddress` and the payload holds
32 bytes from index `p - beginAddress`, it returns the 16 entries decoded from exactly
those 32 bytes. -/
theorem C19_embedded_palette (pixels : List Nat) (b e p : Nat) (extra : Option (List Nat))
    (hp : 0 < p) (hp16 : p < 65536) :
    (e < p →
      ResolvePalette pixels b e p extra =
        (match extra with
         | some blob => getPalette blob 0
         | none => getPalette defaultPalette 0) ∧
      ∀ pixels', ResolvePalette pixels' b e p extra = ResolvePalette pixels b e p extra) ∧
    (b ≤ p → p ≤ e → p - b + 32 ≤ pixels.length →
      ResolvePalette pixels b e p extra = getPalette ((pixels.drop (p - b)).take 32) 0 ∧
      ∃ pal, ResolvePalette pixels b e p extra = some pal ∧ pal.length = 16) := by
  refine ⟨fun he => ⟨resolvePalette_external pixels b e p extra (Or.inr ⟨hp16, he⟩), ?_⟩, ?_⟩
  · intro pixels'
    rw [resolvePalette_external pixels b e p extra (Or.inr ⟨hp16, he⟩),
      resolvePalette_external pixels' b e p extra (Or.inr ⟨hp16, he⟩)]
  · intro hbp hpe hlen
    have hcast : (p : Int) - (b : Int) = ((p - b : Nat) : Int) := by omega
    have key : ResolvePalette pixels b e p extra =
        getPalette ((pixels.drop (p - b)).take 32) 0 := by
      rw [resolvePalette_embedded pixels b e p extra hp hp16 hpe, hcast,
        getPalette_window pixels (p - b) hlen]
    refine ⟨key, ?_⟩
    rw [key]
    exact getPalette_some _ (by simp only [List.length_take, List.length_drop]; omega)

/-- C19, instance: a payload of 33 bytes with `beginAddress = 0`, `endAddress = 5` and
palette offset 1, inside the range: the embedded palette is used. -/
theorem C19_embedded_palette_witness :
    (0 : Nat) < 1 ∧ (1 : Nat) < 65536 ∧ (0 : Nat) ≤ 1 ∧ (1 : Nat) ≤ 5 ∧
    1 - 0 + 32 ≤ whitePayload.length ∧
    ResolvePalette whitePayload 0 5 (1 : Nat) none =
      getPalette ((whitePayload.drop (1 - 0)).take 32) 0 ∧
    ∃ pal, ResolvePalette whitePayload 0 5 (1 : Nat) none = some pal ∧ pal.length = 16 :=
  ⟨by decide, by decide, by decide, by decide, by decide,
    (C19_embedded_palette whitePayload 0 5 1 none (by decide) (by decide)).2
      (by decide) (by decide) (by decide)⟩

/-- C20: when no in-image palette is applicable (palette offset 0, or a 16-bit palette
offset above the end address), `ResolvePalette` returns `getPalette(B, 0)` for a supplied
blob `B` and `getPalette(defaultPalette, 0)`, which is `GetDefaultPalette()`, for a `nil`
blob; a blob of 32 bytes gives a palette of 16 entries; the result does not depend on the
payload, the addresses or the offset, so any two such calls with the same blob agree. -/
theorem C20_external_precedence (pixels : List Nat) (b e p : Nat)
    (h : p = 0 ∨ (p < 65536 ∧ e < p)) :
    (∀ B, ResolvePalette pixels b e p (some B) = getPalette B 0) ∧
    ResolvePalette pixels b e p none = getPalette defaultPalette 0 ∧
    getPalette defaultPalette 0 = GetDefaultPalette ∧
    (∀ B, B.length = 32 →
      ∃ pal, ResolvePalette pixels b e p (some B) = some pal ∧ pal.length = 16) ∧
    (∀ B pixels' b' e' p', (p' = 0 ∨ (p' < 65536 ∧ e' < p')) →
      ResolvePalette pixels' b' e' p' (some B) = ResolvePalette pixels b e p (some B)) := by
  refine ⟨fun B => resolvePalette_external pixels b e p (some B) h,
    resolvePalette_external pixels b e p none h, rfl, ?_, ?_⟩
  · intro B hB
    rw [resolvePalette_external pixels b e p (some B) h]
    exact getPalette_some B (by omega)
  · intro B pixels' b' e' p' h'
    rw [resolvePalette_external pixels b e p (some B) h,
      resolvePalette_external pixels' b' e' p' (some B) h']

/-- C20, instance: the call of `DecodeCMP` (`nil` payload, addresses and offset 0) with a
blob of sixteen times `0x7777`. -/
theorem C20_external_precedence_witness :
    ((0 : Nat) = 0 ∨ ((0 : Nat) < 65536 ∧ (0 : Nat) < 0)) ∧
    ResolvePalette [] 0 0 (0 : Nat) (some (List.replicate 32 0x77)) =
      some (List.replicate 16 ⟨255, 255, 255, 255⟩) ∧
    ResolvePalette [] 0 0 (0 : Nat) none = getPalette defaultPalette 0 :=
  ⟨by decide,
    ((C20_external_precedence [] 0 0 0 (by decide)).1 (List.replicate 32 0x77)).trans
      (by decide),
    (C20_external_precedence [] 0 0 0 (by decide)).2.1⟩

/-! ## Claims on the order of steps in `readByte` -/

theorem readByte_last_bit (r : bitStreamReader) (hlen : r.lookupTable.length = 8)
    (hcnt : r.bitCounter = 1) (hidx : r.tableIndex = 8) (hc : r.bitBuffer.testBit 7 = true)
    (hoff : r.offset < r.data.length) :
    (r.offset + 1 ≥ r.data.length →
      readByte r = .ok (r.data.getD r.offset 0,
        { r with bitBuffer := 0, bitCounter := 8, tableIndex := 0, offset := r.offset + 1,
                 lookupTable := List.replicate 8 0 })) ∧
    (r.offset + 1 < r.data.length →
      readByte r =
        match readLookupTable
          { r with bitBuffer := (r.bitBuffer <<< 1) % 256, offset := r.offset + 1,
                   bitCounter := 0 } with
        | .error e => .error (.newTableFailed e)
        | .ok r' => .ok (r.data.getD r.offset 0, r')) := by
  have hz : (r.bitCounter + 255) % 256 = 0 := by rw [hcnt]
  have hi : r.tableIndex ≥ r.lookupTable.length := by rw [hidx, hlen]
  have hnot : ¬ (r.offset ≥ r.data.length) := by omega
  rw [readByte_carry r hc, if_neg hnot]
  constructor
  · intro hend
    rw [reload_eof { r with bitBuffer := (r.bitBuffer <<< 1) % 256, offset := r.offset + 1 }
      hz hi hend]
    simp only [hlen]
  · intro hmore
    rw [reload_new { r with bitBuffer := (r.bitBuffer <<< 1) % 256, offset := r.offset + 1 }
      hz hi hmore]
    simp only [hcnt]
    cases readLookupTable
      { r with bitBuffer := (r.bitBuffer <<< 1) % 256, offset := r.offset + 1, bitCounter := 0 } with
    | error e => rfl
    | ok r' => rfl

theorem readByte_mid_byte (r : bitStreamReader) (hc1 : 1 < r.bitCounter)
    (hc256 : r.bitCounter < 256)
    (hin : r.bitBuffer.testBit 7 = true → r.offset < r.data.length) :
    readByte r =
      .ok (if r.bitBuffer.testBit 7 = true then r.data.getD r.offset 0 else 0,
        { r with bitBuffer := (r.bitBuffer <<< 1) % 256, bitCounter := r.bitCounter - 1,
                 offset := r.offset + (r.bitBuffer.testBit 7).toNat }) := by
  have hne : (r.bitCounter + 255) % 256 ≠ 0 := by omega
  have hdec : (r.bitCounter + 255) % 256 = r.bitCounter - 1 := by omega
  cases hc : r.bitBuffer.testBit 7 with
  | true =>
    have hnot : ¬ (r.offset ≥ r.data.length) := by have := hin hc; omega
    rw [readByte_carry r hc, if_neg hnot,
      reload_keep { r with bitBuffer := (r.bitBuffer <<< 1) % 256, offset := r.offset + 1 } hne]
    simp [hdec]
  | false =>
    rw [readByte_clear r hc,
      reload_keep { r with bitBuffer := (r.bitBuffer <<< 1) % 256 } hne]
    simp [hdec]

/-- C30 (as stated, refuted): on the stream `01 01 AA 80` the reader is built and 63 calls
succeed; the state then has `bitCounter = 1`, `tableIndex = 8`, the carry set and the input
byte `AA` at its offset 2, yet call 64 does not return `data[2]`: after consuming it the
call reads the next table, whose control byte `80` at offset 3 lacks its table byte, and
the call returns that error. -/
theorem C30_counterexample :
    (newBitStreamReader lateTableStream 0).bind (readBytes 63) =
      .ok (List.replicate 63 0, lateTableReader) ∧
    lateTableReader.bitCounter = 1 ∧ lateTableReader.tableIndex = 8 ∧
    lateTableReader.bitBuffer.testBit 7 = true ∧
    lateTableReader.offset < lateTableReader.data.length ∧
    readByte lateTableReader = .error (.newTableFailed (.tableByteEnd 0)) := by
  decide

/-- C30 (amended): in a reader with its 8-slot table. (1) With `bitCounter = 1`,
`tableIndex = 8`, the carry set and an input byte at offset `o`: the result byte is
`data[o]` and the reload starts at offset `o + 1`, after the consumption and the
decrement. If `o + 1 = len(data)` the call returns `data[o]` with the all-zero fallback
table. Otherwise the next table is read with its control byte `data[o+1]`: the call returns
`data[o]` when `popcount` bytes follow that control byte, and returns the error of the
table load, without `data[o]`, when they do not. (2) With `1 < bitCounter` (an 8-bit
value), when the call succeeds (carry clear, or an input byte at the offset) it returns the
input byte or 0, decrements `bitCounter` by exactly 1, shifts `bitBuffer` left by one bit
and leaves `lookupTable` and `tableIndex` unchanged. -/
theorem C30_call_order (r : bitStreamReader) (hlen : r.lookupTable.length = 8) :
    (r.bitCounter = 1 → r.tableIndex = 8 → r.bitBuffer.testBit 7 = true →
      r.offset < r.data.length →
      (r.offset + 1 ≥ r.data.length →
        readByte r = .ok (r.data.getD r.offset 0,
          { r with bitBuffer := 0, bitCounter := 8, tableIndex := 0, offset := r.offset + 1,
                   lookupTable := List.replicate 8 0 })) ∧
      (r.offset + 2 + popcount8 (r.data.getD (r.offset + 1) 0) ≤ r.data.length →
        ∃ r', readByte r = .ok (r.data.getD r.offset 0, r') ∧
          r'.offset = r.offset + 2 + popcount8 (r.data.getD (r.offset + 1) 0) ∧
          (∀ i, i < 8 → r'.lookupTable.getD i 0 =
            if (r.data.getD (r.offset + 1) 0).testBit (7 - i)
            then r.data.getD
              (r.offset + 2 + setBitsBefore (r.data.getD (r.offset + 1) 0) i) 0
            else 0) ∧
          r'.bitBuffer = r'.lookupTable.getD 0 0 ∧ r'.bitCounter = 8 ∧ r'.tableIndex = 1) ∧
      (r.offset + 1 < r.data.length →
        r.data.length < r.offset + 2 + popcount8 (r.data.getD (r.offset + 1) 0) →
        ∃ e, readByte r = .error (.newTableFailed e))) ∧
    (1 < r.bitCounter → r.bitCounter < 256 →
      (r.bitBuffer.testBit 7 = true → r.offset < r.data.length) →
      readByte r =
        .ok (if r.bitBuffer.testBit 7 = true then r.data.getD r.offset 0 else 0,
          { r with bitBuffer := (r.bitBuffer <<< 1) % 256, bitCounter := r.bitCounter - 1,
                   offset := r.offset + (r.bitBuffer.testBit 7).toNat })) := by
  refine ⟨?_, readByte_mid_byte r⟩
  intro hcnt hidx hc hoff
  obtain ⟨h1, h2⟩ := readByte_last_bit r hlen hcnt hidx hc hoff
  refine ⟨h1, ?_, ?_⟩
  · intro hroom
    have hmore : r.offset + 1 < r.data.length := by omega
    obtain ⟨r', g1, _, _, g4, g5, g6, g7, g8⟩ := readLookupTable_ok
      { r with bitBuffer := (r.bitBuffer <<< 1) % 256, offset := r.offset + 1, bitCounter := 0 }
      hlen (by
        show r.offset + 1 + 1 + popcount8 (r.data.getD (r.offset + 1) 0) ≤ r.data.length
        omega)
    refine ⟨r', ?_, by rw [g5], ?_, g6, g7, g8⟩
    · rw [h2 hmore, g1]
    · intro i hi
      rw [g4 i hi]
  · intro hmore hshort
    obtain ⟨e, he⟩ := (readLookupTable_fails_iff
      { r with bitBuffer := (r.bitBuffer <<< 1) % 256, offset := r.offset + 1, bitCounter := 0 }
      hlen).2 (by
        show r.data.length < r.offset + 1 + 1 + popcount8 (r.data.getD (r.offset + 1) 0)
        omega)
    exact ⟨e, by rw [h2 hmore, he]⟩

/-- C30, instance: the state in front of call 64 on the stream `01 01 AA 80`: the call
fails by the last clause of part (1). -/
theorem C30_call_order_witness :
    lateTableReader.lookupTable.length = 8 ∧
    ∃ e, readByte lateTableReader = .error (.newTableFailed e) :=
  ⟨by decide,
    (C30_call_order lateTableReader (by decide)).1 (by decide) (by decide) (by decide)
      (by decide) |>.2.2 (by decide) (by decide)⟩

/-! ## Claims on the colour mathematics -/

theorem and7 (x : Nat) : x &&& 7 = x % 8 := by
  have := Nat.and_pow_two_sub_one_eq_mod x 3
  simpa using this

theorem and3 (x : Nat) : x &&& 3 = x % 4 := by
  have := Nat.and_pow_two_sub_one_eq_mod x 2
  simpa using this

theorem getPalette_eq (data : List Nat) (off : Nat) (hb : IsBytes data)
    (hlen : off + 32 ≤ data.length) :
    getPalette data off =
      some ((List.range 16).map fun i =>
        { R := color3bitsLookupTable.getD
            (((data.getD (off + 2 * i) 0 + 256 * data.getD (off + 2 * i + 1) 0) >>> 4) &&& 7) 0,
          G := color3bitsLookupTable.getD
            (((data.getD (off + 2 * i) 0 + 256 * data.getD (off + 2 * i + 1) 0) >>> 8) &&& 7) 0,
          B := color3bitsLookupTable.getD
            ((data.getD (off + 2 * i) 0 + 256 * data.getD (off + 2 * i + 1) 0) &&& 7) 0,
          A := 255 }) := by
  unfold getPalette
  have h1 : ¬ ((off : Int) < 0 ∨ data.length < (off : Int).toNat + 32) := by
    simp only [Int.toNat_ofNat]
    omega
  rw [if_neg h1]
  simp only [Int.toNat_ofNat, Option.some.injEq]
  apply List.map_congr_left
  intro i hi
  have hi16 : i < 16 := List.mem_range.1 hi
  have e1 : ((data.drop off).take 32).getD (i * 2) 0 = data.getD (off + 2 * i) 0 := by
    simp only [List.getD_eq_getElem?_getD, List.getElem?_take, List.getElem?_drop]
    rw [if_pos (by omega), Nat.mul_comm i 2]
  have e2 : ((data.drop off).take 32).getD (i * 2 + 1) 0 = data.getD (off + 2 * i + 1) 0 := by
    simp only [List.getD_eq_getElem?_getD, List.getElem?_take, List.getElem?_drop]
    rw [if_pos (by omega), Nat.mul_comm i 2, Nat.add_assoc]
  have hlo := getD_isBytes data hb (off + 2 * i)
  have hhi := getD_isBytes data hb (off + 2 * i + 1)
  have e3 : (data.getD (off + 2 * i) 0 + 256 * data.getD (off + 2 * i + 1) 0) % 65536 =
      data.getD (off + 2 * i) 0 + 256 * data.getD (off + 2 * i + 1) 0 := by omega
  simp only [e1, e2, e3]

/-- C21: for a byte buffer with at least 32 bytes from the offset, `getPalette` returns
exactly 16 entries; entry `i` comes from `raw = d[off+2i] + 256*d[off+2i+1]` as
`R = T3[(raw >> 4) & 7]`, `G = T3[(raw >> 8) & 7]`, `B = T3[raw & 7]`, alpha 255. The three
table indices are bits 4..6 of the low byte, bits 0..2 of the high byte and bits 0..2 of
the low byte, so bit 3 of each nibble and the top nibble of `raw` have no influence. For
the default blob, entry 0 is `(0,0,0)` and entry 15 is `(255,255,255)`. -/
theorem C21_palette_decoding (data : List Nat) (off : Nat) (hb : IsBytes data)
    (hlen : off + 32 ≤ data.length) :
    (∃ pal, getPalette data off = some pal ∧ pal.length = 16 ∧
      ∀ i, i < 16 →
        pal[i]? = some
          { R := color3bitsLookupTable.getD
              (((data.getD (off + 2 * i) 0 + 256 * data.getD (off + 2 * i + 1) 0) >>> 4) &&& 7) 0,
            G := color3bitsLookupTable.getD
              (((data.getD (off + 2 * i) 0 + 256 * data.getD (off + 2 * i + 1) 0) >>> 8) &&& 7) 0,
            B := color3bitsLookupTable.getD
              ((data.getD (off + 2 * i) 0 + 256 * data.getD (off + 2 * i + 1) 0) &&& 7) 0,
            A := 255 } ∧
        ((data.getD (off + 2 * i) 0 + 256 * data.getD (off + 2 * i + 1) 0) >>> 4) &&& 7 =
          data.getD (off + 2 * i) 0 / 16 % 8 ∧
        ((data.getD (off + 2 * i) 0 + 256 * data.getD (off + 2 * i + 1) 0) >>> 8) &&& 7 =
          data.getD (off + 2 * i + 1) 0 % 8 ∧
        (data.getD (off + 2 * i) 0 + 256 * data.getD (off + 2 * i + 1) 0) &&& 7 =
          data.getD (off + 2 * i) 0 % 8) ∧
    color3bitsLookupTable = [0x00, 0x24, 0x49, 0x6d, 0x92, 0xb6, 0xdb, 0xff] ∧
    (getPalette defaultPalette 0).bind (fun pal => pal[0]?) = some ⟨0, 0, 0, 255⟩ ∧
    (getPalette defaultPalette 0).bind (fun pal => pal[15]?) = some ⟨255, 255, 255, 255⟩ := by
  refine ⟨⟨_, getPalette_eq data off hb hlen, by simp, ?_⟩, rfl, by decide, by decide⟩
  intro i hi
  have hlo := getD_isBytes data hb (off + 2 * i)
  refine ⟨?_, ?_, ?_, ?_⟩
  · rw [List.getElem?_map, List.getElem?_range hi]
    rfl
  · rw [and7, Nat.shiftRight_eq_div_pow]
    omega
  · rw [and7, Nat.shiftRight_eq_div_pow]
    omega
  · rw [and7]
    omega

/-- C21, instance: the default blob, whose entry 15 comes from the bytes `77 07`. -/
theorem C21_palette_decoding_witness :
    IsBytes defaultPalette ∧ 0 + 32 ≤ defaultPalette.length ∧
    ∃ pal, getPalette defaultPalette ((0 : Nat) : Int) = some pal ∧ pal.length = 16 ∧
      pal[15]? = some ⟨255, 255, 255, 255⟩ :=
  ⟨by decide, by decide,
    match (C21_palette_decoding defaultPalette 0 (by decide) (by decide)).1 with
    | ⟨pal, h1, h2, h3⟩ => ⟨pal, h1, h2, (h3 15 (by decide)).1.trans (by decide)⟩⟩

theorem getD_set_gen {α : Type} (l : List α) (i j : Nat) (v d : α) :
    (l.set i v).getD j d = if i = j ∧ i < l.length then v else l.getD j d := by
  simp only [List.getD_eq_getElem?_getD, List.getElem?_set]
  by_cases hij : i = j
  · subst hij
    by_cases hi : i < l.length
    · simp [hi]
    · simp [hi, List.getElem?_eq_none (Nat.le_of_not_lt hi)]
  · simp [hij]

theorem calculateHeight_256 (e : Nat) :
    calculateHeight e 256 = 192 ∨ calculateHeight e 256 = 212 := by
  unfold calculateHeight ScreenHeightMSX1 ScreenHeightMSX2
  simp only
  split
  · exact Or.inl rfl
  · exact Or.inr rfl

theorem screenPixel_step (header : screenHeader) (H addr : Nat) (img img' : RGBAImage)
    (hinv : ScreenInv header H addr img) (haddr : addr < 256 * H)
    (hbegin : header.beginAddress ≤ addr)
    (h : decodeScreen.pixel header 256 addr img = .ok img') :
    ScreenInv header H (addr + 1) img' := by
  obtain ⟨hw, hh, hl, hpix⟩ := hinv
  unfold decodeScreen.pixel at h
  simp only [show (256 % 65536 : Nat) = 256 from rfl] at h
  split at h
  · cases h
  · rename_i v hv
    have hx : addr % 256 < img.width := by rw [hw]; omega
    have hy : addr / 256 < img.height := by rw [hh]; omega
    have hidx : addr / 256 * img.width + addr % 256 = addr := by
      rw [hw]; omega
    unfold RGBAImage.Set at h
    rw [if_pos ⟨hx, hy⟩, hidx] at h
    cases h
    refine ⟨hw, hh, by simp [hl], ?_⟩
    intro a ha1 ha2
    simp only [getD_set_gen]
    by_cases hnew : a = addr
    · subst hnew
      exact ⟨v, hv, by rw [if_pos ⟨rfl, by rw [hl]; exact haddr⟩]⟩
    · obtain ⟨u, hu1, hu2⟩ := hpix a ha1 (by omega)
      exact ⟨u, hu1, by rw [if_neg (by omega)]; exact hu2⟩

/-- C22: for every dump that `DecodeScreen8` decodes, every address `a` from the begin
address below the end address and below `height * 256` has a payload byte `v`, and pixel
`(a mod 256, a div 256)` is `R = T3[(v >> 2) & 7]`, `G = T3[(v >> 5) & 7]`,
`B = T2[v & 3]`, alpha 255. The byte `0x00` is `(0,0,0)` and the byte `0xFF` is
`(255,255,255)`. -/
theorem C22_direct_rgb (data : List Nat) (config : Config) (res : FinalizeCallRGBA)
    (hok : DecodeScreen8 data config = .ok res) :
    (∃ header, parseScreenHeader data = .ok header ∧
      res.width = 256 ∧ res.height = calculateHeight header.endAddress 256 ∧
      ∀ a, header.beginAddress ≤ a → a < header.endAddress → a < res.height * 256 →
        ∃ v, header.pixels[a - header.beginAddress]? = some v ∧
          res.img.RGBAAt (a % 256) (a / 256) =
            { R := color3bitsLookupTable.getD ((v >>> 2) &&& 7) 0,
              G := color3bitsLookupTable.getD ((v >>> 5) &&& 7) 0,
              B := color2bitsLookupTable.getD (v &&& 3) 0, A := 255 }) ∧
    color3bitsLookupTable = [0x00, 0x24, 0x49, 0x6d, 0x92, 0xb6, 0xdb, 0xff] ∧
    color2bitsLookupTable = [0x00, 0x55, 0xaa, 0xff] ∧
    ({ R := color3bitsLookupTable.getD ((0x00 >>> 2) &&& 7) 0,
       G := color3bitsLookupTable.getD ((0x00 >>> 5) &&& 7) 0,
       B := color2bitsLookupTable.getD (0x00 &&& 3) 0, A := 255 } : RGBA) = ⟨0, 0, 0, 255⟩ ∧
    ({ R := color3bitsLookupTable.getD ((0xFF >>> 2) &&& 7) 0,
       G := color3bitsLookupTable.getD ((0xFF >>> 5) &&& 7) 0,
       B := color2bitsLookupTable.getD (0xFF &&& 3) 0, A := 255 } : RGBA) =
      ⟨255, 255, 255, 255⟩ := by
  refine ⟨?_, rfl, rfl, by decide, by decide⟩
  unfold DecodeScreen8 decodeScreen ScreenWidth at hok
  cases hp : parseScreenHeader data with
  | error e => rw [hp] at hok; cases hok
  | ok header =>
    rw [hp] at hok
    simp only at hok
    split at hok
    · cases hok
    · rename_i img' hloop
      cases hok
      have hH := calculateHeight_256 header.endAddress
      have h0 : ScreenInv header (calculateHeight header.endAddress 256) header.beginAddress
          (NewRGBA 256 (calculateHeight header.endAddress 256)) := by
        refine ⟨rfl, rfl, by simp [NewRGBA], ?_⟩
        intro a h1 h2
        omega
      have hfin := forRange_inv (decodeScreen.pixel header 256)
        (fun j t => ScreenInv header (calculateHeight header.endAddress 256) j t) _ _ _ _ h0
        (fun j t t' h1 h2 ht hb =>
          screenPixel_step header _ j t t' ht (by
            rcases hH with hH | hH <;> rw [hH] at h2 ⊢ <;> split at h2 <;> omega) h1 hb)
        hloop
      obtain ⟨hw, hh, hl, hpix⟩ := hfin
      refine ⟨header, rfl, rfl, rfl, ?_⟩
      intro a ha1 ha2 ha3
      simp only at ha3
      obtain ⟨v, hv1, hv2⟩ := hpix a ha1 (by
        rcases hH with hH | hH <;> rw [hH] at ha3 ⊢ <;> split <;> omega)
      refine ⟨v, hv1, ?_⟩
      unfold RGBAImage.RGBAAt
      rw [hw, hh, if_pos ⟨by omega, by omega⟩, show a / 256 * 256 + a % 256 = a by omega]
      exact hv2

/-- C22, instance: the dump `twoPixelDump` with the payload bytes `00` and `FF`: pixel 0 is
black and pixel 1 is white. -/
theorem C22_direct_rgb_witness :
    ∃ res, DecodeScreen8 twoPixelDump plainConfig = .ok res ∧
      (∃ header, parseScreenHeader twoPixelDump = .ok header ∧
        res.width = 256 ∧ res.height = calculateHeight header.endAddress 256 ∧
        ∀ a, header.beginAddress ≤ a → a < header.endAddress → a < res.height * 256 →
          ∃ v, header.pixels[a - header.beginAddress]? = some v ∧
            res.img.RGBAAt (a % 256) (a / 256) =
              { R := color3bitsLookupTable.getD ((v >>> 2) &&& 7) 0,
                G := color3bitsLookupTable.getD ((v >>> 5) &&& 7) 0,
                B := color2bitsLookupTable.getD (v &&& 3) 0, A := 255 }) := by
  have hb : (DecodeScreen8 twoPixelDump plainConfig).toBool = true := by decide
  cases h : DecodeScreen8 twoPixelDump plainConfig with
  | error e => rw [h] at hb; cases hb
  | ok res => exact ⟨res, rfl, (C22_direct_rgb twoPixelDump plainConfig res h).1⟩

theorem signed6_field (a b : Nat) :
    (let k0 : Int := (((a &&& 7) + ((b &&& 7) <<< 3)) % 256 : Nat)
     if k0 > 31 then k0 - 64 else k0) = signed6 ((a &&& 7) + 8 * (b &&& 7)) := by
  simp only [and7, Nat.shiftLeft_eq]
  have e : (a % 8 + b % 8 * 2 ^ 3) % 256 = a % 8 + 8 * (b % 8) := by omega
  rw [e]
  unfold signed6
  by_cases h : a % 8 + 8 * (b % 8) > 31
  · rw [if_pos h, if_pos (by omega)]
  · rw [if_neg h, if_neg (by omega)]

theorem signed6_bounds (a b : Nat) :
    -32 ≤ signed6 ((a &&& 7) + 8 * (b &&& 7)) ∧ signed6 ((a &&& 7) + 8 * (b &&& 7)) ≤ 31 := by
  simp only [and7]
  unfold signed6
  split <;> omega

theorem clamp_bounds (v : Int) :
    0 ≤ clamp v 0 31 ∧ clamp v 0 31 ≤ 31 ∧ (clamp v 0 31).toNat < 32 := by
  unfold clamp
  split
  · omega
  · split <;> omega

theorem luma_bounds (b : Nat) (hb : b < 256) : b >>> 3 ≤ 31 ∧ (b >>> 3) >>> 1 < 16 := by
  simp only [Nat.shiftRight_eq_div_pow]
  omega

theorem yjkColour_some (palette : List RGBA) (isYae : Bool) (k j : Int) (b : Nat)
    (hb : b < 256) (hpal : isYae = true → palette.length = 16) :
    ∃ c, yjkColour palette isYae k j b = some c := by
  unfold yjkColour
  simp only
  split
  · rename_i hc
    have hl := hpal hc.1
    have := (luma_bounds b hb).2
    exact ⟨palette[(b >>> 3) >>> 1], List.getElem?_eq_getElem (by omega)⟩
  · exact ⟨_, rfl⟩

theorem yjkPixel_eq (header : screenHeader) (palette : List RGBA) (isYae : Bool)
    (idx x y : Nat) (k j : Int) (i : Nat) (img : RGBAImage) (v : Nat) (c : RGBA)
    (hv : header.pixels[idx + i]? = some v) (hc : yjkColour palette isYae k j v = some c) :
    decodeYaeYjk.pixel header palette isYae idx x y k j i img = .ok (img.Set (x + i) y c) := by
  unfold decodeYaeYjk.pixel
  rw [hv]
  unfold yjkColour at hc
  simp only [Nat.and_one_is_mod] at hc ⊢
  by_cases hcond : isYae = true ∧ (v >>> 3) % 2 = 1
  · rw [if_pos hcond] at hc ⊢
    rw [hc]
  · rw [if_neg hcond] at hc ⊢
    cases hc
    rfl

theorem yjkGroup_eq (header : screenHeader) (palette : List RGBA) (isYae : Bool)
    (width y q : Nat) (img : RGBAImage) (b1 b2 b3 b4 : Nat) (c1 c2 c3 c4 : RGBA)
    (h1 : header.pixels[y * width + q * 4]? = some b1)
    (h2 : header.pixels[y * width + q * 4 + 1]? = some b2)
    (h3 : header.pixels[y * width + q * 4 + 2]? = some b3)
    (h4 : header.pixels[y * width + q * 4 + 3]? = some b4)
    (hc1 : yjkColour palette isYae (signed6 ((b1 &&& 7) + 8 * (b2 &&& 7)))
      (signed6 ((b3 &&& 7) + 8 * (b4 &&& 7))) b1 = some c1)
    (hc2 : yjkColour palette isYae (signed6 ((b1 &&& 7) + 8 * (b2 &&& 7)))
      (signed6 ((b3 &&& 7) + 8 * (b4 &&& 7))) b2 = some c2)
    (hc3 : yjkColour palette isYae (signed6 ((b1 &&& 7) + 8 * (b2 &&& 7)))
      (signed6 ((b3 &&& 7) + 8 * (b4 &&& 7))) b3 = some c3)
    (hc4 : yjkColour palette isYae (signed6 ((b1 &&& 7) + 8 * (b2 &&& 7)))
      (signed6 ((b3 &&& 7) + 8 * (b4 &&& 7))) b4 = some c4) :
    decodeYaeYjk.group header palette isYae width y q img =
      .ok ((((img.Set (q * 4) y c1).Set (q * 4 + 1) y c2).Set (q * 4 + 2) y c3).Set
        (q * 4 + 3) y c4) := by
  have ek := signed6_field b1 b2
  have ej := signed6_field b3 b4
  simp only at ek ej
  unfold decodeYaeYjk.group
  simp only [Nat.add_zero, h1, h2, h3, h4, ek, ej]
  have p0 := fun t => yjkPixel_eq header palette isYae (y * width + q * 4) (q * 4) y _ _ 0 t
    b1 c1 (by simpa using h1) hc1
  have p1 := fun t => yjkPixel_eq header palette isYae (y * width + q * 4) (q * 4) y _ _ 1 t
    b2 c2 h2 hc2
  have p2 := fun t => yjkPixel_eq header palette isYae (y * width + q * 4) (q * 4) y _ _ 2 t
    b3 c3 h3 hc3
  have p3 := fun t => yjkPixel_eq header palette isYae (y * width + q * 4) (q * 4) y _ _ 3 t
    b4 c4 h4 hc4
  simp only [forRange, p0, p1, p2, p3, Nat.add_zero, Nat.zero_add]

/-- C23: for a group of four payload bytes `b1..b4` that `decodeYaeYjk` processes, with
`k = (b1 & 7) + 8 * (b2 & 7)` and `j = (b3 & 7) + 8 * (b4 & 7)`, each reduced by 64 above
31: both lie in -32..31; the luma `b >> 3` is at most 31 and `(b >> 3) >> 1` is below 16;
every clamped value is a valid index of the 32-entry table; and the group body sets the
four pixels to `yjkColour`: the palette entry `y >> 1` for the escape variant with an odd
luma, otherwise `(T5[clamp(y+j)], T5[clamp(y+k)], T5[clamp(5*y/4 - j/2 - k/4)])` with
divisions that truncate toward zero. -/
theorem C23_yjk_group (header : screenHeader) (palette : List RGBA) (isYae : Bool)
    (width y q : Nat) (img : RGBAImage) (b1 b2 b3 b4 : Nat)
    (h1 : header.pixels[y * width + q * 4]? = some b1)
    (h2 : header.pixels[y * width + q * 4 + 1]? = some b2)
    (h3 : header.pixels[y * width + q * 4 + 2]? = some b3)
    (h4 : header.pixels[y * width + q * 4 + 3]? = some b4)
    (hb : b1 < 256 ∧ b2 < 256 ∧ b3 < 256 ∧ b4 < 256)
    (hpal : isYae = true → palette.length = 16) :
    (-32 ≤ signed6 ((b1 &&& 7) + 8 * (b2 &&& 7)) ∧
      signed6 ((b1 &&& 7) + 8 * (b2 &&& 7)) ≤ 31) ∧
    (-32 ≤ signed6 ((b3 &&& 7) + 8 * (b4 &&& 7)) ∧
      signed6 ((b3 &&& 7) + 8 * (b4 &&& 7)) ≤ 31) ∧
    (∀ b, b < 256 → b >>> 3 ≤ 31 ∧ (b >>> 3) >>> 1 < 16) ∧
    (∀ v : Int, 0 ≤ clamp v 0 31 ∧ clamp v 0 31 ≤ 31 ∧
      (clamp v 0 31).toNat < color5bitsLookupTable.length) ∧
    ∃ c1 c2 c3 c4,
      yjkColour palette isYae (signed6 ((b1 &&& 7) + 8 * (b2 &&& 7)))
        (signed6 ((b3 &&& 7) + 8 * (b4 &&& 7))) b1 = some c1 ∧
      yjkColour palette isYae (signed6 ((b1 &&& 7) + 8 * (b2 &&& 7)))
        (signed6 ((b3 &&& 7) + 8 * (b4 &&& 7))) b2 = some c2 ∧
      yjkColour palette isYae (signed6 ((b1 &&& 7) + 8 * (b2 &&& 7)))
        (signed6 ((b3 &&& 7) + 8 * (b4 &&& 7))) b3 = some c3 ∧
      yjkColour palette isYae (signed6 ((b1 &&& 7) + 8 * (b2 &&& 7)))
        (signed6 ((b3 &&& 7) + 8 * (b4 &&& 7))) b4 = some c4 ∧
      decodeYaeYjk.group header palette isYae width y q img =
        .ok ((((img.Set (q * 4) y c1).Set (q * 4 + 1) y c2).Set (q * 4 + 2) y c3).Set
          (q * 4 + 3) y c4) := by
  obtain ⟨c1, hc1⟩ := yjkColour_some palette isYae (signed6 ((b1 &&& 7) + 8 * (b2 &&& 7)))
    (signed6 ((b3 &&& 7) + 8 * (b4 &&& 7))) b1 hb.1 hpal
  obtain ⟨c2, hc2⟩ := yjkColour_some palette isYae (signed6 ((b1 &&& 7) + 8 * (b2 &&& 7)))
    (signed6 ((b3 &&& 7) + 8 * (b4 &&& 7))) b2 hb.2.1 hpal
  obtain ⟨c3, hc3⟩ := yjkColour_some palette isYae (signed6 ((b1 &&& 7) + 8 * (b2 &&& 7)))
    (signed6 ((b3 &&& 7) + 8 * (b4 &&& 7))) b3 hb.2.2.1 hpal
  obtain ⟨c4, hc4⟩ := yjkColour_some palette isYae (signed6 ((b1 &&& 7) + 8 * (b2 &&& 7)))
    (signed6 ((b3 &&& 7) + 8 * (b4 &&& 7))) b4 hb.2.2.2 hpal
  exact ⟨signed6_bounds b1 b2, signed6_bounds b3 b4, fun b h => luma_bounds b h,
    fun v => clamp_bounds v, c1, c2, c3, c4, hc1, hc2, hc3, hc4,
    yjkGroup_eq header palette isYae width y q img b1 b2 b3 b4 c1 c2 c3 c4 h1 h2 h3 h4
      hc1 hc2 hc3 hc4⟩

/-- C23, instance: the group `0F 17 FC 00` with the escape variant and the grey palette.
The first pixel has the odd luma 1 and is palette entry 0; the others are computed from
`k = -1` and `j = 4`. -/
theorem C23_yjk_group_witness :
    signed6 ((0x0F &&& 7) + 8 * (0x17 &&& 7)) = -1 ∧
    signed6 ((0xFC &&& 7) + 8 * (0x00 &&& 7)) = 4 ∧
    yjkColour greyPalette true (-1) 4 0x0F = some ⟨0, 0, 0, 255⟩ ∧
    yjkColour greyPalette true (-1) 4 0x17 = some ⟨49, 8, 0, 255⟩ ∧
    ∃ c1 c2 c3 c4,
      yjkColour greyPalette true (signed6 ((0x0F &&& 7) + 8 * (0x17 &&& 7)))
        (signed6 ((0xFC &&& 7) + 8 * (0x00 &&& 7))) 0x0F = some c1 ∧
      yjkColour greyPalette true (signed6 ((0x0F &&& 7) + 8 * (0x17 &&& 7)))
        (signed6 ((0xFC &&& 7) + 8 * (0x00 &&& 7))) 0x17 = some c2 ∧
      yjkColour greyPalette true (signed6 ((0x0F &&& 7) + 8 * (0x17 &&& 7)))
        (signed6 ((0xFC &&& 7) + 8 * (0x00 &&& 7))) 0xFC = some c3 ∧
      yjkColour greyPalette true (signed6 ((0x0F &&& 7) + 8 * (0x17 &&& 7)))
        (signed6 ((0xFC &&& 7) + 8 * (0x00 &&& 7))) 0x00 = some c4 ∧
      decodeYaeYjk.group yjkGroupHeader greyPalette true 4 0 0 (NewRGBA 4 1) =
        .ok (((((NewRGBA 4 1).Set (0 * 4) 0 c1).Set (0 * 4 + 1) 0 c2).Set (0 * 4 + 2) 0 c3).Set
          (0 * 4 + 3) 0 c4) :=
  ⟨by decide, by decide, by decide, by decide,
    (C23_yjk_group yjkGroupHeader greyPalette true 4 0 0 (NewRGBA 4 1) 0x0F 0x17 0xFC 0x00
      (by decide) (by decide) (by decide) (by decide) (by decide) (fun _ => by decide)).2.2.2.2⟩

/-! ## Claims on the decoder registry -/

theorem lookup_none (l : List (String × Decoder)) (f : String)
    (h : f ∉ l.map fun kv => kv.1) : l.lookup f = none := by
  induction l with
  | nil => rfl
  | cons kv rest ih =>
    obtain ⟨k, d⟩ := kv
    simp only [List.map_cons, List.mem_cons, not_or] at h
    have hne : (f == k) = false := by simpa using h.1
    simp only [List.lookup, hne]
    exact ih h.2

theorem lookup_filter_ne (l : List (String × Decoder)) (f g : String) (h : g ≠ f) :
    (l.filter fun kv => kv.1 ≠ f).lookup g = l.lookup g := by
  induction l with
  | nil => rfl
  | cons kv rest ih =>
    obtain ⟨k, d⟩ := kv
    by_cases hk : k = f
    · subst hk
      have hne : (g == k) = false := by simpa using h
      simp only [List.filter, ne_eq, not_true_eq_false, decide_False, List.lookup, hne]
      exact ih
    · simp only [List.filter, ne_eq, hk, not_false_eq_true, decide_True, List.lookup]
      cases hg : g == k with
      | true => rfl
      | false => exact ih

theorem newRegistry_decoders :
    NewRegistry.decoders =
      [("CMP", .cmpDecoder), ("STP", .stpDecoder), ("S12", .screen12Decoder),
       ("S10", .screen10Decoder), ("SC8", .screen8Decoder), ("SC7", .screen7Decoder),
       ("SC5", .screen5Decoder), ("WB2", .wbass2Decoder), ("BAS", .msxbasicDecoder)] := by
  decide

/-- C29: on the registry of `NewRegistry`, `GetDecoder f` succeeds exactly for the nine
keys; for every other `f` it fails with the message `"unknown file format: " ++ f`, which
contains "unknown file format" and `f`; `GetSupportedFormats` is a rearrangement of the
nine keys without a repetition. On every registry, `GetDecoder f` after `Register f d`
returns `d`, and the lookup of every other key is unchanged. -/
theorem C29_registry_finite_map :
    (∀ f, (∃ d, NewRegistry.GetDecoder f = .ok d) ↔
      f ∈ ["BAS", "WB2", "SC5", "SC7", "SC8", "S10", "S12", "STP", "CMP"]) ∧
    (∀ f, f ∉ ["BAS", "WB2", "SC5", "SC7", "SC8", "S10", "S12", "STP", "CMP"] →
      NewRegistry.GetDecoder f = .error ("unknown file format: " ++ f) ∧
      (∃ a b, "unknown file format: " ++ f = a ++ "unknown file format" ++ b) ∧
      (∃ a b, "unknown file format: " ++ f = a ++ f ++ b)) ∧
    NewRegistry.GetSupportedFormats.Perm
      ["BAS", "WB2", "SC5", "SC7", "SC8", "S10", "S12", "STP", "CMP"] ∧
    NewRegistry.GetSupportedFormats.Nodup ∧
    (∀ (r : Registry) f d, (r.Register f d).GetDecoder f = .ok d) ∧
    (∀ (r : Registry) f d g, g ≠ f → (r.Register f d).GetDecoder g = r.GetDecoder g) := by
  have hnone : ∀ f, f ∉ ["BAS", "WB2", "SC5", "SC7", "SC8", "S10", "S12", "STP", "CMP"] →
      NewRegistry.GetDecoder f = .error ("unknown file format: " ++ f) := by
    intro f hf
    unfold Registry.GetDecoder
    rw [lookup_none NewRegistry.decoders f (by
      rw [newRegistry_decoders]
      simp only [List.map_cons, List.map_nil, List.mem_cons, List.mem_singleton,
        List.not_mem_nil, or_false] at hf ⊢
      tauto)]
  refine ⟨?_, ?_, ?_, ?_, ?_, ?_⟩
  · intro f
    constructor
    · rintro ⟨d, hd⟩
      by_contra hf
      rw [hnone f hf] at hd
      cases hd
    · intro hf
      simp only [List.mem_cons, List.mem_singleton, List.not_mem_nil, or_false] at hf
      rcases hf with h | h | h | h | h | h | h | h | h <;> subst h
      · exact ⟨.msxbasicDecoder, by decide⟩
      · exact ⟨.wbass2Decoder, by decide⟩
      · exact ⟨.screen5Decoder, by decide⟩
      · exact ⟨.screen7Decoder, by decide⟩
      · exact ⟨.screen8Decoder, by decide⟩
      · exact ⟨.screen10Decoder, by decide⟩
      · exact ⟨.screen12Decoder, by decide⟩
      · exact ⟨.stpDecoder, by decide⟩
      · exact ⟨.cmpDecoder, by decide⟩
  · intro f hf
    refine ⟨hnone f hf, ⟨"", ": " ++ f, ?_⟩, ⟨"unknown file format: ", "", ?_⟩⟩
    · rw [String.append_assoc, String.empty_append, ← String.append_assoc]
      rfl
    · rw [String.append_empty]
  · decide
  · decide
  · intro r f d
    simp [Registry.Register, Registry.GetDecoder, List.lookup]
  · intro r f d g hg
    have hne : (g == f) = false := by simpa using hg
    simp only [Registry.Register, Registry.GetDecoder, List.lookup, hne]
    rw [lookup_filter_ne r.decoders f g hg]

/-- C29, instance: the key "UNKNOWN" of `TestGetDecoder` is rejected, and the second
registration under "TEST" of `TestRegister` replaces the first. -/
theorem C29_registry_finite_map_witness :
    NewRegistry.GetDecoder "UNKNOWN" = .error ("unknown file format: " ++ "UNKNOWN") ∧
    ((({ decoders := [] } : Registry).Register "TEST" .msxbasicDecoder).Register "TEST"
      .screen5Decoder).GetDecoder "TEST" = .ok .screen5Decoder :=
  ⟨(C29_registry_finite_map.2.1 "UNKNOWN" (by decide)).1,
    C29_registry_finite_map.2.2.2.2.1 _ "TEST" .screen5Decoder⟩

/-! ## Claims on external palette files -/

theorem leUint16_at (data : List Nat) (k : Nat) (hb : IsBytes data) :
    littleEndianUint16 ((data.drop k).take 2) = data.getD k 0 + 256 * data.getD (k + 1) 0 := by
  rw [leUint16_window, leUint16_bytes _ _ (getD_isBytes data hb k) (getD_isBytes data hb (k + 1))]

theorem processPaletteFile_eq (data : List Nat) (hb : IsBytes data) :
    ProcessPaletteFile data =
      if data.length = 0 then .error .empty
      else if data.length = 32 then .ok data
      else if data.getD 0 0 = 0xFE then
        if data.length < 7 then .error (.headerTooSmall data.length)
        else if data.length = 39 then .ok (data.drop 7)
        else if data.getD 3 0 + 256 * data.getD 4 0 ≥ 0x769F then
          if 0x7680 < data.getD 1 0 + 256 * data.getD 2 0 then
            .error (.paletteBeforeBegin (data.getD 1 0 + 256 * data.getD 2 0))
          else if data.length < 0x7680 - (data.getD 1 0 + 256 * data.getD 2 0) + 7 + 32 then
            .error (.noRoomForPalette
              (0x7680 - (data.getD 1 0 + 256 * data.getD 2 0) + 7 + 32) data.length)
          else .ok ((data.drop (0x7680 - (data.getD 1 0 + 256 * data.getD 2 0) + 7)).take 32)
        else .error (.notPaletteNorScreen5 (data.length - 7))
      else .error (.notRecognized data.length) := by
  unfold ProcessPaletteFile isScreen5File extractScreen5Palette
  simp only [leUint16_at data _ hb, BinaryHeaderSize, PaletteSize, SC5PaletteOffset,
    MagicByteBinary, List.length_drop, Nat.reduceAdd]
  by_cases h0 : data.length = 0
  · simp only [if_pos h0]
  · simp only [if_neg h0]
    by_cases h32 : data.length = 32
    · simp only [if_pos h32]
    · simp only [if_neg h32]
      by_cases hm : data.getD 0 0 = 0xFE
      · simp only [if_pos hm]
        by_cases h7 : data.length < 7
        · simp only [if_pos h7]
        · simp only [if_neg h7]
          by_cases h39 : data.length = 39
          · rw [if_pos (by omega), if_pos h39]
          · rw [if_neg (by omega), if_neg h39]
            simp only [ne_eq, hm, not_true_eq_false, if_false]
            by_cases he : data.getD 3 0 + 256 * data.getD 4 0 ≥ 0x769F
            · simp only [if_pos he, if_true]
              by_cases hbeg : 0x7680 < data.getD 1 0 + 256 * data.getD 2 0
              · simp only [if_pos hbeg]
              · simp only [if_neg hbeg]
                have e1 : (0x7680 + 65536 - (data.getD 1 0 + 256 * data.getD 2 0)) % 65536 =
                    0x7680 - (data.getD 1 0 + 256 * data.getD 2 0) := by omega
                rw [e1]
            · simp only [if_neg he, Bool.false_eq_true, if_false]
      · simp only [if_neg hm]

/-- C28: `ProcessPaletteFile` on a buffer of bytes, with `b` and `e` the begin and end
address of the header. (1) 32 bytes: the input itself. (2) first byte `0xFE` and 39 bytes:
the bytes 7..38. (3) first byte `0xFE`, at least 7 bytes, `e >= 0x769F`, `b <= 0x7680` and
length at least `(0x7680 - b) + 7 + 32`: the 32 bytes at offset `(0x7680 - b) + 7`. In every
other case the result is an error, and every successful result has 32 bytes. -/
theorem C28_palette_file_cases (data : List Nat) (hb : IsBytes data) :
    (data.length = 32 → ProcessPaletteFile data = .ok data) ∧
    (data.getD 0 0 = 0xFE → data.length = 39 →
      ProcessPaletteFile data = .ok ((data.drop 7).take 32)) ∧
    (data.getD 0 0 = 0xFE → 7 ≤ data.length →
      data.getD 3 0 + 256 * data.getD 4 0 ≥ 0x769F →
      data.getD 1 0 + 256 * data.getD 2 0 ≤ 0x7680 →
      0x7680 - (data.getD 1 0 + 256 * data.getD 2 0) + 7 + 32 ≤ data.length →
      ProcessPaletteFile data =
        .ok ((data.drop (0x7680 - (data.getD 1 0 + 256 * data.getD 2 0) + 7)).take 32)) ∧
    (data.length ≠ 32 → ¬ (data.getD 0 0 = 0xFE ∧ data.length = 39) →
      ¬ (data.getD 0 0 = 0xFE ∧ 7 ≤ data.length ∧
        data.getD 3 0 + 256 * data.getD 4 0 ≥ 0x769F ∧
        data.getD 1 0 + 256 * data.getD 2 0 ≤ 0x7680 ∧
        0x7680 - (data.getD 1 0 + 256 * data.getD 2 0) + 7 + 32 ≤ data.length) →
      ∃ err, ProcessPaletteFile data = .error err) ∧
    (∀ p, ProcessPaletteFile data = .ok p → p.length = 32) := by
  rw [processPaletteFile_eq data hb]
  refine ⟨?_, ?_, ?_, ?_, ?_⟩
  · intro h
    rw [if_neg (by omega), if_pos h]
  · intro hm h
    rw [if_neg (by omega), if_neg (by omega), if_pos hm, if_neg (by omega), if_pos h,
      List.take_of_length_le (by rw [List.length_drop]; omega)]
  · intro hm h7 he hbeg hlen
    rw [if_neg (by omega), if_neg (by omega), if_pos hm, if_neg (by omega)]
    by_cases h39 : data.length = 39
    · rw [if_pos h39]
      have e1 : 0x7680 - (data.getD 1 0 + 256 * data.getD 2 0) + 7 = 7 := by omega
      rw [e1, List.take_of_length_le (by rw [List.length_drop]; omega)]
    · rw [if_neg h39, if_pos he, if_neg (by omega), if_neg (by omega)]
  · intro h32 h2 h3
    by_cases h0 : data.length = 0
    · exact ⟨_, by rw [if_pos h0]⟩
    · rw [if_neg h0, if_neg h32]
      by_cases hm : data.getD 0 0 = 0xFE
      · rw [if_pos hm]
        by_cases h7 : data.length < 7
        · exact ⟨_, by rw [if_pos h7]⟩
        · rw [if_neg h7, if_neg (fun h => h2 ⟨hm, h⟩)]
          by_cases he : data.getD 3 0 + 256 * data.getD 4 0 ≥ 0x769F
          · rw [if_pos he]
            by_cases hbeg : 0x7680 < data.getD 1 0 + 256 * data.getD 2 0
            · exact ⟨_, by rw [if_pos hbeg]⟩
            · rw [if_neg hbeg]
              by_cases hlen :
                  data.length < 0x7680 - (data.getD 1 0 + 256 * data.getD 2 0) + 7 + 32
              · exact ⟨_, by rw [if_pos hlen]⟩
              · exact absurd ⟨hm, by omega, he, by omega, by omega⟩ h3
          · exact ⟨_, by rw [if_neg he]⟩
      · exact ⟨_, by rw [if_neg hm]⟩
  · intro p hp
    split at hp
    · cases hp
    · split at hp
      · cases hp; assumption
      · split at hp
        · split at hp
          · cases hp
          · split at hp
            · cases hp
              rw [List.length_drop]; omega
            · split at hp
              · split at hp
                · cases hp
                · split at hp
                  · cases hp
                  · cases hp
                    rw [List.length_take, List.length_drop]; omega
              · cases hp
        · cases hp

/-- C28, instance: the dump `paletteDump` with begin `0x767C` and end `0x769F` is case
(3): the palette is the 32 bytes at file offset `4 + 7`. -/
theorem C28_palette_file_cases_witness :
    ProcessPaletteFile paletteDump = .ok (List.replicate 32 7) :=
  (C28_palette_file_cases paletteDump (by decide)).2.2.1 (by decide) (by decide) (by decide)
    (by decide) (by decide)

/-! ## The stamp decoder: the pixel loops -/

theorem setColorIndex_wf (p : Paletted) (x y v : Nat) (h : p.WellFormed) :
    (p.SetColorIndex x y v).WellFormed := by
  obtain ⟨h1, h2, h3, h4⟩ := setColorIndex_dims p x y v
  unfold Paletted.WellFormed at h ⊢
  rw [h1, h2, h3, h4]
  exact h

theorem setColorIndex_palette (p : Paletted) (x y v : Nat) :
    (p.SetColorIndex x y v).Palette = p.Palette := by
  unfold Paletted.SetColorIndex
  split <;> rfl

theorem stpPixel_step (pixels : List Nat) (w h y x : Nat) (s : Paletted × Nat)
    (hy : y < h) (hx : x < w) (hroom : (w * h + 3) / 4 ≤ pixels.length)
    (hinv : StpInv pixels w h y x s) :
    ∃ s', DecodeSTP.pixel pixels y x s = .ok s' ∧ StpInv pixels w h y (x + 1) s' := by
  obtain ⟨hidx, hw, hh, hwf, hpal, hpix⟩ := hinv
  have hlt : y * w + x < w * h := idx_lt_total w h y x hx hy
  have hread : (y * w + x) / 4 < pixels.length := by omega
  unfold DecodeSTP.pixel
  simp only [hidx, List.getElem?_eq_getElem hread, Nat.and_one_is_mod]
  refine ⟨_, rfl, by simp only; omega, ?_, ?_, setColorIndex_wf _ _ _ _ hwf, ?_, ?_⟩
  · simp only [(setColorIndex_dims s.1 x y _).1, hw]
  · simp only [(setColorIndex_dims s.1 x y _).2.1, hh]
  · simp only [setColorIndex_palette, hpal]
  · intro x' y' hx' hbefore
    simp only [colorIndexAt_set s.1 x y _ x' y' hwf.1 hwf.2]
    by_cases hnew : x' = x ∧ y' = y
    · obtain ⟨e1, e2⟩ := hnew
      subst e1 e2
      rw [if_pos ⟨rfl, rfl, by omega, by omega⟩]
      exact ⟨pixels[(y' * w + x') / 4], List.getElem?_eq_getElem hread, by omega⟩
    · rw [if_neg (fun hc => hnew ⟨hc.1, hc.2.1⟩)]
      exact hpix x' y' hx' (by omega)

theorem stpUnpack_spec (pixels : List Nat) (w h : Nat)
    (hroom : (w * h + 3) / 4 ≤ pixels.length) :
    ∃ img, DecodeSTP.unpack w h pixels = .ok img ∧ StpInv pixels w h h 0 (img, h * w) := by
  have h0 : StpInv pixels w h 0 0 (NewPaletted w h DecodeSTP.palette, 0) := by
    refine ⟨by simp, rfl, rfl, ⟨rfl, by simp [NewPaletted]⟩, rfl, ?_⟩
    intro x' y' _ hb
    omega
  obtain ⟨s', hs', hP⟩ := forRange_spec
    (fun y s => forRange (DecodeSTP.pixel pixels y) w 0 s)
    (fun y s => StpInv pixels w h y 0 s) h 0 _ h0 (by
      intro y t _ hy hP
      obtain ⟨t', ht', hQ⟩ := forRange_spec (DecodeSTP.pixel pixels y)
        (fun x s => StpInv pixels w h y x s) w 0 t hP (by
          intro x u _ hx hQ
          exact stpPixel_step pixels w h y x u (by omega) (by omega) hroom hQ)
      refine ⟨t', ht', ?_⟩
      obtain ⟨hidx, hw, hh, hwf, hpal, hpix⟩ := hQ
      refine ⟨by rw [hidx, Nat.succ_mul]; omega, hw, hh, hwf, hpal, ?_⟩
      intro x' y' hx' hb
      exact hpix x' y' hx' (by omega))
  unfold DecodeSTP.unpack
  rw [hs']
  rw [Nat.zero_add] at hP
  obtain ⟨s1, s2⟩ := s'
  obtain ⟨hidx, rest⟩ := hP
  simp only [Nat.add_zero] at hidx
  subst hidx
  exact ⟨s1, rfl, by simp, rest.1, rest.2.1, rest.2.2.1, rest.2.2.2.1, rest.2.2.2.2⟩

/-! ## Row duplication and 2x magnification -/

theorem heightPixel_step (img : Paletted) (w h y x : Nat) (out : Paletted)
    (hy : y < h) (hx : x < w) (hinv : HeightInv img w h y x out) :
    HeightInv img w h y (x + 1) (doubleHeightPaletted.pixel img y x out) := by
  obtain ⟨hw, hh, hwf, hpal, hpix⟩ := hinv
  unfold doubleHeightPaletted.pixel
  simp only
  have hwf1 := setColorIndex_wf out x (y * 2) (img.ColorIndexAt x y) hwf
  have d1 := setColorIndex_dims out x (y * 2) (img.ColorIndexAt x y)
  have d2 := setColorIndex_dims (out.SetColorIndex x (y * 2) (img.ColorIndexAt x y)) x
    (y * 2 + 1) (img.ColorIndexAt x y)
  refine ⟨by rw [d2.1, d1.1, hw], by rw [d2.2.1, d1.2.1, hh], setColorIndex_wf _ _ _ _ hwf1,
    by rw [setColorIndex_palette, setColorIndex_palette, hpal], ?_⟩
  intro X Y hX hb
  rw [colorIndexAt_set _ _ _ _ X Y hwf1.1 hwf1.2, colorIndexAt_set _ _ _ _ X Y hwf.1 hwf.2,
    d1.1, d1.2.1, hw, hh]
  by_cases h1 : X = x ∧ Y = y * 2 + 1 ∧ x < w ∧ y * 2 + 1 < h * 2
  · rw [if_pos h1, h1.1, show Y / 2 = y by omega]
  · rw [if_neg h1]
    by_cases h2 : X = x ∧ Y = y * 2 ∧ x < w ∧ y * 2 < h * 2
    · rw [if_pos h2, h2.1, show Y / 2 = y by omega]
    · rw [if_neg h2]
      exact hpix X Y hX (by omega)

theorem doubleHeight_spec (w h : Nat) (img : Paletted) :
    HeightInv img w h h 0 (doubleHeightPaletted w h img) := by
  have h0 : HeightInv img w h 0 0 (NewPaletted w (h * 2) img.Palette) := by
    refine ⟨rfl, rfl, ⟨rfl, by simp [NewPaletted]⟩, rfl, ?_⟩
    intro X Y _ hb
    omega
  have := forCount_inv (fun y d => forCount (doubleHeightPaletted.pixel img y) w 0 d)
    (fun y d => HeightInv img w h y 0 d) h 0 _ h0 (by
      intro y t _ hy hP
      have hQ := forCount_inv (doubleHeightPaletted.pixel img y)
        (fun x d => HeightInv img w h y x d) w 0 t hP (by
          intro x u _ hx hQ
          exact heightPixel_step img w h y x u (by omega) (by omega) hQ)
      obtain ⟨hw, hh, hwf, hpal, hpix⟩ := hQ
      refine ⟨hw, hh, hwf, hpal, ?_⟩
      intro X Y hX hb
      exact hpix X Y hX (by omega))
  rw [Nat.zero_add] at this
  exact this

theorem set4_dims (p : Paletted) (x y v : Nat) (hwf : p.WellFormed) :
    ((((p.SetColorIndex (x * 2) (y * 2) v).SetColorIndex (x * 2 + 1) (y * 2) v).SetColorIndex
      (x * 2) (y * 2 + 1) v).SetColorIndex (x * 2 + 1) (y * 2 + 1) v).width = p.width ∧
    ((((p.SetColorIndex (x * 2) (y * 2) v).SetColorIndex (x * 2 + 1) (y * 2) v).SetColorIndex
      (x * 2) (y * 2 + 1) v).SetColorIndex (x * 2 + 1) (y * 2 + 1) v).height = p.height ∧
    ((((p.SetColorIndex (x * 2) (y * 2) v).SetColorIndex (x * 2 + 1) (y * 2) v).SetColorIndex
      (x * 2) (y * 2 + 1) v).SetColorIndex (x * 2 + 1) (y * 2 + 1) v).WellFormed ∧
    ((((p.SetColorIndex (x * 2) (y * 2) v).SetColorIndex (x * 2 + 1) (y * 2) v).SetColorIndex
      (x * 2) (y * 2 + 1) v).SetColorIndex (x * 2 + 1) (y * 2 + 1) v).Palette = p.Palette := by
  refine ⟨?_, ?_, ?_, ?_⟩
  · simp only [(setColorIndex_dims _ _ _ _).1]
  · simp only [(setColorIndex_dims _ _ _ _).2.1]
  · exact setColorIndex_wf _ _ _ _ (setColorIndex_wf _ _ _ _
      (setColorIndex_wf _ _ _ _ (setColorIndex_wf _ _ _ _ hwf)))
  · simp only [setColorIndex_palette]

theorem set4_colorIndexAt (p : Paletted) (x y v X Y : Nat) (hwf : p.WellFormed)
    (hx : x * 2 + 1 < p.width) (hy : y * 2 + 1 < p.height) :
    ((((p.SetColorIndex (x * 2) (y * 2) v).SetColorIndex (x * 2 + 1) (y * 2) v).SetColorIndex
      (x * 2) (y * 2 + 1) v).SetColorIndex (x * 2 + 1) (y * 2 + 1) v).ColorIndexAt X Y =
      if X / 2 = x ∧ Y / 2 = y then v else p.ColorIndexAt X Y := by
  have w1 := setColorIndex_wf p (x * 2) (y * 2) v hwf
  have w2 := setColorIndex_wf _ (x * 2 + 1) (y * 2) v w1
  have w3 := setColorIndex_wf _ (x * 2) (y * 2 + 1) v w2
  rw [colorIndexAt_set _ _ _ _ X Y w3.1 w3.2, colorIndexAt_set _ _ _ _ X Y w2.1 w2.2,
    colorIndexAt_set _ _ _ _ X Y w1.1 w1.2, colorIndexAt_set _ _ _ _ X Y hwf.1 hwf.2]
  simp only [(setColorIndex_dims _ _ _ _).1, (setColorIndex_dims _ _ _ _).2.1]
  by_cases hq : X / 2 = x ∧ Y / 2 = y
  · rw [if_pos hq]
    split_ifs <;> first | rfl | (exfalso; omega)
  · rw [if_neg hq]
    split_ifs <;> first | rfl | (exfalso; omega)

theorem paletted_at (p : Paletted) (x y : Nat) (c : RGBA) (hwf : p.WellFormed)
    (hc : p.Palette[p.ColorIndexAt x y]? = some c) : p.At x y = .ok (some c) := by
  have hlen : p.ColorIndexAt x y < p.Palette.length := by
    by_contra hn
    rw [List.getElem?_eq_none (Nat.le_of_not_lt hn)] at hc
    cases hc
  unfold Paletted.At
  rw [if_neg (by omega)]
  unfold Paletted.ColorIndexAt at hc
  by_cases hin : x < p.width ∧ y < p.height
  · rw [if_pos hin] at hc
    rw [if_neg (not_not.mpr hin)]
    have hidx : y * p.Stride + x < p.Pix.length := by
      rw [hwf.1, hwf.2]
      exact idx_lt_total p.width p.height y x hin.1 hin.2
    rw [List.getD_eq_getElem?_getD, List.getElem?_eq_getElem hidx] at hc
    simp only [Option.getD_some] at hc
    simp only [List.getElem?_eq_getElem hidx, hc]
  · rw [if_neg hin] at hc
    rw [if_pos hin]
    simp only [hc]

theorem paletted_set (p : Paletted) (x y : Nat) (c : RGBA) :
    p.Set x y (some c) = .ok (p.SetColorIndex x y (PaletteIndex p.Palette c % 256)) := by
  unfold Paletted.Set Paletted.SetColorIndex
  by_cases hin : x < p.width ∧ y < p.height
  · rw [if_neg (not_not.mpr hin), if_pos hin]
  · rw [if_pos hin, if_neg hin]

theorem doublePixel_step (img : Paletted) (w h y x : Nat) (out : Paletted)
    (hy : y < h) (hx : x < w) (hwf : img.WellFormed)
    (hval : ∀ x y, x < w → y < h → ∃ c, img.Palette[img.ColorIndexAt x y]? = some c)
    (hinv : DoubleInv img w h y x out) :
    ∃ out', doubleSizePaletted.pixel img y x out = .ok out' ∧
      DoubleInv img w h y (x + 1) out' := by
  obtain ⟨hw, hh, hwfo, hpal, hpix⟩ := hinv
  obtain ⟨c, hc⟩ := hval x y hx hy
  unfold doubleSizePaletted.pixel
  simp only [paletted_at img x y c hwf hc, Except.bind, paletted_set, setColorIndex_palette,
    hpal]
  obtain ⟨e1, e2, e3, e4⟩ := set4_dims out x y (PaletteIndex img.Palette c % 256) hwfo
  refine ⟨_, rfl, by rw [e1, hw], by rw [e2, hh], e3, by rw [e4, hpal], ?_⟩
  intro X Y hX hb
  rw [set4_colorIndexAt out x y _ X Y hwfo (by omega) (by omega)]
  by_cases hq : X / 2 = x ∧ Y / 2 = y
  · rw [if_pos hq, hq.1, hq.2]
    exact ⟨c, hc, rfl⟩
  · rw [if_neg hq]
    exact hpix X Y hX (by omega)

theorem doubleSizePaletted_spec (w h : Nat) (img : Paletted) (hwf : img.WellFormed)
    (hval : ∀ x y, x < w → y < h → ∃ c, img.Palette[img.ColorIndexAt x y]? = some c) :
    ∃ out, doubleSizePaletted w h img = .ok out ∧ DoubleInv img w h h 0 out := by
  have h0 : DoubleInv img w h 0 0 (NewPaletted (w * 2) (h * 2) img.Palette) := by
    refine ⟨rfl, rfl, ⟨rfl, by simp [NewPaletted]⟩, rfl, ?_⟩
    intro X Y _ hb
    omega
  obtain ⟨out, ho, hP⟩ := forRange_spec
    (fun y d => forRange (doubleSizePaletted.pixel img y) w 0 d)
    (fun y d => DoubleInv img w h y 0 d) h 0 _ h0 (by
      intro y t _ hy hP
      obtain ⟨t', ht', hQ⟩ := forRange_spec (doubleSizePaletted.pixel img y)
        (fun x d => DoubleInv img w h y x d) w 0 t hP (by
          intro x u _ hx hQ
          exact doublePixel_step img w h y x u (by omega) (by omega) hwf hval hQ)
      refine ⟨t', ht', ?_⟩
      obtain ⟨hw, hh, hwfo, hpal, hpix⟩ := hQ
      refine ⟨hw, hh, hwfo, hpal, ?_⟩
      intro X Y hX hb
      exact hpix X Y hX (by omega))
  rw [Nat.zero_add] at hP
  exact ⟨out, ho, hP⟩

theorem rgbaSet_dims (p : RGBAImage) (x y : Nat) (c : RGBA) :
    (p.Set x y c).width = p.width ∧ (p.Set x y c).height = p.height ∧
    (p.Set x y c).Pix.length = p.Pix.length := by
  unfold RGBAImage.Set
  split
  · exact ⟨rfl, rfl, by simp⟩
  · exact ⟨rfl, rfl, rfl⟩

theorem rgbaSet_wf (p : RGBAImage) (x y : Nat) (c : RGBA)
    (h : p.Pix.length = p.width * p.height) :
    (p.Set x y c).Pix.length = (p.Set x y c).width * (p.Set x y c).height := by
  obtain ⟨h1, h2, h3⟩ := rgbaSet_dims p x y c
  rw [h1, h2, h3]
  exact h

theorem rgbaAt_set (p : RGBAImage) (x y : Nat) (c : RGBA) (X Y : Nat)
    (hlen : p.Pix.length = p.width * p.height) :
    (p.Set x y c).RGBAAt X Y =
      if X = x ∧ Y = y ∧ x < p.width ∧ y < p.height then c else p.RGBAAt X Y := by
  unfold RGBAImage.Set RGBAImage.RGBAAt
  by_cases hin : x < p.width ∧ y < p.height
  · obtain ⟨hxw, hyh⟩ := hin
    simp only [if_pos (And.intro hxw hyh)]
    by_cases hin' : X < p.width ∧ Y < p.height
    · obtain ⟨hxw', hyh'⟩ := hin'
      simp only [if_pos (And.intro hxw' hyh'), getD_set_gen, hlen]
      have hidx : y * p.width + x < p.width * p.height :=
        idx_lt_total p.width p.height y x hxw hyh
      by_cases heq : X = x ∧ Y = y
      · obtain ⟨e1, e2⟩ := heq
        subst e1 e2
        rw [if_pos ⟨rfl, hidx⟩, if_pos ⟨rfl, rfl, hxw, hyh⟩]
      · have hne : ¬ (y * p.width + x = Y * p.width + X ∧
            y * p.width + x < p.width * p.height) := by
          rintro ⟨h, _⟩
          obtain ⟨e1, e2⟩ := idx_inj p.width y x Y X hxw hxw' h
          exact heq ⟨e2.symm, e1.symm⟩
        rw [if_neg hne, if_neg (fun h => heq ⟨h.1, h.2.1⟩)]
    · have hne : ¬ (X = x ∧ Y = y ∧ x < p.width ∧ y < p.height) := by
        rintro ⟨e1, e2, _, _⟩
        subst e1 e2
        exact hin' ⟨hxw, hyh⟩
      simp only [if_neg hin', if_neg hne]
  · have hne : ¬ (X = x ∧ Y = y ∧ x < p.width ∧ y < p.height) :=
      fun h => hin ⟨h.2.2.1, h.2.2.2⟩
    simp only [if_neg hin, if_neg hne]

theorem rgbaSet4_at (p : RGBAImage) (x y : Nat) (c : RGBA) (X Y : Nat)
    (hlen : p.Pix.length = p.width * p.height)
    (hx : x * 2 + 1 < p.width) (hy : y * 2 + 1 < p.height) :
    ((((p.Set (x * 2) (y * 2) c).Set (x * 2 + 1) (y * 2) c).Set (x * 2) (y * 2 + 1) c).Set
      (x * 2 + 1) (y * 2 + 1) c).RGBAAt X Y =
      if X / 2 = x ∧ Y / 2 = y then c else p.RGBAAt X Y := by
  have w1 := rgbaSet_wf p (x * 2) (y * 2) c hlen
  have w2 := rgbaSet_wf _ (x * 2 + 1) (y * 2) c w1
  have w3 := rgbaSet_wf _ (x * 2) (y * 2 + 1) c w2
  rw [rgbaAt_set _ _ _ _ X Y w3, rgbaAt_set _ _ _ _ X Y w2, rgbaAt_set _ _ _ _ X Y w1,
    rgbaAt_set _ _ _ _ X Y hlen]
  simp only [(rgbaSet_dims _ _ _ _).1, (rgbaSet_dims _ _ _ _).2.1]
  by_cases hq : X / 2 = x ∧ Y / 2 = y
  · rw [if_pos hq]
    split_ifs <;> first | rfl | (exfalso; omega)
  · rw [if_neg hq]
    split_ifs <;> first | rfl | (exfalso; omega)

theorem doubleSizePixel_step (img : RGBAImage) (w h y x : Nat) (out : RGBAImage)
    (hy : y < h) (hx : x < w) (hinv : DoubleInvRGBA img w h y x out) :
    DoubleInvRGBA img w h y (x + 1) (doubleSize.pixel img y x out) := by
  obtain ⟨hw, hh, hlen, hpix⟩ := hinv
  unfold doubleSize.pixel
  simp only
  have w1 := rgbaSet_wf out (x * 2) (y * 2) (img.RGBAAt x y) hlen
  have w2 := rgbaSet_wf _ (x * 2 + 1) (y * 2) (img.RGBAAt x y) w1
  have w3 := rgbaSet_wf _ (x * 2) (y * 2 + 1) (img.RGBAAt x y) w2
  have w4 := rgbaSet_wf _ (x * 2 + 1) (y * 2 + 1) (img.RGBAAt x y) w3
  refine ⟨by simp only [(rgbaSet_dims _ _ _ _).1, hw],
    by simp only [(rgbaSet_dims _ _ _ _).2.1, hh], w4, ?_⟩
  intro X Y hX hb
  rw [rgbaSet4_at out x y _ X Y hlen (by omega) (by omega)]
  by_cases hq : X / 2 = x ∧ Y / 2 = y
  · rw [if_pos hq, hq.1, hq.2]
  · rw [if_neg hq]
    exact hpix X Y hX (by omega)

theorem doubleSize_spec (w h : Nat) (img : RGBAImage) :
    DoubleInvRGBA img w h h 0 (doubleSize w h img) := by
  have h0 : DoubleInvRGBA img w h 0 0 (NewRGBA (w * 2) (h * 2)) := by
    refine ⟨rfl, rfl, by simp [NewRGBA], ?_⟩
    intro X Y _ hb
    omega
  have := forCount_inv (fun y d => forCount (doubleSize.pixel img y) w 0 d)
    (fun y d => DoubleInvRGBA img w h y 0 d) h 0 _ h0 (by
      intro y t _ hy hP
      have hQ := forCount_inv (doubleSize.pixel img y)
        (fun x d => DoubleInvRGBA img w h y x d) w 0 t hP (by
          intro x u _ hx hQ
          exact doubleSizePixel_step img w h y x u (by omega) (by omega) hQ)
      obtain ⟨hw, hh, hlen, hpix⟩ := hQ
      refine ⟨hw, hh, hlen, ?_⟩
      intro X Y hX hb
      exact hpix X Y hX (by omega))
  rw [Nat.zero_add] at this
  exact this

/-! ## `Palette.Index` -/

theorem channel_eq (a : Nat) (h : a < 256) : RGBA.channel a = 257 * a := by
  unfold RGBA.channel
  have h1 : a ||| (a <<< 8) = 2 ^ 8 * a + a := by
    rw [Nat.mul_add_lt_is_or (by omega : a < 2 ^ 8) a, Nat.or_comm, Nat.shiftLeft_eq,
      Nat.mul_comm]
  rw [h1]
  omega

theorem sq_neg_mod (e : Nat) (he : 2 * e ≤ 4294967296) :
    ((4294967296 - e) * (4294967296 - e)) % 4294967296 = (e * e) % 4294967296 := by
  obtain ⟨f, hf⟩ : ∃ f, 4294967296 = 2 * e + f := ⟨4294967296 - 2 * e, by omega⟩
  have hd : 4294967296 - e = e + f := by omega
  have hsq : (e + f) * (e + f) = 4294967296 * f + e * e := by
    rw [hf]; ring
  rw [hd, hsq, Nat.mul_add_mod]

theorem sqDiff_lt (x y : Nat) : sqDiff x y < 2 ^ 30 := by
  unfold sqDiff
  simp only [Nat.shiftRight_eq_div_pow]
  omega

theorem sqDiff_self (x : Nat) : sqDiff x x = 0 := by
  unfold sqDiff
  have : (x + 2 ^ 32 - x) % 2 ^ 32 = 0 := by omega
  simp only [this]
  rfl

theorem sqDiff_pos_of_gap (x y : Nat) (hx : x ≤ 65535) (hy : y ≤ 65535)
    (hgap : x + 257 ≤ y ∨ y + 257 ≤ x) : 0 < sqDiff x y := by
  have key : ∀ e, 257 ≤ e → e ≤ 65535 → 0 < ((e * e) % 4294967296) >>> 2 := by
    intro e h1 h2
    have l1 : 257 * 257 ≤ e * e := Nat.mul_le_mul h1 h1
    have l2 : e * e ≤ 65535 * 65535 := Nat.mul_le_mul h2 h2
    rw [Nat.shiftRight_eq_div_pow, Nat.mod_eq_of_lt (by omega)]
    omega
  unfold sqDiff
  simp only [show (2 : Nat) ^ 32 = 4294967296 from rfl]
  rcases hgap with h | h
  · have hd : (x + 4294967296 - y) % 4294967296 = 4294967296 - (y - x) := by omega
    rw [hd, sq_neg_mod (y - x) (by omega)]
    exact key (y - x) (by omega) (by omega)
  · have hd : (x + 4294967296 - y) % 4294967296 = x - y := by omega
    rw [hd]
    exact key (x - y) (by omega) (by omega)

theorem sqDiff_channel (a b : Nat) (ha : a < 256) (hb : b < 256) :
    sqDiff (RGBA.channel a) (RGBA.channel b) = 0 ↔ a = b := by
  rw [channel_eq a ha, channel_eq b hb]
  constructor
  · intro h
    by_contra hne
    have := sqDiff_pos_of_gap (257 * a) (257 * b) (by omega) (by omega) (by omega)
    omega
  · intro h
    rw [h, sqDiff_self]

theorem paletteSum_zero (c v : RGBA) (hc : c.IsBytes) (hv : v.IsBytes) :
    PaletteIndex.sum c v = 0 ↔ c = v := by
  unfold PaletteIndex.sum
  have b1 := sqDiff_lt (RGBA.channel c.R) (RGBA.channel v.R)
  have b2 := sqDiff_lt (RGBA.channel c.G) (RGBA.channel v.G)
  have b3 := sqDiff_lt (RGBA.channel c.B) (RGBA.channel v.B)
  have b4 := sqDiff_lt (RGBA.channel c.A) (RGBA.channel v.A)
  have e1 := sqDiff_channel c.R v.R hc.1 hv.1
  have e2 := sqDiff_channel c.G v.G hc.2.1 hv.2.1
  have e3 := sqDiff_channel c.B v.B hc.2.2.1 hv.2.2.1
  have e4 := sqDiff_channel c.A v.A hc.2.2.2 hv.2.2.2
  constructor
  · intro h
    have h1 : sqDiff (RGBA.channel c.R) (RGBA.channel v.R) = 0 := by omega
    have h2 : sqDiff (RGBA.channel c.G) (RGBA.channel v.G) = 0 := by omega
    have h3 : sqDiff (RGBA.channel c.B) (RGBA.channel v.B) = 0 := by omega
    have h4 : sqDiff (RGBA.channel c.A) (RGBA.channel v.A) = 0 := by omega
    cases c
    cases v
    simp only [RGBA.mk.injEq]
    exact ⟨e1.mp h1, e2.mp h2, e3.mp h3, e4.mp h4⟩
  · intro h
    subst h
    simp only [sqDiff_self]
    rfl

theorem paletteLoop_first (c : RGBA) (hc : c.IsBytes) :
    ∀ (l : List RGBA) (i ret best n : Nat), 0 < best → (∀ v ∈ l, v.IsBytes) →
      l[n]? = some c → (∀ m, m < n → l[m]? ≠ some c) →
      PaletteIndex.loop c l i ret best = i + n := by
  intro l
  induction l with
  | nil => intro i ret best n _ _ hn; simp at hn
  | cons v rest ih =>
    intro i ret best n hbest hl hn hfirst
    have hv : v.IsBytes := hl v (List.mem_cons_self v rest)
    have hrest : ∀ u ∈ rest, u.IsBytes := fun u hu => hl u (List.mem_cons_of_mem v hu)
    cases n with
    | zero =>
      simp only [List.getElem?_cons_zero, Option.some.injEq] at hn
      subst hn
      have hz : PaletteIndex.sum v v = 0 := (paletteSum_zero v v hc hc).mpr rfl
      simp only [PaletteIndex.loop, hz, hbest, if_true, Nat.add_zero]
    | succ n =>
      simp only [List.getElem?_cons_succ] at hn
      have hne : PaletteIndex.sum c v ≠ 0 := by
        intro hz
        have := (paletteSum_zero c v hc hv).mp hz
        exact hfirst 0 (by omega) (by simp [this])
      have hfirst' : ∀ m, m < n → rest[m]? ≠ some c := by
        intro m hm
        have := hfirst (m + 1) (by omega)
        simpa using this
      simp only [PaletteIndex.loop, if_neg hne]
      split
      · rw [ih (i + 1) i _ n (by omega) hrest hn hfirst']
        omega
      · rw [ih (i + 1) ret best n hbest hrest hn hfirst']
        omega

theorem paletteIndex_first (p : List RGBA) (c : RGBA) (n : Nat)
    (hp : ∀ v ∈ p, v.IsBytes) (hn : p[n]? = some c) :
    PaletteIndex p c ≤ n ∧ p[PaletteIndex p c]? = some c ∧
    ∀ m, m < PaletteIndex p c → p[m]? ≠ some c := by
  have hex : ∃ k, p[k]? = some c := ⟨n, hn⟩
  have hc : c.IsBytes := by
    by_cases hlt : n < p.length
    · rw [List.getElem?_eq_getElem hlt] at hn
      cases hn
      exact hp _ (List.getElem_mem _)
    · rw [List.getElem?_eq_none (Nat.le_of_not_lt hlt)] at hn
      cases hn
  have hk := Nat.find_spec hex
  have hmin : ∀ m, m < Nat.find hex → p[m]? ≠ some c := fun m hm => Nat.find_min hex hm
  have heq : PaletteIndex p c = Nat.find hex := by
    unfold PaletteIndex
    rw [paletteLoop_first c hc p 0 0 _ (Nat.find hex) (by decide) hp hk hmin]
    omega
  rw [heq]
  exact ⟨Nat.find_le hn, hk, hmin⟩

/-! ## Claims on the stamp decoder and the image doubling -/

theorem stpPalette_get (i : Nat) (h : i ≤ 1) :
    ∃ c, DecodeSTP.palette[i]? = some c ∧ PaletteIndex DecodeSTP.palette c % 256 = i := by
  interval_cases i
  · exact ⟨⟨0, 0, 0, 255⟩, rfl, by decide⟩
  · exact ⟨⟨255, 255, 255, 255⟩, rfl, by decide⟩

theorem decodeSTP_accepted (data : List Nat) (config : Config) (W H : Nat)
    (hW : W = littleEndianUint16 ((data.drop 0).take 2))
    (hH : H = littleEndianUint16 ((data.drop 2).take 2))
    (hlen : 4 ≤ data.length) (hroom : (W * H + 3) / 4 ≤ (data.drop 4).length) :
    ∃ src, DecodeSTP.unpack W H (data.drop 4) = .ok src ∧
      StpInv (data.drop 4) W H H 0 (src, H * W) ∧
      ∃ out, DecodeSTP data config = .ok out ∧ out.Palette = DecodeSTP.palette ∧
        (config.DoubleImageSize = false → out.width = W ∧ out.height = H * 2 ∧
          ∀ x Y, x < W → Y < H * 2 → out.ColorIndexAt x Y = src.ColorIndexAt x (Y / 2)) ∧
        (config.DoubleImageSize = true → out.width = W * 2 ∧ out.height = H * 4 ∧
          ∀ X Y, X < W * 2 → Y < H * 4 →
            out.ColorIndexAt X Y = src.ColorIndexAt (X / 2) (Y / 4)) := by
  subst hW hH
  obtain ⟨src, hsrc, hinv⟩ := stpUnpack_spec (data.drop 4) _ _ hroom
  refine ⟨src, hsrc, hinv, ?_⟩
  obtain ⟨_, hsw, hsh, hswf, hspal, hspix⟩ := hinv
  simp only at hsw hsh hswf hspal hspix
  obtain ⟨hdw, hdh, hdwf, hdpal, hdpix⟩ := doubleHeight_spec
    (littleEndianUint16 ((data.drop 0).take 2)) (littleEndianUint16 ((data.drop 2).take 2)) src
  have hle : ∀ x y, x < littleEndianUint16 ((data.drop 0).take 2) →
      y < littleEndianUint16 ((data.drop 2).take 2) → src.ColorIndexAt x y ≤ 1 := by
    intro x y hx hy
    obtain ⟨b, _, hb⟩ := hspix x y hx (by omega)
    omega
  unfold DecodeSTP
  rw [if_neg (by omega)]
  simp only
  rw [if_neg (by omega), hsrc]
  simp only
  cases hd : config.DoubleImageSize with
  | false =>
    refine ⟨_, by simp, by rw [hdpal, hspal], fun _ => ⟨hdw, hdh, ?_⟩, fun hc => by cases hc⟩
    intro x Y hx hY
    exact hdpix x Y hx (by omega)
  | true =>
    obtain ⟨out, ho, how, hoh, howf, hopal, hopix⟩ := doubleSizePaletted_spec
      (littleEndianUint16 ((data.drop 0).take 2))
      (littleEndianUint16 ((data.drop 2).take 2) * 2) _ hdwf (by
        intro x y hx hy
        rw [hdpix x y hx (by omega), hdpal, hspal]
        obtain ⟨c, hc, _⟩ := stpPalette_get _ (hle x (y / 2) hx (by omega))
        exact ⟨c, hc⟩)
    rw [ho]
    refine ⟨out, by simp, by rw [hopal, hdpal, hspal], (fun hc => by cases hc),
      fun _ => ⟨how, by rw [hoh]; omega, ?_⟩⟩
    intro X Y hX hY
    obtain ⟨c, hc, hval⟩ := hopix X Y hX (by omega)
    rw [hdpix (X / 2) (Y / 2) (by omega) (by omega), hdpal, hspal] at hc
    rw [hdpal, hspal] at hval
    obtain ⟨c', hc', hidx⟩ := stpPalette_get _ (hle (X / 2) (Y / 2 / 2) (by omega) (by omega))
    rw [hc] at hc'
    cases hc'
    rw [hval, hidx, show Y / 2 / 2 = Y / 4 by omega]

/-- C24 (the code at a failing input): the stamp `01 00 01 00 80` has width 1, height 1
and the payload byte `0x80`, whose first 2-bit field is `10`, the sample 2. The code masks
the field with `0x01`, so it stores `1 - 0 = 1`: the palette index of the pixel is 1,
where the claim gives 0 for every non-zero sample. -/
theorem C24_counterexample :
    littleEndianUint16 ((stampTwo.drop 0).take 2) = 1 ∧
    littleEndianUint16 ((stampTwo.drop 2).take 2) = 1 ∧
    stampTwo.drop 4 = [0x80] ∧
    (0x80 >>> (6 - 2 * (0 % 4))) &&& 3 = 2 ∧
    DecodeSTP.unpack 1 1 [0x80] =
      .ok { Pix := [1], Stride := 1, width := 1, height := 1, Palette := DecodeSTP.palette } ∧
    ({ Pix := [1], Stride := 1, width := 1, height := 1,
       Palette := DecodeSTP.palette } : Paletted).ColorIndexAt 0 0 = 1 ∧
    DecodeSTP stampTwo plainConfig =
      .ok { Pix := [1, 1], Stride := 1, width := 1, height := 2,
            Palette := DecodeSTP.palette } := by
  decide

/-- C24 (amended): for every STP input that passes the two length checks and every pixel
`(x, y)` with number `n = y * W + x`, the payload byte `n div 4` exists and, with `s` the
2-bit sample `(byte >> (6 - 2 * (n mod 4))) & 3`, the palette index of the pixel is
`1 - (s mod 2)`: it is 1 for `s = 0` and `s = 2`, and 0 for `s = 1` and `s = 3`. -/
theorem C24_stp_sample_low_bit (data : List Nat) (W H : Nat)
    (hW : W = littleEndianUint16 ((data.drop 0).take 2))
    (hH : H = littleEndianUint16 ((data.drop 2).take 2))
    (hlen : 4 ≤ data.length) (hroom : (W * H + 3) / 4 ≤ (data.drop 4).length) :
    ∃ src, DecodeSTP.unpack W H (data.drop 4) = .ok src ∧
      ∀ x y, x < W → y < H →
        ∃ b, (data.drop 4)[(y * W + x) / 4]? = some b ∧
          src.ColorIndexAt x y = 1 - ((b >>> (6 - 2 * ((y * W + x) % 4))) &&& 3) % 2 ∧
          ((b >>> (6 - 2 * ((y * W + x) % 4))) &&& 3 = 0 ∨
            (b >>> (6 - 2 * ((y * W + x) % 4))) &&& 3 = 2 → src.ColorIndexAt x y = 1) ∧
          ((b >>> (6 - 2 * ((y * W + x) % 4))) &&& 3 = 1 ∨
            (b >>> (6 - 2 * ((y * W + x) % 4))) &&& 3 = 3 → src.ColorIndexAt x y = 0) := by
  obtain ⟨src, hsrc, hinv, _⟩ := decodeSTP_accepted data plainConfig W H hW hH hlen hroom
  refine ⟨src, hsrc, ?_⟩
  intro x y hx hy
  obtain ⟨b, hb, hval⟩ := hinv.2.2.2.2.2 x y hx (by omega)
  simp only at hval
  refine ⟨b, hb, ?_, ?_, ?_⟩
  · rw [hval, and3]; omega
  · rw [hval, and3]; omega
  · rw [hval, and3]; omega

/-- C24, instance: the stamp `02 00 01 00 10` of width 2 and height 1 with the samples 0
and 1. -/
theorem C24_stp_sample_low_bit_witness :
    ∃ src, DecodeSTP.unpack 2 1 (stampPair.drop 4) = .ok src ∧
      ∀ x y, x < 2 → y < 1 →
        ∃ b, (stampPair.drop 4)[(y * 2 + x) / 4]? = some b ∧
          src.ColorIndexAt x y = 1 - ((b >>> (6 - 2 * ((y * 2 + x) % 4))) &&& 3) % 2 ∧
          ((b >>> (6 - 2 * ((y * 2 + x) % 4))) &&& 3 = 0 ∨
            (b >>> (6 - 2 * ((y * 2 + x) % 4))) &&& 3 = 2 → src.ColorIndexAt x y = 1) ∧
          ((b >>> (6 - 2 * ((y * 2 + x) % 4))) &&& 3 = 1 ∨
            (b >>> (6 - 2 * ((y * 2 + x) % 4))) &&& 3 = 3 → src.ColorIndexAt x y = 0) :=
  C24_stp_sample_low_bit stampPair 2 1 (by decide) (by decide) (by decide) (by decide)

/-- C25: with `W` and `H` the two little-endian header fields, `DecodeSTP` returns the
error "file too small" for fewer than 4 bytes and the error "incomplete STP pixel data"
when the payload has fewer than `(W * H + 3) / 4` bytes, which is the least `k` with
`W * H <= 4 * k`. When both checks pass, `n div 4` is inside the payload for every
`n < W * H`, the pixel loops end without a panic, and `DecodeSTP` returns an image. -/
theorem C25_stp_length_validation (data : List Nat) (config : Config) (W H : Nat)
    (hW : W = littleEndianUint16 ((data.drop 0).take 2))
    (hH : H = littleEndianUint16 ((data.drop 2).take 2)) :
    (data.length < 4 → DecodeSTP data config = .error (.fileTooSmall data.length)) ∧
    (∀ k, (W * H + 3) / 4 ≤ k ↔ W * H ≤ 4 * k) ∧
    (4 ≤ data.length → (data.drop 4).length < (W * H + 3) / 4 →
      DecodeSTP data config =
        .error (.incompletePixelData (data.drop 4).length ((W * H + 3) / 4) W H)) ∧
    (4 ≤ data.length → (W * H + 3) / 4 ≤ (data.drop 4).length →
      (∀ n, n < W * H → n / 4 < (data.drop 4).length) ∧
      (∃ src, DecodeSTP.unpack W H (data.drop 4) = .ok src) ∧
      ∃ out, DecodeSTP data config = .ok out) := by
  refine ⟨?_, fun k => by omega, ?_, ?_⟩
  · intro h
    unfold DecodeSTP
    rw [if_pos h]
  · intro h4 hshort
    subst hW hH
    unfold DecodeSTP
    rw [if_neg (by omega)]
    simp only
    rw [if_pos hshort]
  · intro h4 hroom
    obtain ⟨src, hsrc, _, out, hout, _⟩ := decodeSTP_accepted data config W H hW hH h4 hroom
    exact ⟨fun n hn => by omega, ⟨src, hsrc⟩, ⟨out, hout⟩⟩

/-- C25, instance: the stamp `02 00 01 00 10` passes both checks and is decoded; without
its payload byte it is rejected. -/
theorem C25_stp_length_validation_witness :
    (∃ out, DecodeSTP stampPair plainConfig = .ok out) ∧
    DecodeSTP (stampPair.take 4) plainConfig = .error (.incompletePixelData 0 1 2 1) ∧
    DecodeSTP (stampPair.take 3) plainConfig = .error (.fileTooSmall 3) :=
  ⟨((C25_stp_length_validation stampPair plainConfig 2 1 (by decide) (by decide)).2.2.2
      (by decide) (by decide)).2.2,
    (C25_stp_length_validation (stampPair.take 4) plainConfig 2 1 (by decide)
      (by decide)).2.2.1 (by decide) (by decide),
    (C25_stp_length_validation (stampPair.take 3) plainConfig 2 1 (by decide)
      (by decide)).1 (by decide)⟩

/-- C26 (the code at a failing input): the image `blackOne` has one pixel with the index
1 and the built-in palette, whose entries 0 and 1 are both `(0, 0, 0)`. The method `At`
gives the colour of entry 1, and `Palette.Index` in `Set` returns the first entry with
that colour: all four output pixels have the index 0, not the index 1 of the input. -/
theorem C26_counterexample :
    getPalette defaultPalette 0 = some blackOne.Palette ∧
    blackOne.Palette[0]? = some ⟨0, 0, 0, 255⟩ ∧
    blackOne.Palette[1]? = some ⟨0, 0, 0, 255⟩ ∧
    blackOne.ColorIndexAt 0 0 = 1 ∧
    blackOne.At 0 0 = .ok (some ⟨0, 0, 0, 255⟩) ∧
    PaletteIndex blackOne.Palette ⟨0, 0, 0, 255⟩ = 0 ∧
    doubleSizePaletted 1 1 blackOne =
      .ok { Pix := [0, 0, 0, 0], Stride := 2, width := 2, height := 2,
            Palette := blackOne.Palette } ∧
    FinalizeImage { img := blackOne, width := 1, height := 1, double := true } =
      .ok { Pix := [0, 0, 0, 0], Stride := 2, width := 2, height := 2,
            Palette := blackOne.Palette } := by
  decide

/-- C26 (amended): `doubleSize w h` returns a grid of `2w` x `2h` pixels in which pixel
`(X, Y)` has the RGB value of input pixel `(X div 2, Y div 2)`. For a paletted image with
one byte per pixel whose pixels index entries of its palette, `doubleSizePaletted w h`
returns without a panic a grid of `2w` x `2h` pixels with the same palette in which pixel
`(X, Y)` has the colour of input pixel `(X div 2, Y div 2)`; its index is the first index
of the palette that holds this colour, which is at most the input index. `FinalizeImage`
applies the magnification exactly when the flag is set. -/
theorem C26_double_size_colour (w h : Nat) :
    (∀ img : RGBAImage,
      (doubleSize w h img).width = w * 2 ∧ (doubleSize w h img).height = h * 2 ∧
      ∀ X Y, X < w * 2 → Y < h * 2 →
        (doubleSize w h img).RGBAAt X Y = img.RGBAAt (X / 2) (Y / 2)) ∧
    (∀ img : Paletted, img.WellFormed → (∀ v ∈ img.Palette, v.IsBytes) →
      (∀ x, x < w → ∀ y, y < h → img.ColorIndexAt x y < img.Palette.length ∧
        img.ColorIndexAt x y < 256) →
      ∃ out, doubleSizePaletted w h img = .ok out ∧
        out.width = w * 2 ∧ out.height = h * 2 ∧ out.Palette = img.Palette ∧
        ∀ X Y, X < w * 2 → Y < h * 2 →
          ∃ c, img.Palette[img.ColorIndexAt (X / 2) (Y / 2)]? = some c ∧
            out.Palette[out.ColorIndexAt X Y]? = some c ∧
            out.ColorIndexAt X Y ≤ img.ColorIndexAt (X / 2) (Y / 2) ∧
            ∀ m, m < out.ColorIndexAt X Y → img.Palette[m]? ≠ some c) ∧
    (∀ c : FinalizeCallRGBA, FinalizeImage.rgba c =
      if c.double = true then doubleSize c.width c.height c.img else c.img) ∧
    (∀ c : FinalizeCall, FinalizeImage c =
      if c.double = true then doubleSizePaletted c.width c.height c.img else .ok c.img) := by
  refine ⟨?_, ?_, fun c => rfl, fun c => rfl⟩
  · intro img
    obtain ⟨hw, hh, _, hpix⟩ := doubleSize_spec w h img
    exact ⟨hw, hh, fun X Y hX hY => hpix X Y hX (by omega)⟩
  · intro img hwf hpal hidx
    obtain ⟨out, ho, how, hoh, _, hopal, hopix⟩ := doubleSizePaletted_spec w h img hwf (by
      intro x y hx hy
      exact ⟨_, List.getElem?_eq_getElem (hidx x hx y hy).1⟩)
    refine ⟨out, ho, how, hoh, hopal, ?_⟩
    intro X Y hX hY
    obtain ⟨c, hc, hval⟩ := hopix X Y hX (by omega)
    obtain ⟨f1, f2, f3⟩ := paletteIndex_first img.Palette c _ hpal hc
    have hsmall : PaletteIndex img.Palette c % 256 = PaletteIndex img.Palette c := by
      have := (hidx (X / 2) (by omega) (Y / 2) (by omega)).2
      omega
    rw [hval, hsmall, hopal]
    exact ⟨c, hc, f2, f1, f3⟩

/-- C26, instance: the image `colourPair` with the indices 2 and 15 of the built-in
palette is magnified to a grid of 4 x 2 pixels. -/
theorem C26_double_size_colour_witness :
    ∃ out, doubleSizePaletted 2 1 colourPair = .ok out ∧
      out.width = 2 * 2 ∧ out.height = 1 * 2 ∧ out.Palette = colourPair.Palette ∧
      ∀ X Y, X < 2 * 2 → Y < 1 * 2 →
        ∃ c, colourPair.Palette[colourPair.ColorIndexAt (X / 2) (Y / 2)]? = some c ∧
          out.Palette[out.ColorIndexAt X Y]? = some c ∧
          out.ColorIndexAt X Y ≤ colourPair.ColorIndexAt (X / 2) (Y / 2) ∧
          ∀ m, m < out.ColorIndexAt X Y → colourPair.Palette[m]? ≠ some c :=
  (C26_double_size_colour 2 1).2.1 colourPair (by decide) (by decide) (by decide)

/-- C27: for every STP input that passes the two length checks, with `src` the grid of
`W` x `H` pixels that the pixel loops build: without `DoubleImageSize` the output has
`W` x `2H` pixels and pixel `(x, Y)` is `src (x, Y div 2)`; with `DoubleImageSize` it has
`2W` x `4H` pixels and pixel `(X, Y)` is `src (X div 2, Y div 4)`. -/
theorem C27_stp_aspect_then_magnify (data : List Nat) (config : Config) (W H : Nat)
    (hW : W = littleEndianUint16 ((data.drop 0).take 2))
    (hH : H = littleEndianUint16 ((data.drop 2).take 2))
    (hlen : 4 ≤ data.length) (hroom : (W * H + 3) / 4 ≤ (data.drop 4).length) :
    ∃ src out, DecodeSTP.unpack W H (data.drop 4) = .ok src ∧
      src.width = W ∧ src.height = H ∧
      DecodeSTP data config = .ok out ∧ out.Palette = src.Palette ∧
      (config.DoubleImageSize = false → out.width = W ∧ out.height = H * 2 ∧
        ∀ x Y, x < W → Y < H * 2 → out.ColorIndexAt x Y = src.ColorIndexAt x (Y / 2)) ∧
      (config.DoubleImageSize = true → out.width = W * 2 ∧ out.height = H * 4 ∧
        ∀ X Y, X < W * 2 → Y < H * 4 →
          out.ColorIndexAt X Y = src.ColorIndexAt (X / 2) (Y / 4)) := by
  obtain ⟨src, hsrc, hinv, out, hout, hpal, h1, h2⟩ :=
    decodeSTP_accepted data config W H hW hH hlen hroom
  exact ⟨src, out, hsrc, hinv.2.1, hinv.2.2.1, hout, by rw [hpal, hinv.2.2.2.2.1], h1, h2⟩

/-- C27, instance: the stamp `02 00 01 00 10` with `DoubleImageSize`: the grid of 2 x 1
pixels becomes an output of 4 x 4 pixels. -/
theorem C27_stp_aspect_then_magnify_witness :
    ∃ src out, DecodeSTP.unpack 2 1 (stampPair.drop 4) = .ok src ∧
      src.width = 2 ∧ src.height = 1 ∧
      DecodeSTP stampPair doubleConfig = .ok out ∧ out.Palette = src.Palette ∧
      (doubleConfig.DoubleImageSize = false → out.width = 2 ∧ out.height = 1 * 2 ∧
        ∀ x Y, x < 2 → Y < 1 * 2 → out.ColorIndexAt x Y = src.ColorIndexAt x (Y / 2)) ∧
      (doubleConfig.DoubleImageSize = true → out.width = 2 * 2 ∧ out.height = 1 * 4 ∧
        ∀ X Y, X < 2 * 2 → Y < 1 * 4 →
          out.ColorIndexAt X Y = src.ColorIndexAt (X / 2) (Y / 4)) :=
  C27_stp_aspect_then_magnify stampPair doubleConfig 2 1 (by decide) (by decide) (by decide)
    (by decide)

/-! ## Claims on the state invariant of the reader -/

theorem readLookupTable_inv (r r' : bitStreamReader) (hlen : r.lookupTable.length = 8)
    (h : readLookupTable r = .ok r') : ReaderInv r' ∧ r'.bitCounter = 8 := by
  obtain ⟨g1, g2, g3, _, g5, g6⟩ := readLookupTable_ok_fields r r' hlen h
  have hroom : r.offset + 1 + popcount8 (r.data.getD r.offset 0) ≤ r.data.length := by
    by_contra hn
    obtain ⟨e, he⟩ := (readLookupTable_fails_iff r hlen).mpr (by omega)
    rw [he] at h
    cases h
  refine ⟨⟨by omega, by omega, by omega, g2, ?_⟩, g5⟩
  rw [g1, g3]
  exact hroom

theorem newBitStreamReader_inv (data : List Nat) (offset : Nat) (reader : bitStreamReader)
    (h : newBitStreamReader data offset = .ok reader) :
    ReaderInv reader ∧ reader.bitCounter = 8 := by
  unfold newBitStreamReader at h
  split at h
  · cases h
  · exact readLookupTable_inv _ reader (by simp) h

theorem reload_inv (t r' : bitStreamReader) (hinv : ReaderInv t)
    (h : readByte.reload t = .ok r') :
    ReaderInv r' ∧
    (1 < t.bitCounter → r'.bitCounter = t.bitCounter - 1 ∧ r'.lookupTable = t.lookupTable ∧
      r'.tableIndex = t.tableIndex ∧ r'.bitBuffer = t.bitBuffer) ∧
    (t.bitCounter = 1 → r'.bitCounter = 8) := by
  obtain ⟨h1, h8, hidx, hlen, hoff⟩ := hinv
  by_cases hone : t.bitCounter = 1
  · have hz : (t.bitCounter + 255) % 256 = 0 := by omega
    by_cases hti : t.tableIndex < 8
    · rw [reload_table t hz (by omega)] at h
      cases h
      exact ⟨⟨by show 1 ≤ 8; omega, by show 8 ≤ 8; omega,
        by show t.tableIndex + 1 ≤ 8; omega, hlen, hoff⟩, fun hgt => by omega, fun _ => rfl⟩
    · by_cases heof : t.offset ≥ t.data.length
      · rw [reload_eof t hz (by omega) heof] at h
        cases h
        exact ⟨⟨by show 1 ≤ 8; omega, by show 8 ≤ 8; omega, by show 0 ≤ 8; omega,
          by simp [hlen], hoff⟩, fun hgt => by omega, fun _ => rfl⟩
      · rw [reload_new t hz (by omega) (by omega)] at h
        split at h
        · cases h
        · rename_i u hu
          cases h
          obtain ⟨g1, g2⟩ := readLookupTable_inv
            { t with bitCounter := (t.bitCounter + 255) % 256 } r' hlen hu
          exact ⟨g1, fun hgt => by omega, fun _ => g2⟩
  · rw [reload_keep t (by omega)] at h
    cases h
    refine ⟨⟨?_, ?_, hidx, hlen, hoff⟩, fun _ => ⟨?_, rfl, rfl, rfl⟩, fun hc => absurd hc hone⟩
    · show 1 ≤ (t.bitCounter + 255) % 256; omega
    · show (t.bitCounter + 255) % 256 ≤ 8; omega
    · show (t.bitCounter + 255) % 256 = t.bitCounter - 1; omega

theorem readByte_inv (r r' : bitStreamReader) (b : Nat) (hinv : ReaderInv r)
    (h : readByte r = .ok (b, r')) :
    ReaderInv r' ∧
    (1 < r.bitCounter → r'.bitCounter = r.bitCounter - 1 ∧ r'.lookupTable = r.lookupTable ∧
      r'.tableIndex = r.tableIndex ∧ r'.bitBuffer = (r.bitBuffer <<< 1) % 256) ∧
    (r.bitCounter = 1 → r'.bitCounter = 8) := by
  obtain ⟨h1, h8, hidx, hlen, hoff⟩ := hinv
  obtain ⟨hre, _, hin⟩ := readByte_split r r' b h
  have hoff' : r.offset + (r.bitBuffer.testBit 7).toNat ≤ r.data.length := by
    cases hc : r.bitBuffer.testBit 7 with
    | false => simpa using hoff
    | true => have := hin hc; simpa using this
  exact reload_inv { r with bitBuffer := (r.bitBuffer <<< 1) % 256,
                            offset := r.offset + (r.bitBuffer.testBit 7).toNat } r'
    ⟨h1, h8, hidx, hlen, hoff'⟩ hre

theorem readBytes_inv : ∀ (n : Nat) (r r' : bitStreamReader) (bs : List Nat),
    ReaderInv r → r.bitCounter = 8 → readBytes n r = .ok (bs, r') →
    ReaderInv r' ∧ r'.bitCounter = 8 - n % 8 := by
  intro n
  induction n with
  | zero =>
    intro r r' bs hinv h8 h
    simp only [readBytes, Except.ok.injEq, Prod.mk.injEq] at h
    obtain ⟨_, e⟩ := h
    subst e
    exact ⟨hinv, by omega⟩
  | succ n ih =>
    intro r r' bs hinv h8 h
    obtain ⟨bs0, rn, b, hn, hb, _, _⟩ := readBytes_snoc n r r' bs h
    obtain ⟨hin, hcn⟩ := ih r rn bs0 hinv h8 hn
    obtain ⟨g1, g2, g3⟩ := readByte_inv rn r' b hin hb
    refine ⟨g1, ?_⟩
    by_cases hone : rn.bitCounter = 1
    · rw [g3 hone]; omega
    · have := hin.1
      rw [(g2 (by omega)).1]; omega

theorem readBytes_data : ∀ (n : Nat) (r r' : bitStreamReader) (bs : List Nat),
    readBytes n r = .ok (bs, r') → r'.data = r.data := by
  intro n
  induction n with
  | zero =>
    intro r r' bs h
    simp only [readBytes, Except.ok.injEq, Prod.mk.injEq] at h
    rw [h.2]
  | succ n ih =>
    intro r r' bs h
    obtain ⟨bs0, rn, b, hn, hb, _, _⟩ := readBytes_snoc n r r' bs h
    obtain ⟨hre, _, _⟩ := readByte_split rn r' b hb
    rw [reload_data _ r' hre]
    exact ih r rn bs0 hn

/-- C31: let `reader` be the result of `newBitStreamReader` and `r` the state after `n`
successful `readByte` calls (`n = 0`: right after the construction). Then
`1 <= bitCounter <= 8`, `tableIndex <= 8`, the table has 8 entries and
`offset <= len(data)`; `bitCounter` is `8 - n mod 8`, so the 8-bit decrement of the next
call does not wrap, and the decremented counter is 0, the guard of the reload, exactly
when the next call is number `n + 1` with `n + 1` a multiple of 8. A successful next call
leaves `bitCounter = 8` in that case; in every other case it lowers `bitCounter` by 1,
shifts `bitBuffer` and leaves the table and `tableIndex` unchanged. -/
theorem C31_reader_invariant (data : List Nat) (offset : Nat) (reader r : bitStreamReader)
    (n : Nat) (bs : List Nat) (hnew : newBitStreamReader data offset = .ok reader)
    (hrun : readBytes n reader = .ok (bs, r)) :
    (1 ≤ r.bitCounter ∧ r.bitCounter ≤ 8 ∧ r.tableIndex ≤ 8 ∧ r.lookupTable.length = 8 ∧
      r.offset ≤ data.length) ∧
    r.data = data ∧
    r.bitCounter = 8 - n % 8 ∧
    (r.bitCounter + 255) % 256 = r.bitCounter - 1 ∧
    ((r.bitCounter + 255) % 256 = 0 ↔ (n + 1) % 8 = 0) ∧
    ∀ b r', readByte r = .ok (b, r') →
      ((n + 1) % 8 = 0 → r'.bitCounter = 8) ∧
      ((n + 1) % 8 ≠ 0 → r'.bitCounter = r.bitCounter - 1 ∧
        r'.lookupTable = r.lookupTable ∧ r'.tableIndex = r.tableIndex ∧
        r'.bitBuffer = (r.bitBuffer <<< 1) % 256) := by
  obtain ⟨hinv0, h8⟩ := newBitStreamReader_inv data offset reader hnew
  obtain ⟨hinv, hcnt⟩ := readBytes_inv n reader r bs hinv0 h8 hrun
  have hdata : r.data = data := by
    rw [readBytes_data n reader r bs hrun, newBitStreamReader_data data offset reader hnew]
  obtain ⟨c1, c2, c3, c4, c5⟩ := hinv
  refine ⟨⟨c1, c2, c3, c4, by rw [← hdata]; exact c5⟩, hdata, hcnt, by omega, by omega, ?_⟩
  intro b r' hb
  obtain ⟨_, g2, g3⟩ := readByte_inv r r' b ⟨c1, c2, c3, c4, c5⟩ hb
  exact ⟨fun hm => g3 (by omega), fun hm => g2 (by omega)⟩

/-- C31, instance: the stream `FF 01 .. 08 AA BB CC`. After the construction and eight
calls the counter is 8 again. -/
theorem C31_reader_invariant_witness :
    (1 ≤ after8AABBCC.bitCounter ∧ after8AABBCC.bitCounter ≤ 8 ∧
      after8AABBCC.tableIndex ≤ 8 ∧ after8AABBCC.lookupTable.length = 8 ∧
      after8AABBCC.offset ≤ streamAABBCC.length) ∧
    after8AABBCC.bitCounter = 8 - 8 % 8 :=
  ⟨(C31_reader_invariant streamAABBCC 0 loadedAABBCC after8AABBCC 8
      [0, 0, 0, 0, 0, 0, 0, 0xAA] (by decide) (by decide)).1,
    (C31_reader_invariant streamAABBCC 0 loadedAABBCC after8AABBCC 8
      [0, 0, 0, 0, 0, 0, 0, 0xAA] (by decide) (by decide)).2.2.1⟩

/-! ## The calls of a loop body -/

theorem forRange_visits {σ ε : Type} (body : Nat → σ → Except ε σ) (P : Nat → σ → Prop) :
    ∀ (n i : Nat) (s : σ) (j : Nat) (t : σ), P i s →
      (∀ j t t', i ≤ j → j < i + n → P j t → body j t = .ok t' → P (j + 1) t') →
      forRange.Visits body n i s j t → i ≤ j ∧ j < i + n ∧ P j t := by
  intro n
  induction n with
  | zero => intro i s j t _ _ h; exact absurd h (by simp [forRange.Visits])
  | succ n ih =>
    intro i s j t h0 hstep h
    simp only [forRange.Visits] at h
    rcases h with ⟨e1, e2⟩ | h
    · subst e1 e2
      exact ⟨Nat.le_refl j, by omega, h0⟩
    · cases hb : body i s with
      | error e => rw [hb] at h; exact absurd h (by simp)
      | ok s' =>
        rw [hb] at h
        have hP := hstep i s s' (Nat.le_refl i) (by omega) h0 hb
        obtain ⟨g1, g2, g3⟩ := ih (i + 1) s' j t hP
          (fun j t t' hij hjn hPj hbj => hstep j t t' (by omega) (by omega) hPj hbj) h
        exact ⟨by omega, by omega, g3⟩

theorem directByte_len (W r x : Nat) (s s' : DecodeState)
    (h : DecodeCMP.directByte W r x s = .ok s') : s'.2.length = s.2.length := by
  unfold DecodeCMP.directByte at h
  cases hb : readByte s.1 with
  | error e => rw [hb] at h; cases h
  | ok p =>
    obtain ⟨b, rd⟩ := p
    rw [hb] at h
    cases h
    simp

theorem xorByte_len (W r x : Nat) (s s' : DecodeState)
    (h : DecodeCMP.xorByte W r x s = .ok s') : s'.2.length = s.2.length := by
  unfold DecodeCMP.xorByte at h
  cases hb : readByte s.1 with
  | error e => rw [hb] at h; cases h
  | ok p =>
    obtain ⟨b, rd⟩ := p
    rw [hb] at h
    cases h
    simp

theorem directRow_len (W L r : Nat) (s s' : DecodeState) (hs : s.2.length = L)
    (h : forRange (DecodeCMP.directByte W r) W 0 s = .ok s') : s'.2.length = L :=
  forRange_inv (DecodeCMP.directByte W r) (fun _ (u : DecodeState) => u.2.length = L) W 0 s s'
    hs (fun x u u' _ _ hu hbody => (directByte_len W r x u u' hbody).trans hu) h

theorem xorRow_len (W L r : Nat) (s s' : DecodeState) (hs : s.2.length = L)
    (h : forRange (DecodeCMP.xorByte W r) W 0 s = .ok s') : s'.2.length = L :=
  forRange_inv (DecodeCMP.xorByte W r) (fun _ (u : DecodeState) => u.2.length = L) W 0 s s'
    hs (fun x u u' _ _ hu hbody => (xorByte_len W r x u u' hbody).trans hu) h

theorem phase1_len (W K L : Nat) (s s1 : DecodeState) (hs : s.2.length = L)
    (h : DecodeCMP.phase1 W K s = .ok s1) : s1.2.length = L :=
  forRange_inv (fun scanline s => forRange (DecodeCMP.directByte W scanline) W 0 s)
    (fun _ (u : DecodeState) => u.2.length = L) K 0 s s1 hs
    (fun r t t' _ _ ht hrow => directRow_len W L r t t' ht hrow) h

theorem phase1_accesses (W H K : Nat) (s0 : DecodeState) (hK : K ≤ H)
    (hs : s0.2.length = W * H) (scanline : Nat) (s : DecodeState) (x : Nat) (t : DecodeState)
    (hrow : forRange.Visits
      (fun scanline s => forRange (DecodeCMP.directByte W scanline) W 0 s) K 0 s0 scanline s)
    (hcol : forRange.Visits (DecodeCMP.directByte W scanline) W 0 s x t) :
    scanline < H ∧ x < W ∧ scanline * W + x < t.2.length := by
  obtain ⟨_, g2, g3⟩ := forRange_visits
    (fun scanline s => forRange (DecodeCMP.directByte W scanline) W 0 s)
    (fun _ (u : DecodeState) => u.2.length = W * H) K 0 s0 scanline s hs
    (fun r t t' _ _ ht hrow => directRow_len W (W * H) r t t' ht hrow) hrow
  obtain ⟨_, k2, k3⟩ := forRange_visits (DecodeCMP.directByte W scanline)
    (fun _ (u : DecodeState) => u.2.length = W * H) W 0 s x t g3
    (fun x u u' _ _ hu hbody => (directByte_len W scanline x u u' hbody).trans hu) hcol
  exact ⟨by omega, by omega, by rw [k3]; exact idx_lt_total W H scanline x (by omega) (by omega)⟩

theorem phase2_accesses (W H K : Nat) (s1 : DecodeState)
    (hs : s1.2.length = W * H) (scanline : Nat) (s : DecodeState) (x : Nat) (t : DecodeState)
    (hrow : forRange.Visits
      (fun scanline s => forRange (DecodeCMP.xorByte W scanline) W 0 s) (H - K) K s1 scanline s)
    (hcol : forRange.Visits (DecodeCMP.xorByte W scanline) W 0 s x t) :
    scanline < H ∧ x < W ∧ scanline * W + x < t.2.length ∧
    ((scanline : Int) - 1 ≥ 0 → ((scanline : Int) - 1).toNat * W + x < t.2.length) := by
  obtain ⟨_, g2, g3⟩ := forRange_visits
    (fun scanline s => forRange (DecodeCMP.xorByte W scanline) W 0 s)
    (fun _ (u : DecodeState) => u.2.length = W * H) (H - K) K s1 scanline s hs
    (fun r t t' _ _ ht hrow => xorRow_len W (W * H) r t t' ht hrow) hrow
  obtain ⟨_, k2, k3⟩ := forRange_visits (DecodeCMP.xorByte W scanline)
    (fun _ (u : DecodeState) => u.2.length = W * H) W 0 s x t g3
    (fun x u u' _ _ hu hbody => (xorByte_len W scanline x u u' hbody).trans hu) hcol
  refine ⟨by omega, by omega,
    by rw [k3]; exact idx_lt_total W H scanline x (by omega) (by omega), fun hp => ?_⟩
  have e : ((scanline : Int) - 1).toNat = scanline - 1 := by omega
  rw [e, k3]
  exact idx_lt_total W H (scanline - 1) x (by omega) (by omega)

/-! ## Claims on the safety of `DecodeCMP` -/

theorem rows_error (W H K : Nat) (reader : bitStreamReader) (e : CmpError)
    (h : DecodeCMP.rows W H K reader = .error e) : ∃ r x c, e = .readAt r x c := by
  have hd : ∀ r x (u : DecodeState), DecodeCMP.directByte W r x u = .error e →
      ∃ c, e = .readAt r x c := by
    intro r x u hu
    unfold DecodeCMP.directByte at hu
    cases hb : readByte u.1 with
    | error c => rw [hb] at hu; cases hu; exact ⟨c, rfl⟩
    | ok p => rw [hb] at hu; cases hu
  have hx : ∀ r x (u : DecodeState), DecodeCMP.xorByte W r x u = .error e →
      ∃ c, e = .readAt r x c := by
    intro r x u hu
    unfold DecodeCMP.xorByte at hu
    cases hb : readByte u.1 with
    | error c => rw [hb] at hu; cases hu; exact ⟨c, rfl⟩
    | ok p => rw [hb] at hu; cases hu
  unfold DecodeCMP.rows at h
  cases h1 : DecodeCMP.phase1 W K (reader, List.replicate (W * H) 0) with
  | error e1 =>
    rw [h1] at h
    cases h
    obtain ⟨r, t, _, _, hrow⟩ := forRange_error_body _ e _ _ _ h1
    obtain ⟨x, u, _, _, hbody⟩ := forRange_error_body _ e _ _ _ hrow
    obtain ⟨c, hc⟩ := hd r x u hbody
    exact ⟨r, x, c, hc⟩
  | ok s1 =>
    rw [h1] at h
    obtain ⟨r, t, _, _, hrow⟩ := forRange_error_body _ e _ _ _ h
    obtain ⟨x, u, _, _, hbody⟩ := forRange_error_body _ e _ _ _ hrow
    obtain ⟨c, hc⟩ := hx r x u hbody
    exact ⟨r, x, c, hc⟩

theorem DecodeCMP_not_panic (data : List Nat) (config : Config) (hcfg : config.Valid) :
    DecodeCMP data config ≠ .error .slicePanic := by
  obtain ⟨pal, hpal, _⟩ := resolvePalette_cmp config hcfg
  intro h
  unfold DecodeCMP at h
  split at h
  · cases h
  · simp only at h
    split at h
    · cases h
    · split at h
      · cases h
      · split at h
        · cases h
        · split at h
          · rename_i e hrows
            obtain ⟨r, x, c, hc⟩ := rows_error _ _ _ _ e hrows
            rw [hc] at h
            cases h
          · rw [hpal] at h
            cases h

theorem DecodeCMP_image (data : List Nat) (config : Config) (res : FinalizeCall)
    (hbytes : IsBytes data) (hcfg : config.Valid) (hok : DecodeCMP data config = .ok res) :
    res.img.width = res.width ∧ res.img.height = res.height ∧ res.img.WellFormed ∧
    res.img.Palette.length = 16 ∧
    ∀ X Y, X < res.width → Y < res.height → res.img.ColorIndexAt X Y < 16 := by
  obtain ⟨reader, rEnd, out, pal, _, _, _, _, hnew, hrows, hpal, hres⟩ :=
    DecodeCMP_ok data config res hok
  obtain ⟨pal', hpal', hlen16⟩ := resolvePalette_cmp config hcfg
  rw [hpal] at hpal'
  cases hpal'
  have hout : ∀ v ∈ out, v < 256 := by
    have := rows_bytes _ _ _ reader (rEnd, out)
      (by rw [newBitStreamReader_data data 3 reader hnew]; exact hbytes) hrows
    exact this
  obtain ⟨hw, hh, hS, hL, hpix⟩ := pixels_spec (data.getD 0 0)
    (if data.getD 0 0 * 2 > ScreenWidth then ScreenWidth else data.getD 0 0 * 2)
    (data.getD 1 0) out pal (by split <;> omega)
  subst hres
  refine ⟨hw, hh, ⟨by rw [hS, hw], by rw [hL, hw, hh]⟩, ?_, ?_⟩
  · show (DecodeCMP.pixels _ _ _ _ _).Palette.length = 16
    rw [pixels_palette]
    exact hlen16
  · intro X Y hX hY
    simp only at hX hY
    have hb := getD_lt_of_all out hout (Y * data.getD 0 0 + X / 2)
    obtain ⟨p1, p2⟩ := hpix Y (X / 2) (Or.inl hY) hY (by omega)
    by_cases hev : X % 2 = 0
    · have e : X / 2 * 2 = X := by omega
      rw [e] at p1
      show (DecodeCMP.pixels _ _ _ _ _).ColorIndexAt X Y < 16
      rw [p1, Nat.shiftRight_eq_div_pow]
      omega
    · have e : X / 2 * 2 + 1 = X := by omega
      have p3 := p2 (by omega)
      rw [e] at p3
      show (DecodeCMP.pixels _ _ _ _ _).ColorIndexAt X Y < 16
      rw [p3]
      exact Nat.lt_of_le_of_lt Nat.and_le_right (by decide)

theorem finalizeImage_ok (c : FinalizeCall) (hwf : c.img.WellFormed)
    (hval : ∀ x y, x < c.width → y < c.height →
      c.img.ColorIndexAt x y < c.img.Palette.length) :
    ∃ out, FinalizeImage c = .ok out := by
  unfold FinalizeImage
  split
  · obtain ⟨out, ho, _⟩ := doubleSizePaletted_spec c.width c.height c.img hwf
      (fun x y hx hy => ⟨_, List.getElem?_eq_getElem (hval x y hx hy)⟩)
    exact ⟨out, ho⟩
  · exact ⟨_, rfl⟩

theorem rows_len (W H K : Nat) (reader : bitStreamReader) (s' : DecodeState)
    (h : DecodeCMP.rows W H K reader = .ok s') : s'.2.length = W * H := by
  unfold DecodeCMP.rows at h
  cases h1 : DecodeCMP.phase1 W K (reader, List.replicate (W * H) 0) with
  | error e => rw [h1] at h; cases h
  | ok s1 =>
    rw [h1] at h
    have g1 := phase1_len W K (W * H) _ s1 (by simp) h1
    exact forRange_inv (fun scanline s => forRange (DecodeCMP.xorByte W scanline) W 0 s)
      (fun _ (u : DecodeState) => u.2.length = W * H) (H - K) K s1 s' g1
      (fun r t t' _ _ ht hrow => xorRow_len W (W * H) r t t' ht hrow) h

/-- C32: for every byte buffer and every configuration that `Converter.Convert` builds
(the palette blob absent or of 32 bytes). (1) `DecodeCMP` returns an error value, never a
panic, or it returns an image of `width` x `height` pixels with one byte per pixel, all of
them indices below the 16 palette entries, on which `FinalizeImage` returns as well; the
result type holds either the error or the image. (2) After the construction of the reader
and any number of successful calls the offset is at most `len(data)`, and a call that
returns an input byte read it at an offset below `len(data)`. (3) Every call of the body
of phase 1 and of phase 2 writes the decoded buffer at an index below its length `W * H`,
phase 2 reads the previous row at an index below it, and the pixel loops read the buffer
at indices below it. -/
theorem C32_total_safety (data : List Nat) (config : Config) (hbytes : IsBytes data)
    (hcfg : config.Valid) :
    ((∃ e, DecodeCMP data config = .error e ∧ e ≠ .slicePanic) ∨
      (∃ res out, DecodeCMP data config = .ok res ∧ FinalizeImage res = .ok out ∧
        res.img.width = res.width ∧ res.img.height = res.height ∧
        res.img.Pix.length = res.width * res.height ∧ res.img.Palette.length = 16 ∧
        ∀ X Y, X < res.width → Y < res.height → res.img.ColorIndexAt X Y < 16)) ∧
    (∀ reader n bs r, newBitStreamReader data 3 = .ok reader →
      readBytes n reader = .ok (bs, r) →
      r.offset ≤ data.length ∧
      ∀ b r', readByte r = .ok (b, r') → r.bitBuffer.testBit 7 = true →
        r.offset < data.length ∧ b = data.getD r.offset 0) ∧
    (∀ reader, newBitStreamReader data 3 = .ok reader → data.getD 2 0 ≤ data.getD 1 0 →
      (∀ scanline s x t,
        forRange.Visits
          (fun scanline s => forRange (DecodeCMP.directByte (data.getD 0 0) scanline)
            (data.getD 0 0) 0 s)
          (data.getD 2 0) 0 (reader, List.replicate (data.getD 0 0 * data.getD 1 0) 0)
          scanline s →
        forRange.Visits (DecodeCMP.directByte (data.getD 0 0) scanline) (data.getD 0 0) 0 s
          x t →
        scanline * data.getD 0 0 + x < t.2.length) ∧
      (∀ s1, DecodeCMP.phase1 (data.getD 0 0) (data.getD 2 0)
          (reader, List.replicate (data.getD 0 0 * data.getD 1 0) 0) = .ok s1 →
        ∀ scanline s x t,
          forRange.Visits
            (fun scanline s => forRange (DecodeCMP.xorByte (data.getD 0 0) scanline)
              (data.getD 0 0) 0 s)
            (data.getD 1 0 - data.getD 2 0) (data.getD 2 0) s1 scanline s →
          forRange.Visits (DecodeCMP.xorByte (data.getD 0 0) scanline) (data.getD 0 0) 0 s
            x t →
          scanline * data.getD 0 0 + x < t.2.length ∧
          ((scanline : Int) - 1 ≥ 0 →
            ((scanline : Int) - 1).toNat * data.getD 0 0 + x < t.2.length)) ∧
      (∀ rEnd out, DecodeCMP.rows (data.getD 0 0) (data.getD 1 0) (data.getD 2 0) reader =
          .ok (rEnd, out) →
        out.length = data.getD 0 0 * data.getD 1 0 ∧
        ∀ y x, y < data.getD 1 0 → x < data.getD 0 0 →
          y * data.getD 0 0 + x < out.length)) := by
  refine ⟨?_, ?_, ?_⟩
  · cases hres : DecodeCMP data config with
    | error e =>
      refine Or.inl ⟨e, rfl, ?_⟩
      intro he
      rw [he] at hres
      exact DecodeCMP_not_panic data config hcfg hres
    | ok res =>
      obtain ⟨g1, g2, g3, g4, g5⟩ := DecodeCMP_image data config res hbytes hcfg hres
      obtain ⟨out, ho⟩ := finalizeImage_ok res g3
        (fun x y hx hy => by rw [g4]; exact g5 x y hx hy)
      exact Or.inr ⟨res, out, rfl, ho, g1, g2, by rw [g3.2, g1, g2], g4, g5⟩
  · intro reader n bs r hnew hrun
    obtain ⟨hinv0, h8⟩ := newBitStreamReader_inv data 3 reader hnew
    obtain ⟨hinv, _⟩ := readBytes_inv n reader r bs hinv0 h8 hrun
    have hdata : r.data = data := by
      rw [readBytes_data n reader r bs hrun, newBitStreamReader_data data 3 reader hnew]
    refine ⟨by rw [← hdata]; exact hinv.2.2.2.2, ?_⟩
    intro b r' hb hc
    obtain ⟨_, k2, k3⟩ := readByte_split r r' b hb
    rw [if_pos hc] at k2
    rw [← hdata]
    exact ⟨k3 hc, k2⟩
  · intro reader _ hK
    refine ⟨?_, ?_, ?_⟩
    · intro scanline s x t hrow hcol
      exact (phase1_accesses _ (data.getD 1 0) _ _ hK (by simp) scanline s x t hrow hcol).2.2
    · intro s1 h1 scanline s x t hrow hcol
      have hlen := phase1_len _ _ (data.getD 0 0 * data.getD 1 0) _ s1 (by simp) h1
      exact (phase2_accesses _ _ _ s1 hlen scanline s x t hrow hcol).2.2
    · intro rEnd out hrows
      have hlen := rows_len _ _ _ reader (rEnd, out) hrows
      simp only at hlen
      refine ⟨hlen, fun y x hy hx => ?_⟩
      rw [hlen]
      exact idx_lt_total _ _ y x hx hy

/-- C32, instance: the file `deltaFile` with the configuration `plainConfig`. -/
theorem C32_total_safety_witness :
    (∃ e, DecodeCMP deltaFile plainConfig = .error e ∧ e ≠ .slicePanic) ∨
      (∃ res out, DecodeCMP deltaFile plainConfig = .ok res ∧ FinalizeImage res = .ok out ∧
        res.img.width = res.width ∧ res.img.height = res.height ∧
        res.img.Pix.length = res.width * res.height ∧ res.img.Palette.length = 16 ∧
        ∀ X Y, X < res.width → Y < res.height → res.img.ColorIndexAt X Y < 16) :=
  (C32_total_safety deltaFile plainConfig (by decide) (fun blob h => by cases h)).1

/-! ## Claims on the clipping of the end address -/

theorem calculateHeight_cases (e w : Nat) :
    calculateHeight e w = 192 ∨ calculateHeight e w = 212 := by
  unfold calculateHeight ScreenHeightMSX1 ScreenHeightMSX2
  simp only
  split
  · exact Or.inl rfl
  · exact Or.inr rfl

theorem nibblePixel_dims (header : screenHeader) (width addr : Nat) (img img' : Paletted)
    (h : decodeScreenNibbles.pixel header width addr img = .ok img') :
    img'.width = img.width ∧ img'.height = img.height := by
  unfold decodeScreenNibbles.pixel at h
  simp only at h
  split at h
  · cases h
  · cases h
    simp only [(setColorIndex_dims _ _ _ _).1, (setColorIndex_dims _ _ _ _).2.1, and_self]

theorem screenPixel_dims (header : screenHeader) (width addr : Nat) (img img' : RGBAImage)
    (h : decodeScreen.pixel header width addr img = .ok img') :
    img'.width = img.width ∧ img'.height = img.height := by
  unfold decodeScreen.pixel at h
  simp only at h
  split at h
  · cases h
  · cases h
    simp only [(rgbaSet_dims _ _ _ _).1, (rgbaSet_dims _ _ _ _).2.1, and_self]

/-- C33: with `height` the result of `calculateHeight` and `stop` the end address after
the clipping statement. In `decodeScreenNibbles` with image width 256 or 512 (rows of 128
or 256 bytes) and in `decodeScreen` with width 256: `height * rowWidth` is below `2^16`,
so its conversion to `uint16` is exact; `stop` is `min(endAddress, height * rowWidth)`;
and every call of the loop body has an address `addr` with
`beginAddress <= addr < stop`, `addr + 1 < 2^16` (the increment does not wrap, the loop
ends after `stop - beginAddress` calls), a row `addr div rowWidth` below the image height
and columns below the image width. -/
theorem C33_clipping_in_bounds (header : screenHeader) :
    (∀ width height stop palette, (width = 256 ∨ width = 512) →
      height = calculateHeight header.endAddress (width / 2) →
      stop = (if (height * (width / 2)) % 65536 < header.endAddress
        then (height * (width / 2)) % 65536 else header.endAddress) →
      (height * (width / 2)) % 65536 = height * (width / 2) ∧
      stop = min header.endAddress (height * (width / 2)) ∧
      ∀ addr t,
        forRange.Visits (decodeScreenNibbles.pixel header width)
          (stop - header.beginAddress) header.beginAddress
          (NewPaletted width height palette) addr t →
        header.beginAddress ≤ addr ∧ addr < stop ∧ addr + 1 < 65536 ∧
        addr / ((width / 2) % 65536) < t.height ∧
        addr % ((width / 2) % 65536) * 2 + 1 < t.width) ∧
    (∀ height stop, height = calculateHeight header.endAddress ScreenWidth →
      stop = (if (height * ScreenWidth) % 65536 < header.endAddress
        then (height * ScreenWidth) % 65536 else header.endAddress) →
      (height * ScreenWidth) % 65536 = height * ScreenWidth ∧
      stop = min header.endAddress (height * ScreenWidth) ∧
      ∀ addr t,
        forRange.Visits (decodeScreen.pixel header ScreenWidth)
          (stop - header.beginAddress) header.beginAddress
          (NewRGBA ScreenWidth height) addr t →
        header.beginAddress ≤ addr ∧ addr < stop ∧ addr + 1 < 65536 ∧
        addr / (ScreenWidth % 65536) < t.height ∧
        addr % (ScreenWidth % 65536) < t.width) := by
  constructor
  · intro width height stop palette hw hh hstop
    have hH := calculateHeight_cases header.endAddress (width / 2)
    rw [← hh] at hH
    have hmod : (height * (width / 2)) % 65536 = height * (width / 2) := by
      rcases hw with rfl | rfl <;> rcases hH with rfl | rfl <;> rfl
    rw [hmod] at hstop
    have hmin : stop = min header.endAddress (height * (width / 2)) := by
      rw [hstop]; split <;> omega
    refine ⟨hmod, hmin, ?_⟩
    intro addr t hv
    obtain ⟨g1, g2, g3, g4⟩ := forRange_visits (decodeScreenNibbles.pixel header width)
      (fun _ (u : Paletted) => u.width = width ∧ u.height = height)
      (stop - header.beginAddress) header.beginAddress _ addr t ⟨rfl, rfl⟩
      (fun j u u' _ _ hu hbody => by
        obtain ⟨d1, d2⟩ := nibblePixel_dims header width j u u' hbody
        exact ⟨d1.trans hu.1, d2.trans hu.2⟩) hv
    have hlt : addr < height * (width / 2) := by omega
    rw [g3, g4]
    rcases hw with rfl | rfl <;> rcases hH with rfl | rfl <;>
      simp only [Nat.reduceDiv, Nat.reduceMod, Nat.reduceMul] at hlt ⊢ <;> omega
  · intro height stop hh hstop
    have hH := calculateHeight_cases header.endAddress ScreenWidth
    rw [← hh] at hH
    unfold ScreenWidth at hstop ⊢
    have hmod : (height * 256) % 65536 = height * 256 := by
      rcases hH with rfl | rfl <;> rfl
    rw [hmod] at hstop
    have hmin : stop = min header.endAddress (height * 256) := by
      rw [hstop]; split <;> omega
    refine ⟨hmod, hmin, ?_⟩
    intro addr t hv
    obtain ⟨g1, g2, g3, g4⟩ := forRange_visits (decodeScreen.pixel header 256)
      (fun _ (u : RGBAImage) => u.width = 256 ∧ u.height = height)
      (stop - header.beginAddress) header.beginAddress _ addr t ⟨rfl, rfl⟩
      (fun j u u' _ _ hu hbody => by
        obtain ⟨d1, d2⟩ := screenPixel_dims header 256 j u u' hbody
        exact ⟨d1.trans hu.1, d2.trans hu.2⟩) hv
    rw [g3, g4]
    rcases hH with rfl | rfl <;> simp only [Nat.reduceMod] <;> omega

/-- C33, instance: the dump `twoPixelDump` (begin 0, end 2) in `decodeScreen`: the loop
body is called for address 0 with row 0 and column 0 inside the 256 x 192 image. -/
theorem C33_clipping_in_bounds_witness :
    (0 : Nat) ≤ 0 ∧ 0 < 2 ∧ 0 + 1 < 65536 ∧
    0 / (ScreenWidth % 65536) < (NewRGBA ScreenWidth 192).height ∧
    0 % (ScreenWidth % 65536) < (NewRGBA ScreenWidth 192).width :=
  ((C33_clipping_in_bounds { beginAddress := 0, endAddress := 2, pixels := [0x00, 0xFF] }).2
    192 2 (by decide) (by decide)).2.2 0 (NewRGBA ScreenWidth 192) (Or.inl ⟨rfl, rfl⟩)

end MsxConverter
